import Mathlib

/-! Hardware breakpoint bookkeeping of `gdb/sparc-linux-nat.c`

A shallow embedding of the hardware breakpoint/watchpoint manager of the
GNU/Linux SPARC native backend, followed by theorems about it.

Modelling conventions.

* `unsigned int` and `CORE_ADDR` values are natural numbers; the cast
  `(unsigned int) x` is `x % 2 ^ 32`.  `int` values are integers.
* Breakpoint records live on a heap.  A pointer is `none` (the C `NULL`) or
  `some n`, the `n`-th object ever allocated by `xcalloc`; a freed object is
  never handed out again.  A heap cell is `some r` while the object is live
  and `none` once it has been freed.
* The vector `inf_list` is the list of the structures its elements point to;
  a pointer to one of them is its index in the vector.
* The process-control call `ptrace` is an arbitrary function from the call's
  arguments to its result; every operation also reports the calls it issued.
* Behaviour the C language leaves undefined (array subscript out of range,
  use of a freed or uninitialised pointer) ends the run with a `Fault`.
* Loops carry a fuel counter; the callers supply more fuel than any run can
  consume before it returns or faults.
-/

namespace SparcLinuxNat

set_option linter.unusedVariables false

/-! ## Constants and plain types -/

def PTRACE_SETHBREGS : Int := 27

def PTRACE_GETHBREGS : Int := 28

def REMOVE_BREAKPOINT : Int := 8

abbrev SPARC_MAX_HW_BPS : Nat := 4

/-- Modelled from the spec: the request code of the signal-info query, a
constant of the kernel headers (`PTRACE_GETSIGINFO`). -/
def PTRACE_GETSIGINFO : Int := 0x4202

/-- Modelled from the spec: the number of the architecture's trap signal, a
constant of the system headers (`SIGTRAP`). -/
def SIGTRAP : Int := 5

/-- Modelled from the spec: the kinds {write, read, access, execute} of
`enum target_hw_bp_type`, declared in `break-common.h`. -/
inductive target_hw_bp_type
  | hw_write
  | hw_read
  | hw_access
  | hw_execute
  deriving DecidableEq, Repr

/-- The integer value of an enumerator, as passed in an `int` argument. -/
def target_hw_bp_type.toInt : target_hw_bp_type → Int
  | .hw_write => 0
  | .hw_read => 1
  | .hw_access => 2
  | .hw_execute => 3

def INSERT_BREAKPOINT (TYPE : target_hw_bp_type) : Int := TYPE.toInt

def CHANGE_MASK (SLOT : Int) : Int := 4 + SLOT

/-- The cast `(unsigned int) x`. -/
def to_unsigned_int (x : Nat) : Nat := x % 2 ^ 32

/-- Modelled from the spec: the process identity `ptid_t`, declared in
`common/ptid.h`: an identifier with a process id component. -/
structure ptid_t where
  pid : Int
  lwp : Int
  tid : Int
  deriving DecidableEq, Repr

/-- Modelled from the spec: `ptid_equal` of `common/ptid.c`, the comparison
of two process identities. -/
def ptid_equal (a b : ptid_t) : Bool :=
  a.pid == b.pid && a.lwp == b.lwp && a.tid == b.tid

/-- Modelled from the spec: `ptid_get_pid` of `common/ptid.c`. -/
def ptid_get_pid (p : ptid_t) : Int := p.pid

structure sparc_linux_hw_breakpoint where
  address : Nat
  mask : Nat
  type : target_hw_bp_type
  enabled : Int
  hw_slot : Int
  deriving DecidableEq, Repr

/-- A pointer to a breakpoint record: `none` is `NULL`. -/
abbrev Ptr := Option Nat

abbrev NULL : Ptr := none

/-- The heap of breakpoint records: cell `n` is `some r` while object `n` is
live with contents `r`, and `none` after it was freed. -/
abbrev Heap := List (Option sparc_linux_hw_breakpoint)

structure sparc_linux_inferior_bps where
  id : ptid_t
  bps : Fin SPARC_MAX_HW_BPS → Ptr
  num : Int

/-- The arguments of one process-control call `ptrace (request, pid, addr, data)`. -/
structure ptrace_call where
  request : Int
  pid : Int
  addr : Int
  data : Int
  deriving DecidableEq, Repr

/-- The pending signal information filled in by the signal-info query. -/
structure siginfo_t where
  si_signo : Int
  si_addr : Nat
  deriving DecidableEq, Repr

/-- The ways a run leaves defined behaviour. -/
inductive Fault
  | out_of_bounds
  | invalid_pointer
  | invalid_free
  | uninitialized
  | out_of_fuel
  deriving DecidableEq, Repr

/-- The program state: the record heap, the global vector `inf_list` and the
global `inferior_ptid`. -/
structure State where
  heap : Heap
  inf_list : List sparc_linux_inferior_bps
  inferior_ptid : ptid_t

/-- What a completed operation hands back: its return value, the state it
leaves, and the process-control calls it issued, in order. -/
structure Ret (α : Type) where
  val : α
  st : State
  calls : List ptrace_call

/-! ## Heap primitives -/

/-- The contents of heap cell `n`: `none` when object `n` is not live. -/
def cell (heap : Heap) (n : Nat) : Option sparc_linux_hw_breakpoint :=
  heap.getD n none

/-- The record a pointer designates, when it designates a live object. -/
def deref (heap : Heap) : Ptr → Option sparc_linux_hw_breakpoint
  | none => none
  | some n => cell heap n

/-- The all-zero record that `xcalloc` returns. -/
def zero_hw_breakpoint : sparc_linux_hw_breakpoint :=
  ⟨0, 0, .hw_write, 0, 0⟩

/-- The call `xcalloc (1, sizeof (struct sparc_linux_hw_breakpoint))`. -/
def xcalloc_hw_breakpoint (heap : Heap) : Ptr × Heap :=
  (some heap.length, heap ++ [some zero_hw_breakpoint])

/-- Read through a pointer. -/
def load (heap : Heap) (p : Ptr) : Except Fault sparc_linux_hw_breakpoint :=
  match deref heap p with
  | none => .error .invalid_pointer
  | some r => .ok r

/-- Assign fields through a pointer. -/
def store (heap : Heap) (p : Ptr)
    (f : sparc_linux_hw_breakpoint → sparc_linux_hw_breakpoint) : Except Fault Heap :=
  match p with
  | none => .error .invalid_pointer
  | some n =>
    match cell heap n with
    | none => .error .invalid_pointer
    | some r => .ok (heap.set n (some (f r)))

/-- The call `xfree (p)`: nothing for `NULL`, release of a live object
otherwise. -/
def xfree (heap : Heap) : Ptr → Except Fault Heap
  | none => .ok heap
  | some n =>
    match cell heap n with
    | none => .error .invalid_free
    | some _ => .ok (heap.set n none)

/-! ## The slot set of one inferior -/

def hw_breakpoint_equal (bp1 bp2 : sparc_linux_hw_breakpoint) : Bool :=
  bp1.address == bp2.address && bp1.type == bp2.type

/-- The loop of `get_breakpoint_in_inf_list`, entered with index `i`. -/
def get_breakpoint_loop (heap : Heap) (list : sparc_linux_inferior_bps)
    (bp : sparc_linux_hw_breakpoint) : Nat → Nat → Except Fault Ptr
  | 0, _ => .error .out_of_fuel
  | fuel + 1, i =>
    if h : i < SPARC_MAX_HW_BPS then
      match list.bps ⟨i, h⟩ with
      | none => get_breakpoint_loop heap list bp fuel (i + 1)
      | some n =>
        match cell heap n with
        | none => .error .invalid_pointer
        | some r =>
          if hw_breakpoint_equal r bp then .ok (some n)
          else get_breakpoint_loop heap list bp fuel (i + 1)
    else .ok NULL

def get_breakpoint_in_inf_list (heap : Heap) (list : sparc_linux_inferior_bps)
    (bp : sparc_linux_hw_breakpoint) : Except Fault Ptr :=
  get_breakpoint_loop heap list bp (SPARC_MAX_HW_BPS + 1) 0

/-- The loop of `insert_breakpoint_in_inf_list`, entered with index `i`.  Its
continuation test is the constant `SPARC_MAX_HW_BPS`. -/
def insert_breakpoint_loop (list : sparc_linux_inferior_bps) (bp : Ptr) :
    Nat → Nat → Except Fault (Int × sparc_linux_inferior_bps)
  | 0, _ => .error .out_of_fuel
  | fuel + 1, i =>
    if SPARC_MAX_HW_BPS ≠ 0 then
      if h : i < SPARC_MAX_HW_BPS then
        if list.bps ⟨i, h⟩ = NULL then
          .ok (0, { list with bps := Function.update list.bps ⟨i, h⟩ bp })
        else insert_breakpoint_loop list bp fuel (i + 1)
      else .error .out_of_bounds
    else .ok (-1, list)

def insert_breakpoint_in_inf_list (list : sparc_linux_inferior_bps) (bp : Ptr) :
    Except Fault (Int × sparc_linux_inferior_bps) :=
  insert_breakpoint_loop list bp (SPARC_MAX_HW_BPS + 1) 0

/-- The loop of `remove_breakpoint_in_inf_list`, entered with index `i`.  Its
continuation test is the constant `SPARC_MAX_HW_BPS`. -/
def remove_breakpoint_loop (list : sparc_linux_inferior_bps) (bp : Ptr) :
    Nat → Nat → Except Fault (Int × sparc_linux_inferior_bps)
  | 0, _ => .error .out_of_fuel
  | fuel + 1, i =>
    if SPARC_MAX_HW_BPS ≠ 0 then
      if h : i < SPARC_MAX_HW_BPS then
        if list.bps ⟨i, h⟩ = bp then
          .ok (0, { list with bps := Function.update list.bps ⟨i, h⟩ NULL })
        else remove_breakpoint_loop list bp fuel (i + 1)
      else .error .out_of_bounds
    else .ok (-1, list)

def remove_breakpoint_in_inf_list (list : sparc_linux_inferior_bps) (bp : Ptr) :
    Except Fault (Int × sparc_linux_inferior_bps) :=
  remove_breakpoint_loop list bp (SPARC_MAX_HW_BPS + 1) 0

/-! ## The registry -/

/-- The search loop of `sparc_linux_get_inferior_bps` over the elements of
the vector from index `i` on. -/
def find_inferior_bps (id : ptid_t) : List sparc_linux_inferior_bps → Nat → Option Nat
  | [], _ => none
  | inf_bps :: rest, i =>
    if ptid_equal inf_bps.id id then some i else find_inferior_bps id rest (i + 1)

/-- The structure `xcalloc` returns for a new inferior, with `id` assigned. -/
def new_inferior_bps (id : ptid_t) : sparc_linux_inferior_bps :=
  ⟨id, fun _ => NULL, 0⟩

/-- Returns the index of the structure in the vector (the pointer), the
structure it points to, and the state with the possibly extended vector. -/
def sparc_linux_get_inferior_bps (s : State) (id : ptid_t) :
    Nat × sparc_linux_inferior_bps × State :=
  match find_inferior_bps id s.inf_list 0 with
  | some i => (i, s.inf_list.getD i (new_inferior_bps id), s)
  | none =>
    (s.inf_list.length, new_inferior_bps id,
      { s with inf_list := s.inf_list ++ [new_inferior_bps id] })

/-! ## Insert and remove -/

/-- The exit path `dealloc: xfree (bp); return -1;`. -/
def dealloc (s : State) (bp : Ptr) (calls : List ptrace_call) : Except Fault (Ret Int) :=
  match xfree s.heap bp with
  | .error e => .error e
  | .ok heap => .ok ⟨-1, { s with heap := heap }, calls⟩

def sparc_linux_insert_hw_breakpoint_1 (s : State) (ptrace : ptrace_call → Int)
    (address : Nat) (type : target_hw_bp_type) (mask : Nat) : Except Fault (Ret Int) :=
  match sparc_linux_get_inferior_bps s s.inferior_ptid with
  | (k, inf_bps, s1) =>
    match xcalloc_hw_breakpoint s1.heap with
    | (bp, heap1) =>
      match store heap1 bp (fun r =>
          { r with address := to_unsigned_int address, type := type, enabled := 1 }) with
      | .error e => .error e
      | .ok heap2 =>
        let inf_pid := ptid_get_pid s1.inferior_ptid
        match load heap2 bp with
        | .error e => .error e
        | .ok b =>
          match get_breakpoint_in_inf_list heap2 inf_bps b with
          | .error e => .error e
          | .ok (some _) => dealloc { s1 with heap := heap2 } bp []
          | .ok none =>
            match insert_breakpoint_in_inf_list inf_bps bp with
            | .error e => .error e
            | .ok (rc, inf_bps1) =>
              let s2 : State :=
                ⟨heap2, s1.inf_list.set k inf_bps1, s1.inferior_ptid⟩
              if rc ≠ 0 then dealloc s2 bp []
              else
                let call : ptrace_call :=
                  ⟨PTRACE_SETHBREGS, inf_pid, b.address, INSERT_BREAKPOINT b.type⟩
                let r := ptrace call
                match store heap2 bp (fun x => { x with hw_slot := r }) with
                | .error e => .error e
                | .ok heap3 =>
                  if r < 0 then dealloc { s2 with heap := heap3 } bp [call]
                  else if mask ≠ 0 then
                    match load heap3 bp with
                    | .error e => .error e
                    | .ok b3 =>
                      let call2 : ptrace_call :=
                        ⟨PTRACE_SETHBREGS, inf_pid, b3.mask, CHANGE_MASK r⟩
                      match store heap3 bp (fun x => { x with mask := mask }) with
                      | .error e => .error e
                      | .ok heap4 => .ok ⟨0, { s2 with heap := heap4 }, [call, call2]⟩
                  else .ok ⟨0, { s2 with heap := heap3 }, [call]⟩

def sparc_linux_remove_hw_breakpoint_1 (s : State) (ptrace : ptrace_call → Int)
    (comp_bp : sparc_linux_hw_breakpoint) : Except Fault (Ret Int) :=
  match sparc_linux_get_inferior_bps s s.inferior_ptid with
  | (k, inf_bps, s1) =>
    let inf_pid := ptid_get_pid s1.inferior_ptid
    match get_breakpoint_in_inf_list s1.heap inf_bps comp_bp with
    | .error e => .error e
    | .ok none => .ok ⟨-1, s1, []⟩
    | .ok (some n) =>
      match load s1.heap (some n) with
      | .error e => .error e
      | .ok b =>
        let call : ptrace_call :=
          ⟨PTRACE_SETHBREGS, inf_pid, b.hw_slot, REMOVE_BREAKPOINT⟩
        let r := ptrace call
        match remove_breakpoint_in_inf_list inf_bps (some n) with
        | .error e => .error e
        | .ok (_, inf_bps1) =>
          let s2 : State := { s1 with inf_list := s1.inf_list.set k inf_bps1 }
          if r < 0 then .ok ⟨-1, s2, [call]⟩
          else
            match xfree s2.heap (some n) with
            | .error e => .error e
            | .ok heap1 => .ok ⟨0, { s2 with heap := heap1 }, [call]⟩

/-! ## Trap attribution -/

/-- The parameter `siginfo` is what the signal-info query wrote into its
output buffer.  The fields of `comp_bp` that the function leaves unassigned
are never read; they are given the value zero here. -/
def sparc_linux_stopped_by_watchpoint (s : State) (siginfo : siginfo_t) :
    Except Fault (Ret Int) :=
  let inf_pid := ptid_get_pid s.inferior_ptid
  let call : ptrace_call := ⟨PTRACE_GETSIGINFO, inf_pid, 0, 0⟩
  if siginfo.si_signo ≠ SIGTRAP then .ok ⟨0, s, [call]⟩
  else
    match sparc_linux_get_inferior_bps s s.inferior_ptid with
    | (_, inf_bps, s1) =>
      let comp_bp : sparc_linux_hw_breakpoint :=
        ⟨to_unsigned_int siginfo.si_addr, 0, .hw_execute, 0, 0⟩
      match get_breakpoint_in_inf_list s1.heap inf_bps comp_bp with
      | .error e => .error e
      | .ok none => .ok ⟨1, s1, [call]⟩
      | .ok (some _) => .ok ⟨0, s1, [call]⟩

/-! ## Reclaiming a process -/

/-- The search loop of `sparc_linux_forget_process` over the elements of the
vector from index `i` on.  It returns the final value of `i` and the value of
the local `inf_bps`, which is `none` while no assignment has reached it. -/
def forget_find_loop (pid : Int) : List sparc_linux_inferior_bps → Nat → Nat × Option Nat
  | [], i => (i, none)
  | p :: rest, i =>
    if p.id.pid = pid then (i, some i) else forget_find_loop pid rest (i + 1)

/-- The loop of `sparc_linux_forget_process` that frees the records, entered
with index `j`. -/
def forget_free_loop : Nat → Nat → Heap → sparc_linux_inferior_bps →
    Except Fault (Heap × sparc_linux_inferior_bps)
  | 0, _, _, _ => .error .out_of_fuel
  | fuel + 1, j, heap, inf_bps =>
    if h : j < SPARC_MAX_HW_BPS then
      match inf_bps.bps ⟨j, h⟩ with
      | none => forget_free_loop fuel (j + 1) heap inf_bps
      | some n =>
        match xfree heap (some n) with
        | .error e => .error e
        | .ok heap1 =>
          forget_free_loop fuel (j + 1) heap1
            { inf_bps with bps := Function.update inf_bps.bps ⟨j, h⟩ NULL }
    else .ok (heap, inf_bps)

def sparc_linux_forget_process (s : State) (pid : Int) : Except Fault (Ret Unit) :=
  match forget_find_loop pid s.inf_list 0 with
  | (_, none) => .error .uninitialized
  | (i, some k) =>
    match forget_free_loop (SPARC_MAX_HW_BPS + 1) 0 s.heap
        (s.inf_list.getD k (new_inferior_bps s.inferior_ptid)) with
    | .error e => .error e
    | .ok (heap1, _) => .ok ⟨(), { s with heap := heap1, inf_list := s.inf_list.eraseIdx i }, []⟩

/-! ## Address normalisation and the target operations

`CORE_ADDR` is `bfd_vma`, declared outside this file: an unsigned type of 32
or 64 bits, depending on the build.  Its values are natural numbers here; a
`CORE_ADDR` of `n` bits ranges over the naturals below `2 ^ n`.  The cast of
an `unsigned int` to `CORE_ADDR` keeps the value. -/

/-- The local `int_addr` holds the 32 bits of `(unsigned int) addr`; in
`int_addr & 0xfffffffc` it is converted back to `unsigned int`, the type of
the constant, so the conjunction is taken on `(unsigned int) addr`. -/
def sparc_place_addr (addr : Nat) : Nat :=
  to_unsigned_int addr &&& 0xfffffffc

/-- The arguments `t`, `type` and `othertype` are not used; the enumerators of
`enum bptype` are given as integers. -/
def sparc_linux_can_use_hw_breakpoint (type : Int) (cnt : Int) (othertype : Int) : Int :=
  if cnt > SPARC_MAX_HW_BPS then -1 else 1

/-- Modelled from the spec: the two address fields of `struct bp_target_info`
(declared in `breakpoint.h`) that the breakpoint operations use: the address
requested and the address placed. -/
structure bp_target_info where
  reqstd_address : Nat
  placed_address : Nat
  deriving DecidableEq, Repr

/-- The fields of the comparator that the target operations leave unassigned
are never read; they are given the value zero here. -/
def sparc_linux_remove_hw_breakpoint (s : State) (ptrace : ptrace_call → Int)
    (info : bp_target_info) : Except Fault (Ret Int) :=
  sparc_linux_remove_hw_breakpoint_1 s ptrace
    ⟨to_unsigned_int info.placed_address, 0, .hw_execute, 0, 0⟩

/-- Returns the result together with `info` after the assignment to
`info->placed_address`. -/
def sparc_linux_insert_hw_breakpoint (s : State) (ptrace : ptrace_call → Int)
    (info : bp_target_info) : Except Fault (Ret Int) × bp_target_info :=
  let address := sparc_place_addr info.reqstd_address
  (sparc_linux_insert_hw_breakpoint_1 s ptrace address .hw_execute 0,
    { info with placed_address := address })

def sparc_linux_remove_watchpoint (s : State) (ptrace : ptrace_call → Int)
    (addr : Nat) (len : Int) (type : target_hw_bp_type) : Except Fault (Ret Int) :=
  sparc_linux_remove_hw_breakpoint_1 s ptrace ⟨to_unsigned_int addr, 0, type, 0, 0⟩

def sparc_linux_insert_watchpoint (s : State) (ptrace : ptrace_call → Int)
    (addr : Nat) (len : Int) (type : target_hw_bp_type) : Except Fault (Ret Int) :=
  sparc_linux_insert_hw_breakpoint_1 s ptrace (sparc_place_addr addr) type 0

def sparc_linux_insert_mask_watchpoint (s : State) (ptrace : ptrace_call → Int)
    (addr : Nat) (mask : Nat) (type : target_hw_bp_type) : Except Fault (Ret Int) :=
  sparc_linux_insert_hw_breakpoint_1 s ptrace (sparc_place_addr addr) type
    (to_unsigned_int mask)

def sparc_linux_remove_mask_watchpoint (s : State) (ptrace : ptrace_call → Int)
    (addr : Nat) (mask : Nat) (type : target_hw_bp_type) : Except Fault (Ret Int) :=
  sparc_linux_remove_hw_breakpoint_1 s ptrace ⟨to_unsigned_int addr, 0, type, 0, 0⟩

/-! ## Views used in the statements -/

/-- The slot set of `id` in state `s`: the structure that
`sparc_linux_get_inferior_bps` yields for it. -/
def slot_set (s : State) (id : ptid_t) : sparc_linux_inferior_bps :=
  (sparc_linux_get_inferior_bps s id).2.1

/-- Every occupied position of the set points to a live record. -/
def slots_live (heap : Heap) (list : sparc_linux_inferior_bps) : Prop :=
  ∀ (i : Fin SPARC_MAX_HW_BPS) (n : Nat), list.bps i = some n → ∃ r, cell heap n = some r

/-- The set holds, at some position, a live record with this address and
kind. -/
def holds (heap : Heap) (list : sparc_linux_inferior_bps) (address : Nat)
    (type : target_hw_bp_type) : Prop :=
  ∃ (i : Fin SPARC_MAX_HW_BPS) (n : Nat) (r : sparc_linux_hw_breakpoint),
    list.bps i = some n ∧ cell heap n = some r ∧ r.address = address ∧ r.type = type

/-- No two positions of the set hold the same pointer. -/
def slots_distinct (list : sparc_linux_inferior_bps) : Prop :=
  ∀ (i j : Fin SPARC_MAX_HW_BPS) (n : Nat), list.bps i = some n → list.bps j = some n → i = j

/-- The record `bp` points to while `sparc_linux_insert_hw_breakpoint_1`
scans the set: the zeroed record with `address`, `type` and `enabled`
assigned. -/
def candidate (address : Nat) (type : target_hw_bp_type) : sparc_linux_hw_breakpoint :=
  ⟨to_unsigned_int address, 0, type, 1, 0⟩

/-- The install call `ptrace (PTRACE_SETHBREGS, inf_pid, bp->address,
INSERT_BREAKPOINT (bp->type))`. -/
def install_call (s : State) (address : Nat) (type : target_hw_bp_type) : ptrace_call :=
  ⟨PTRACE_SETHBREGS, ptid_get_pid s.inferior_ptid, to_unsigned_int address,
    INSERT_BREAKPOINT type⟩

/-- The mask call `ptrace (PTRACE_SETHBREGS, inf_pid, bp->mask, CHANGE_MASK (r))`,
issued while `bp->mask` still has the value zero that `xcalloc` gave it. -/
def mask_call (s : State) (r : Int) : ptrace_call :=
  ⟨PTRACE_SETHBREGS, ptid_get_pid s.inferior_ptid, 0, CHANGE_MASK r⟩

/-- The remove call `ptrace (PTRACE_SETHBREGS, inf_pid, bp->hw_slot,
REMOVE_BREAKPOINT)`. -/
def remove_call (s : State) (hw_slot : Int) : ptrace_call :=
  ⟨PTRACE_SETHBREGS, ptid_get_pid s.inferior_ptid, hw_slot, REMOVE_BREAKPOINT⟩

/-- The structure the registry answers for `id`: the first one in the vector
with that identity, or a new empty one. -/
def lookup_inferior_bps (l : List sparc_linux_inferior_bps) (id : ptid_t) :
    sparc_linux_inferior_bps :=
  match find_inferior_bps id l 0 with
  | some i => l.getD i (new_inferior_bps id)
  | none => new_inferior_bps id

/-- The vector holds at most one structure per process identity. -/
def one_set_per_identity (l : List sparc_linux_inferior_bps) : Prop :=
  ∀ (i j : Nat) (x y : sparc_linux_inferior_bps),
    l[i]? = some x → l[j]? = some y → x.id = y.id → i = j

/-! ## Example states -/

/-- An example process identity. -/
def demo_P : ptid_t := ⟨1, 0, 0⟩

/-- A second example process identity. -/
def demo_Q : ptid_t := ⟨2, 0, 0⟩

/-- The state before any breakpoint was requested, with `demo_P` current. -/
def demo_empty : State := ⟨[], [], demo_P⟩

/-- The state in which `demo_P` holds an execute breakpoint at 0x1000. -/
def demo_one : State :=
  ⟨[some ⟨0x1000, 0, .hw_execute, 1, 0⟩],
    [⟨demo_P, fun i => if i.val = 0 then some 0 else none, 0⟩], demo_P⟩

/-- The state in which `demo_P` holds execute breakpoints at 0x1000, 0x2000,
0x3000 and 0x4000. -/
def demo_full : State :=
  ⟨[some ⟨0x1000, 0, .hw_execute, 1, 0⟩, some ⟨0x2000, 0, .hw_execute, 1, 1⟩,
      some ⟨0x3000, 0, .hw_execute, 1, 2⟩, some ⟨0x4000, 0, .hw_execute, 1, 3⟩],
    [⟨demo_P, fun i => some i.val, 0⟩], demo_P⟩

/-- The state that the insert of an execute breakpoint at 0x1000 leaves when
started in `demo_empty` with `demo_ptrace_ok`. -/
def demo_inserted : State :=
  ⟨[some ⟨0x1000, 0, .hw_execute, 1, 0⟩],
    [⟨demo_P, Function.update (fun _ => NULL) 0 (some 0), 0⟩], demo_P⟩

/-- Two identities with the same process id: two threads of process 1. -/
def demo_T1 : ptid_t := ⟨1, 1, 0⟩

/-- The second thread of process 1. -/
def demo_T2 : ptid_t := ⟨1, 2, 0⟩

/-- The state in which `demo_T2`, first in the vector, holds a write
watchpoint at 0x8000 and `demo_T1` holds execute breakpoints at 0x1000,
0x2000 and 0x3000. -/
def demo_threads : State :=
  ⟨[some ⟨0x1000, 0, .hw_execute, 1, 0⟩, some ⟨0x2000, 0, .hw_execute, 1, 1⟩,
      some ⟨0x3000, 0, .hw_execute, 1, 2⟩, some ⟨0x8000, 0, .hw_write, 1, 3⟩],
    [⟨demo_T2, fun i => if i.val = 0 then some 3 else none, 0⟩,
      ⟨demo_T1, fun i => if i.val < 3 then some i.val else none, 0⟩], demo_T1⟩

/-- The state in which `demo_Q`, first in the vector, holds a write
watchpoint at 0x8000 and `demo_P` holds execute breakpoints at 0x1000, 0x2000
and 0x3000. -/
def demo_three : State :=
  ⟨[some ⟨0x1000, 0, .hw_execute, 1, 0⟩, some ⟨0x2000, 0, .hw_execute, 1, 1⟩,
      some ⟨0x3000, 0, .hw_execute, 1, 2⟩, some ⟨0x8000, 0, .hw_write, 1, 3⟩],
    [⟨demo_Q, fun i => if i.val = 0 then some 3 else none, 0⟩,
      ⟨demo_P, fun i => if i.val < 3 then some i.val else none, 0⟩], demo_P⟩

/-- A process-control call that always succeeds, with result 0. -/
def demo_ptrace_ok : ptrace_call → Int := fun _ => 0

/-- A process-control call that always fails. -/
def demo_ptrace_fail : ptrace_call → Int := fun _ => -1

/-- What an operation run for the inferior `P` lets `P` observe: the return
value, the calls issued, the heap and the slot set of `P` afterwards, or the
fault. -/
def observed (P : ptid_t) (r : Except Fault (Ret Int)) :
    Except Fault (Int × List ptrace_call × Heap × sparc_linux_inferior_bps) :=
  match r with
  | .error e => .error e
  | .ok x => .ok (x.val, x.calls, x.st.heap, slot_set x.st P)

/-- The same state with another inferior selected: the assignment to the
global `inferior_ptid` that the debugger core makes when it switches. -/
def switch_inferior (s : State) (id : ptid_t) : State :=
  { s with inferior_ptid := id }

/-- Execute breakpoints at the given addresses requested one after the other
for the current inferior, with `demo_ptrace_ok`; the return values in order
and the final state. -/
def demo_insert_all : State → List Nat → Except Fault (List Int × State)
  | s, [] => .ok ([], s)
  | s, a :: rest =>
    match sparc_linux_insert_hw_breakpoint_1 s demo_ptrace_ok a .hw_execute 0 with
    | .error e => .error e
    | .ok r =>
      match demo_insert_all r.st rest with
      | .error e => .error e
      | .ok (vs, s') => .ok (r.val :: vs, s')

/-- The state after `demo_P` and then `demo_Q` each requested execute
breakpoints at 0x1000, 0x2000, 0x3000 and 0x4000, starting from `demo_empty`;
`demo_empty` itself should a request fault. -/
def demo_both : State :=
  match demo_insert_all demo_empty [0x1000, 0x2000, 0x3000, 0x4000] with
  | .error _ => demo_empty
  | .ok (_, s) =>
    match demo_insert_all (switch_inferior s demo_Q) [0x1000, 0x2000, 0x3000, 0x4000] with
    | .error _ => demo_empty
    | .ok (_, s') => s'

/-! ## Reachable states -/

/-- The number of occupied positions of a set. -/
def occupied (l : sparc_linux_inferior_bps) : Nat :=
  ((List.finRange SPARC_MAX_HW_BPS).filter (fun i => (l.bps i).isSome)).length

/-- Every pointer in the set is one that `xcalloc` has handed out. -/
def pointers_in_heap (heap : Heap) (l : sparc_linux_inferior_bps) : Prop :=
  ∀ (i : Fin SPARC_MAX_HW_BPS) (n : Nat), l.bps i = some n → n < heap.length

/-- No two positions of the set hold live records with the same address and
kind; the mask is not compared. -/
def no_equal_records (heap : Heap) (l : sparc_linux_inferior_bps) : Prop :=
  ∀ (i j : Fin SPARC_MAX_HW_BPS) (n m : Nat) (r r' : sparc_linux_hw_breakpoint),
    l.bps i = some n → l.bps j = some m → cell heap n = some r → cell heap m = some r' →
    r.address = r'.address → r.type = r'.type → i = j

/-- The states reachable from the empty registry: by the debugger selecting
an inferior, and by completed runs of the lookup, insert, remove, trap
attribution and reclaim operations, with any process-control call. -/
inductive Reachable : State → Prop
  | empty (id : ptid_t) : Reachable ⟨[], [], id⟩
  | switch (s : State) (id : ptid_t) : Reachable s → Reachable (switch_inferior s id)
  | get_or_create (s : State) (id : ptid_t) :
      Reachable s → Reachable (sparc_linux_get_inferior_bps s id).2.2
  | insert (s : State) (ptrace : ptrace_call → Int) (address : Nat)
      (type : target_hw_bp_type) (mask : Nat) (r : Ret Int) :
      Reachable s →
      sparc_linux_insert_hw_breakpoint_1 s ptrace address type mask = .ok r →
      Reachable r.st
  | remove (s : State) (ptrace : ptrace_call → Int)
      (comp_bp : sparc_linux_hw_breakpoint) (r : Ret Int) :
      Reachable s →
      sparc_linux_remove_hw_breakpoint_1 s ptrace comp_bp = .ok r →
      Reachable r.st
  | stopped (s : State) (siginfo : siginfo_t) (r : Ret Int) :
      Reachable s →
      sparc_linux_stopped_by_watchpoint s siginfo = .ok r →
      Reachable r.st
  | forget (s : State) (pid : Int) (r : Ret Unit) :
      Reachable s →
      sparc_linux_forget_process s pid = .ok r →
      Reachable r.st

/-- What holds of every set in every reachable state: the field `num` is
zero, the pointers are allocated ones, and no two live records have the same
address and kind. -/
def entry_ok (heap : Heap) (l : sparc_linux_inferior_bps) : Prop :=
  l.num = 0 ∧ pointers_in_heap heap l ∧ no_equal_records heap l

/-! ## Runs of insert and remove operations -/

/-- One operation on the slot set of the current inferior, with the
process-control call it is run with. -/
inductive Op
  | insert (ptrace : ptrace_call → Int) (address : Nat) (type : target_hw_bp_type)
      (mask : Nat)
  | remove (ptrace : ptrace_call → Int) (comp_bp : sparc_linux_hw_breakpoint)

def run_op (s : State) : Op → Except Fault (Ret Int)
  | .insert ptrace address type mask =>
    sparc_linux_insert_hw_breakpoint_1 s ptrace address type mask
  | .remove ptrace comp_bp => sparc_linux_remove_hw_breakpoint_1 s ptrace comp_bp

/-- One completed operation of a run: the state it started in, the
operation, its return value and the process-control calls it issued. -/
structure Step where
  pre : State
  op : Op
  val : Int
  calls : List ptrace_call

/-- The operations run one after the other, each in the state the one before
left; the steps in order and the final state. -/
def run : State → List Op → Except Fault (List Step × State)
  | s, [] => .ok ([], s)
  | s, op :: rest =>
    match run_op s op with
    | .error e => .error e
    | .ok r =>
      match run r.st rest with
      | .error e => .error e
      | .ok (log, s') => .ok (⟨s, op, r.val, r.calls⟩ :: log, s')

/-- The step issued an install call for the pair: it is an insert of the
pair, as stored, that issued process-control calls. -/
def Step.installs (e : Step) (a : Nat) (t : target_hw_bp_type) : Prop :=
  match e.op with
  | .insert _ address type _ => to_unsigned_int address = a ∧ type = t ∧ e.calls ≠ []
  | .remove _ _ => False

/-- The step issued a remove call for a record of the pair: it is a remove
with a comparator of the pair that issued a process-control call. -/
def Step.removes (e : Step) (a : Nat) (t : target_hw_bp_type) : Prop :=
  match e.op with
  | .insert _ _ _ _ => False
  | .remove _ comp_bp => comp_bp.address = a ∧ comp_bp.type = t ∧ e.calls ≠ []

/-- Some position of the set of the current inferior holds a pointer to a
released record. -/
def dangling (s : State) : Prop :=
  ∃ (i : Fin SPARC_MAX_HW_BPS) (n : Nat),
    (slot_set s s.inferior_ptid).bps i = some n ∧ cell s.heap n = none

/-- The steps contain an install call for the pair with no remove call for it
afterwards. -/
def pending (log : List Step) (a : Nat) (t : target_hw_bp_type) : Prop :=
  ∃ (pre : List Step) (e : Step) (post : List Step),
    log = pre ++ e :: post ∧ e.installs a t ∧ ∀ e' ∈ post, ¬ e'.removes a t

/-- The state accounts for the steps so far: a pair with an install call
pending is held by the set, unless the set holds a released record. -/
def history_ok (log : List Step) (s : State) : Prop :=
  ∀ (a : Nat) (t : target_hw_bp_type), pending log a t →
    holds s.heap (slot_set s s.inferior_ptid) a t ∨ dangling s

/-- No step of the second list issues an install call for a pair for which
one is pending in the steps before it. -/
def separated : List Step → List Step → Prop
  | _, [] => True
  | hist, e :: rest =>
    (∀ (a : Nat) (t : target_hw_bp_type), e.installs a t → ¬ pending hist a t) ∧
    separated (hist ++ [e]) rest

/-- The spec's example as a run: insert execute at 0x1000, remove at 0x1000,
insert at 0x1000 again. -/
def demo_ops : List Op :=
  [.insert demo_ptrace_ok 0x1000 .hw_execute 0,
    .remove demo_ptrace_ok ⟨0x1000, 0, .hw_execute, 0, 0⟩,
    .insert demo_ptrace_ok 0x1000 .hw_execute 0]

/-! ## What a slot set contains -/

/-- What the set of `id` contains, position by position, whatever the values
of the pointers are: nothing at an empty position, and at an occupied one the
contents of the cell pointed to, `none` for a released record. -/
def set_contents (s : State) (id : ptid_t) (i : Fin SPARC_MAX_HW_BPS) :
    Option (Option sparc_linux_hw_breakpoint) :=
  ((slot_set s id).bps i).map (cell s.heap)

/-- What an operation run for the inferior `P` does, as far as `P` and the
process-control interface can tell: the return value, the calls issued and
the contents of the set of `P` afterwards, or the fault. -/
def outcome (P : ptid_t) (r : Except Fault (Ret Int)) :
    Except Fault (Int × List ptrace_call ×
      (Fin SPARC_MAX_HW_BPS → Option (Option sparc_linux_hw_breakpoint))) :=
  match r with
  | .error e => .error e
  | .ok x => .ok (x.val, x.calls, set_contents x.st P)

/-- The inferior `demo_P` on its own, holding the three execute breakpoints it
holds in `demo_three`: no set and no record of `demo_Q`. -/
def demo_alone : State :=
  ⟨[some ⟨0x1000, 0, .hw_execute, 1, 0⟩, some ⟨0x2000, 0, .hw_execute, 1, 1⟩,
      some ⟨0x3000, 0, .hw_execute, 1, 2⟩],
    [⟨demo_P, fun i => if i.val < 3 then some i.val else none, 0⟩], demo_P⟩

/-! ## Heap lemmas -/

theorem cell_lt_length {heap : Heap} {n : Nat} {r : sparc_linux_hw_breakpoint}
    (h : cell heap n = some r) : n < heap.length := by
  by_contra hn
  simp [cell, List.getD_eq_getElem?_getD, List.getElem?_eq_none (Nat.le_of_not_lt hn)] at h

theorem cell_append_old {heap : Heap} {n : Nat} {r : sparc_linux_hw_breakpoint}
    (c : Option sparc_linux_hw_breakpoint) (h : cell heap n = some r) :
    cell (heap ++ [c]) n = some r := by
  have hlt := cell_lt_length h
  rw [← h]
  simp [cell, List.getD_eq_getElem?_getD, List.getElem?_append_left hlt]

theorem cell_append_lt {heap : Heap} {n : Nat} (c : Option sparc_linux_hw_breakpoint)
    (hlt : n < heap.length) : cell (heap ++ [c]) n = cell heap n := by
  simp [cell, List.getD_eq_getElem?_getD, List.getElem?_append_left hlt]

theorem cell_append_new (heap : Heap) (c : Option sparc_linux_hw_breakpoint) :
    cell (heap ++ [c]) heap.length = c := by
  simp [cell]

theorem set_append_new (heap : Heap) (c d : Option sparc_linux_hw_breakpoint) :
    (heap ++ [c]).set heap.length d = heap ++ [d] := by
  simp

theorem cell_set_ne (heap : Heap) {n m : Nat} (c : Option sparc_linux_hw_breakpoint)
    (h : m ≠ n) : cell (heap.set n c) m = cell heap m := by
  simp [cell, List.getD_eq_getElem?_getD, List.getElem?_set, h.symm]

theorem cell_set_none (heap : Heap) (n : Nat) : cell (heap.set n none) n = none := by
  by_cases h : n < heap.length <;>
    simp [cell, List.getD_eq_getElem?_getD, List.getElem?_set, h]

theorem hw_breakpoint_equal_iff (a b : sparc_linux_hw_breakpoint) :
    hw_breakpoint_equal a b = true ↔ a.address = b.address ∧ a.type = b.type := by
  simp [hw_breakpoint_equal]

theorem ptid_equal_iff (a b : ptid_t) : ptid_equal a b = true ↔ a = b := by
  cases a; cases b; simp [ptid_equal, and_assoc]

/-! ## The scan of `get_breakpoint_in_inf_list` -/

theorem get_breakpoint_loop_none (heap : Heap) (list : sparc_linux_inferior_bps)
    (bp : sparc_linux_hw_breakpoint) :
    ∀ (fuel i : Nat), SPARC_MAX_HW_BPS < fuel + i → i ≤ SPARC_MAX_HW_BPS →
      (∀ (j : Fin SPARC_MAX_HW_BPS), i ≤ j.val → ∀ n, list.bps j = some n →
        ∃ r, cell heap n = some r ∧ hw_breakpoint_equal r bp = false) →
      get_breakpoint_loop heap list bp fuel i = .ok NULL := by
  intro fuel
  induction fuel with
  | zero => intro i h1 h2; omega
  | succ fuel ih =>
    intro i h1 h2 hall
    unfold get_breakpoint_loop
    have h4 : SPARC_MAX_HW_BPS = 4 := rfl
    by_cases hi : i < SPARC_MAX_HW_BPS
    · have hrec := ih (i + 1) (by omega) (by omega)
        (fun j hj n hn => hall j (by omega) n hn)
      rw [dif_pos hi]
      cases hb : list.bps ⟨i, hi⟩ with
      | none => simpa using hrec
      | some n =>
        obtain ⟨r, hr, hne⟩ := hall ⟨i, hi⟩ (le_refl _) n hb
        simp [hr, hne, hrec]
    · rw [dif_neg hi]

theorem get_breakpoint_loop_some (heap : Heap) (list : sparc_linux_inferior_bps)
    (bp : sparc_linux_hw_breakpoint) (j : Fin SPARC_MAX_HW_BPS) (n : Nat)
    (r : sparc_linux_hw_breakpoint) (hj : list.bps j = some n)
    (hr : cell heap n = some r) (heq : hw_breakpoint_equal r bp = true) :
    ∀ (fuel i : Nat), SPARC_MAX_HW_BPS < fuel + i → i ≤ j.val →
      (∀ (j' : Fin SPARC_MAX_HW_BPS), i ≤ j'.val → j'.val < j.val → ∀ m, list.bps j' = some m →
        ∃ r', cell heap m = some r' ∧ hw_breakpoint_equal r' bp = false) →
      get_breakpoint_loop heap list bp fuel i = .ok (some n) := by
  intro fuel
  induction fuel with
  | zero => intro i h1 h2; have := j.isLt; omega
  | succ fuel ih =>
    intro i h1 h2 hall
    unfold get_breakpoint_loop
    have hi : i < SPARC_MAX_HW_BPS := lt_of_le_of_lt h2 j.isLt
    have h4 : SPARC_MAX_HW_BPS = 4 := rfl
    rw [dif_pos hi]
    by_cases hij : i = j.val
    · have hfin : (⟨i, hi⟩ : Fin SPARC_MAX_HW_BPS) = j := Fin.ext hij
      rw [hfin, hj]
      simp [hr, heq]
    · have hrec := ih (i + 1) (by omega) (by omega)
        (fun j' h1' h2' m hm => hall j' (by omega) h2' m hm)
      cases hb : list.bps ⟨i, hi⟩ with
      | none => simpa using hrec
      | some m =>
        obtain ⟨r', hr', hne⟩ := hall ⟨i, hi⟩ (le_refl _) (show i < j.val by omega) m hb
        simp [hr', hne, hrec]

/-- What a scan that ends with `NULL` has seen: every occupied position from
`i` on pointed to a live record different from `bp`. -/
theorem get_breakpoint_loop_none_inv (heap : Heap) (list : sparc_linux_inferior_bps)
    (bp : sparc_linux_hw_breakpoint) :
    ∀ (fuel i : Nat), get_breakpoint_loop heap list bp fuel i = .ok NULL →
      ∀ (j : Fin SPARC_MAX_HW_BPS), i ≤ j.val → ∀ n, list.bps j = some n →
        ∃ r, cell heap n = some r ∧ hw_breakpoint_equal r bp = false := by
  intro fuel
  induction fuel with
  | zero => intro i h; simp [get_breakpoint_loop] at h
  | succ fuel ih =>
    intro i h j hij n hn
    unfold get_breakpoint_loop at h
    have hi : i < SPARC_MAX_HW_BPS := lt_of_le_of_lt hij j.isLt
    rw [dif_pos hi] at h
    by_cases hij2 : i = j.val
    · have hfin : (⟨i, hi⟩ : Fin SPARC_MAX_HW_BPS) = j := Fin.ext hij2
      rw [hfin, hn] at h
      cases hr : cell heap n with
      | none => simp [hr] at h
      | some r =>
        refine ⟨r, rfl, ?_⟩
        cases he : hw_breakpoint_equal r bp with
        | false => rfl
        | true => simp [hr, he] at h
    · cases hb : list.bps ⟨i, hi⟩ with
      | none =>
        rw [hb] at h
        exact ih (i + 1) h j (by omega) n hn
      | some m =>
        rw [hb] at h
        cases hr : cell heap m with
        | none => simp [hr] at h
        | some r =>
          cases he : hw_breakpoint_equal r bp with
          | true => simp [hr, he] at h
          | false =>
            simp [hr, he] at h
            exact ih (i + 1) h j (by omega) n hn

/-- What a scan that ends with a pointer has found: the first occupied
position from `i` on whose record equals `bp`. -/
theorem get_breakpoint_loop_some_inv (heap : Heap) (list : sparc_linux_inferior_bps)
    (bp : sparc_linux_hw_breakpoint) (n : Nat) :
    ∀ (fuel i : Nat), get_breakpoint_loop heap list bp fuel i = .ok (some n) →
      ∃ (j : Fin SPARC_MAX_HW_BPS) (r : sparc_linux_hw_breakpoint), i ≤ j.val ∧
        list.bps j = some n ∧ cell heap n = some r ∧ hw_breakpoint_equal r bp = true ∧
        ∀ (j' : Fin SPARC_MAX_HW_BPS), i ≤ j'.val → j'.val < j.val → ∀ m, list.bps j' = some m →
          ∃ r', cell heap m = some r' ∧ hw_breakpoint_equal r' bp = false := by
  intro fuel
  induction fuel with
  | zero => intro i h; simp [get_breakpoint_loop] at h
  | succ fuel ih =>
    intro i h
    unfold get_breakpoint_loop at h
    by_cases hi : i < SPARC_MAX_HW_BPS
    · rw [dif_pos hi] at h
      have step : get_breakpoint_loop heap list bp fuel (i + 1) = .ok (some n) →
          (∀ m, list.bps ⟨i, hi⟩ = some m →
            ∃ r', cell heap m = some r' ∧ hw_breakpoint_equal r' bp = false) →
          ∃ (j : Fin SPARC_MAX_HW_BPS) (r : sparc_linux_hw_breakpoint), i ≤ j.val ∧
            list.bps j = some n ∧ cell heap n = some r ∧
            hw_breakpoint_equal r bp = true ∧
            ∀ (j' : Fin SPARC_MAX_HW_BPS), i ≤ j'.val → j'.val < j.val → ∀ m,
              list.bps j' = some m →
              ∃ r', cell heap m = some r' ∧ hw_breakpoint_equal r' bp = false := by
        intro hrec hcur
        obtain ⟨j, r, h1, h2, h3, h4, h5⟩ := ih (i + 1) hrec
        refine ⟨j, r, by omega, h2, h3, h4, ?_⟩
        intro j' hj1 hj2 m hm
        by_cases hji : j'.val = i
        · have hfin : j' = ⟨i, hi⟩ := Fin.ext hji
          rw [hfin] at hm
          exact hcur m hm
        · exact h5 j' (by omega) hj2 m hm
      cases hb : list.bps ⟨i, hi⟩ with
      | none =>
        rw [hb] at h
        exact step h (by intro m hm; rw [hb] at hm; cases hm)
      | some m =>
        rw [hb] at h
        cases hr : cell heap m with
        | none => simp [hr] at h
        | some r =>
          cases he : hw_breakpoint_equal r bp with
          | true =>
            simp [hr, he] at h
            subst h
            exact ⟨⟨i, hi⟩, r, le_refl _, hb, hr, he, by intro j' h1 h2; simp at h2; omega⟩
          | false =>
            simp [hr, he] at h
            refine step h ?_
            intro m' hm'
            rw [hb] at hm'
            cases hm'
            exact ⟨r, hr, he⟩
    · rw [dif_neg hi] at h
      cases h

/-! ## The loops of `insert_breakpoint_in_inf_list` and `remove_breakpoint_in_inf_list` -/

theorem insert_breakpoint_loop_free (list : sparc_linux_inferior_bps) (bp : Ptr)
    (k : Fin SPARC_MAX_HW_BPS) (hk : list.bps k = NULL) :
    ∀ (fuel i : Nat), SPARC_MAX_HW_BPS < fuel + i → i ≤ k.val →
      (∀ (j : Fin SPARC_MAX_HW_BPS), i ≤ j.val → j.val < k.val → list.bps j ≠ NULL) →
      insert_breakpoint_loop list bp fuel i =
        .ok (0, { list with bps := Function.update list.bps k bp }) := by
  intro fuel
  induction fuel with
  | zero => intro i h1 h2; have := k.isLt; omega
  | succ fuel ih =>
    intro i h1 h2 hall
    unfold insert_breakpoint_loop
    have hi : i < SPARC_MAX_HW_BPS := lt_of_le_of_lt h2 k.isLt
    have h4 : SPARC_MAX_HW_BPS = 4 := rfl
    rw [if_pos (by decide), dif_pos hi]
    by_cases hik : i = k.val
    · have hfin : (⟨i, hi⟩ : Fin SPARC_MAX_HW_BPS) = k := Fin.ext hik
      rw [hfin, if_pos hk]
    · rw [if_neg (hall ⟨i, hi⟩ (le_refl _) (show i < k.val by omega))]
      exact ih (i + 1) (by omega) (by omega) (fun j h1' h2' => hall j (by omega) h2')

theorem insert_breakpoint_loop_full (list : sparc_linux_inferior_bps) (bp : Ptr) :
    ∀ (fuel i : Nat), SPARC_MAX_HW_BPS < fuel + i → i ≤ SPARC_MAX_HW_BPS →
      (∀ (j : Fin SPARC_MAX_HW_BPS), i ≤ j.val → list.bps j ≠ NULL) →
      insert_breakpoint_loop list bp fuel i = .error .out_of_bounds := by
  intro fuel
  induction fuel with
  | zero => intro i h1 h2; omega
  | succ fuel ih =>
    intro i h1 h2 hall
    unfold insert_breakpoint_loop
    have h4 : SPARC_MAX_HW_BPS = 4 := rfl
    rw [if_pos (by decide)]
    by_cases hi : i < SPARC_MAX_HW_BPS
    · rw [dif_pos hi, if_neg (hall ⟨i, hi⟩ (le_refl _))]
      exact ih (i + 1) (by omega) (by omega) (fun j h1' => hall j (by omega))
    · rw [dif_neg hi]

theorem remove_breakpoint_loop_found (list : sparc_linux_inferior_bps) (bp : Ptr)
    (k : Fin SPARC_MAX_HW_BPS) (hk : list.bps k = bp) :
    ∀ (fuel i : Nat), SPARC_MAX_HW_BPS < fuel + i → i ≤ k.val →
      (∀ (j : Fin SPARC_MAX_HW_BPS), i ≤ j.val → j.val < k.val → list.bps j ≠ bp) →
      remove_breakpoint_loop list bp fuel i =
        .ok (0, { list with bps := Function.update list.bps k NULL }) := by
  intro fuel
  induction fuel with
  | zero => intro i h1 h2; have := k.isLt; omega
  | succ fuel ih =>
    intro i h1 h2 hall
    unfold remove_breakpoint_loop
    have hi : i < SPARC_MAX_HW_BPS := lt_of_le_of_lt h2 k.isLt
    have h4 : SPARC_MAX_HW_BPS = 4 := rfl
    rw [if_pos (by decide), dif_pos hi]
    by_cases hik : i = k.val
    · have hfin : (⟨i, hi⟩ : Fin SPARC_MAX_HW_BPS) = k := Fin.ext hik
      rw [hfin, if_pos hk]
    · rw [if_neg (hall ⟨i, hi⟩ (le_refl _) (show i < k.val by omega))]
      exact ih (i + 1) (by omega) (by omega) (fun j h1' h2' => hall j (by omega) h2')

/-! ## Fuel

The loops are entered with index 0 and `SPARC_MAX_HW_BPS + 1` units of fuel.
No run gets to use the last unit: with any larger supply the result is the
same. -/

theorem get_breakpoint_loop_fuel (heap : Heap) (list : sparc_linux_inferior_bps)
    (bp : sparc_linux_hw_breakpoint) :
    ∀ (fuel fuel' i : Nat), SPARC_MAX_HW_BPS < fuel + i → SPARC_MAX_HW_BPS < fuel' + i →
      i ≤ SPARC_MAX_HW_BPS →
      get_breakpoint_loop heap list bp fuel i = get_breakpoint_loop heap list bp fuel' i := by
  intro fuel
  induction fuel with
  | zero => intro fuel' i h1 _ h3; omega
  | succ fuel ih =>
    intro fuel' i h1 h2 h3
    cases fuel' with
    | zero => omega
    | succ fuel' =>
      have h4 : SPARC_MAX_HW_BPS = 4 := rfl
      unfold get_breakpoint_loop
      by_cases hi : i < SPARC_MAX_HW_BPS
      · rw [dif_pos hi, dif_pos hi, ih fuel' (i + 1) (by omega) (by omega) (by omega)]
      · rw [dif_neg hi, dif_neg hi]

theorem insert_breakpoint_loop_fuel (list : sparc_linux_inferior_bps) (bp : Ptr) :
    ∀ (fuel fuel' i : Nat), SPARC_MAX_HW_BPS < fuel + i → SPARC_MAX_HW_BPS < fuel' + i →
      i ≤ SPARC_MAX_HW_BPS →
      insert_breakpoint_loop list bp fuel i = insert_breakpoint_loop list bp fuel' i := by
  intro fuel
  induction fuel with
  | zero => intro fuel' i h1 _ h3; omega
  | succ fuel ih =>
    intro fuel' i h1 h2 h3
    cases fuel' with
    | zero => omega
    | succ fuel' =>
      have h4 : SPARC_MAX_HW_BPS = 4 := rfl
      unfold insert_breakpoint_loop
      by_cases hi : i < SPARC_MAX_HW_BPS
      · rw [dif_pos hi, dif_pos hi, ih fuel' (i + 1) (by omega) (by omega) (by omega)]
      · rw [dif_neg hi, dif_neg hi]

theorem remove_breakpoint_loop_fuel (list : sparc_linux_inferior_bps) (bp : Ptr) :
    ∀ (fuel fuel' i : Nat), SPARC_MAX_HW_BPS < fuel + i → SPARC_MAX_HW_BPS < fuel' + i →
      i ≤ SPARC_MAX_HW_BPS →
      remove_breakpoint_loop list bp fuel i = remove_breakpoint_loop list bp fuel' i := by
  intro fuel
  induction fuel with
  | zero => intro fuel' i h1 _ h3; omega
  | succ fuel ih =>
    intro fuel' i h1 h2 h3
    cases fuel' with
    | zero => omega
    | succ fuel' =>
      have h4 : SPARC_MAX_HW_BPS = 4 := rfl
      unfold remove_breakpoint_loop
      by_cases hi : i < SPARC_MAX_HW_BPS
      · rw [dif_pos hi, dif_pos hi, ih fuel' (i + 1) (by omega) (by omega) (by omega)]
      · rw [dif_neg hi, dif_neg hi]

theorem forget_free_loop_fuel :
    ∀ (fuel fuel' j : Nat) (heap : Heap) (inf_bps : sparc_linux_inferior_bps),
      SPARC_MAX_HW_BPS < fuel + j → SPARC_MAX_HW_BPS < fuel' + j → j ≤ SPARC_MAX_HW_BPS →
      forget_free_loop fuel j heap inf_bps = forget_free_loop fuel' j heap inf_bps := by
  intro fuel
  induction fuel with
  | zero => intro fuel' j _ _ h1 _ h3; omega
  | succ fuel ih =>
    intro fuel' j heap inf_bps h1 h2 h3
    cases fuel' with
    | zero => omega
    | succ fuel' =>
      have h4 : SPARC_MAX_HW_BPS = 4 := rfl
      unfold forget_free_loop
      by_cases hj : j < SPARC_MAX_HW_BPS
      · rw [dif_pos hj, dif_pos hj]
        cases inf_bps.bps ⟨j, hj⟩ with
        | none => exact ih fuel' (j + 1) heap inf_bps (by omega) (by omega) (by omega)
        | some n =>
          dsimp only
          cases xfree heap (some n) with
          | error e => rfl
          | ok heap1 => exact ih fuel' (j + 1) heap1 _ (by omega) (by omega) (by omega)
      · rw [dif_neg hj, dif_neg hj]

/-- Among the positions with a property there is a first one. -/
theorem exists_first_position (p : Fin SPARC_MAX_HW_BPS → Prop)
    (h : ∃ i, p i) : ∃ k, p k ∧ ∀ j : Fin SPARC_MAX_HW_BPS, j.val < k.val → ¬ p j := by
  classical
  have hex : ∃ n : Nat, ∃ hn : n < SPARC_MAX_HW_BPS, p ⟨n, hn⟩ := by
    obtain ⟨i, hi⟩ := h
    exact ⟨i.val, i.isLt, hi⟩
  obtain ⟨hn, hp⟩ := Nat.find_spec hex
  refine ⟨⟨Nat.find hex, hn⟩, hp, ?_⟩
  intro j hj hpj
  exact Nat.find_min hex hj ⟨j.isLt, hpj⟩

/-! ## The registry -/

theorem find_inferior_bps_some (id : ptid_t) :
    ∀ (l : List sparc_linux_inferior_bps) (i j : Nat), find_inferior_bps id l i = some j →
      i ≤ j ∧ ∃ y, l[j - i]? = some y ∧ y.id = id
  | [], i, j, h => by simp [find_inferior_bps] at h
  | a :: l, i, j, h => by
    unfold find_inferior_bps at h
    by_cases he : ptid_equal a.id id = true
    · simp [he] at h
      subst h
      exact ⟨le_refl _, a, by simp, (ptid_equal_iff _ _).1 he⟩
    · simp [he] at h
      obtain ⟨h1, y, h2, h3⟩ := find_inferior_bps_some id l (i + 1) j h
      refine ⟨by omega, y, ?_, h3⟩
      have hji : j - i = (j - (i + 1)) + 1 := by omega
      rw [hji]
      simpa using h2

theorem find_inferior_bps_set (id : ptid_t) (x : sparc_linux_inferior_bps) :
    ∀ (l : List sparc_linux_inferior_bps) (k i : Nat),
      (∀ y, l[k]? = some y → y.id = x.id) →
      find_inferior_bps id (l.set k x) i = find_inferior_bps id l i
  | [], _, _, _ => by simp [find_inferior_bps]
  | a :: l, 0, i, h => by
    have hax : a.id = x.id := h a (by simp)
    simp [find_inferior_bps, List.set, hax]
  | a :: l, k + 1, i, h => by
    simp only [List.set, find_inferior_bps]
    rw [find_inferior_bps_set id x l k (i + 1) (by intro y hy; exact h y (by simpa using hy))]

theorem find_inferior_bps_append (id : ptid_t) (x : sparc_linux_inferior_bps) :
    ∀ (l : List sparc_linux_inferior_bps) (i : Nat),
      find_inferior_bps id (l ++ [x]) i =
        match find_inferior_bps id l i with
        | some j => some j
        | none => if ptid_equal x.id id then some (i + l.length) else none
  | [], i => by simp [find_inferior_bps]
  | a :: l, i => by
    by_cases he : ptid_equal a.id id = true
    · simp [find_inferior_bps, he]
    · have hrec := find_inferior_bps_append id x l (i + 1)
      have hlen : i + 1 + l.length = i + (l.length + 1) := by omega
      rw [hlen] at hrec
      simpa [find_inferior_bps, he] using hrec

theorem slot_set_eq_lookup (s : State) (id : ptid_t) :
    slot_set s id = lookup_inferior_bps s.inf_list id := by
  unfold slot_set sparc_linux_get_inferior_bps lookup_inferior_bps
  cases find_inferior_bps id s.inf_list 0 <;> rfl

theorem lookup_inferior_bps_id (l : List sparc_linux_inferior_bps) (id : ptid_t) :
    (lookup_inferior_bps l id).id = id := by
  unfold lookup_inferior_bps
  cases hf : find_inferior_bps id l 0 with
  | none => rfl
  | some j =>
    obtain ⟨_, y, hy, hid⟩ := find_inferior_bps_some id l 0 j hf
    simp only [Nat.sub_zero] at hy
    simp [List.getD_eq_getElem?_getD, hy, hid]

theorem lookup_inferior_bps_append (l : List sparc_linux_inferior_bps) (P Q : ptid_t) :
    lookup_inferior_bps (l ++ [new_inferior_bps P]) Q = lookup_inferior_bps l Q := by
  unfold lookup_inferior_bps
  rw [find_inferior_bps_append]
  cases hf : find_inferior_bps Q l 0 with
  | some j =>
    obtain ⟨_, y, hy, _⟩ := find_inferior_bps_some Q l 0 j hf
    simp only [Nat.sub_zero] at hy
    have hlt : j < l.length := by
      by_contra hn
      simp [List.getElem?_eq_none (Nat.le_of_not_lt hn)] at hy
    simp [List.getD_eq_getElem?_getD, List.getElem?_append_left hlt]
  | none =>
    by_cases he : ptid_equal (new_inferior_bps P).id Q = true
    · have hPQ : P = Q := (ptid_equal_iff _ _).1 he
      subst hPQ
      simp [he]
    · simp [he]

theorem lookup_inferior_bps_set (l : List sparc_linux_inferior_bps) (k : Nat)
    (x : sparc_linux_inferior_bps) (Q : ptid_t)
    (h : ∀ y, l[k]? = some y → y.id = x.id) :
    lookup_inferior_bps (l.set k x) Q =
      if find_inferior_bps Q l 0 = some k then x else lookup_inferior_bps l Q := by
  unfold lookup_inferior_bps
  rw [find_inferior_bps_set Q x l k 0 h]
  cases hf : find_inferior_bps Q l 0 with
  | none => simp
  | some j =>
    obtain ⟨_, y, hy, _⟩ := find_inferior_bps_some Q l 0 j hf
    simp only [Nat.sub_zero] at hy
    have hlt : j < l.length := by
      by_contra hn
      simp [List.getElem?_eq_none (Nat.le_of_not_lt hn)] at hy
    by_cases hjk : j = k
    · subst hjk
      simp [List.getD_eq_getElem?_getD, List.getElem?_set, hlt]
    · have hkj : ¬ k = j := fun e => hjk e.symm
      simp [List.getD_eq_getElem?_getD, List.getElem?_set, hjk, hkj]

/-- What `sparc_linux_get_inferior_bps` returns: the structure the registry
answers for `id`, found at the returned index of the returned vector, in a
state that differs from the given one at most by the new empty structure. -/
theorem get_inferior_bps_spec (s : State) (id : ptid_t) :
    (sparc_linux_get_inferior_bps s id).2.1 = lookup_inferior_bps s.inf_list id ∧
    (sparc_linux_get_inferior_bps s id).2.2.heap = s.heap ∧
    (sparc_linux_get_inferior_bps s id).2.2.inferior_ptid = s.inferior_ptid ∧
    find_inferior_bps id (sparc_linux_get_inferior_bps s id).2.2.inf_list 0 =
      some (sparc_linux_get_inferior_bps s id).1 ∧
    (sparc_linux_get_inferior_bps s id).2.2.inf_list[(sparc_linux_get_inferior_bps s id).1]? =
      some (lookup_inferior_bps s.inf_list id) ∧
    (∀ Q, lookup_inferior_bps (sparc_linux_get_inferior_bps s id).2.2.inf_list Q =
      lookup_inferior_bps s.inf_list Q) := by
  unfold sparc_linux_get_inferior_bps lookup_inferior_bps
  cases hf : find_inferior_bps id s.inf_list 0 with
  | some j =>
    obtain ⟨_, y, hy, _⟩ := find_inferior_bps_some id s.inf_list 0 j hf
    simp only [Nat.sub_zero] at hy
    simp [hf, List.getD_eq_getElem?_getD, hy]
  | none =>
    have hlook := lookup_inferior_bps_append s.inf_list id
    unfold lookup_inferior_bps at hlook
    refine ⟨rfl, rfl, rfl, ?_, by simp, ?_⟩
    · show find_inferior_bps id (s.inf_list ++ [new_inferior_bps id]) 0 = _
      rw [find_inferior_bps_append, hf]
      simp [new_inferior_bps, (ptid_equal_iff id id).2 rfl]
    · intro Q
      exact hlook Q

theorem get_inferior_bps_cases (s : State) (id : ptid_t) :
    ∃ (k : Nat) (s1 : State),
      sparc_linux_get_inferior_bps s id = (k, slot_set s id, s1) ∧
      s1.heap = s.heap ∧ s1.inferior_ptid = s.inferior_ptid ∧
      find_inferior_bps id s1.inf_list 0 = some k ∧
      s1.inf_list[k]? = some (slot_set s id) ∧
      (∀ Q, lookup_inferior_bps s1.inf_list Q = lookup_inferior_bps s.inf_list Q) := by
  obtain ⟨h1, h2, h3, h4, h5, h6⟩ := get_inferior_bps_spec s id
  refine ⟨(sparc_linux_get_inferior_bps s id).1, (sparc_linux_get_inferior_bps s id).2.2,
    rfl, h2, h3, h4, ?_, h6⟩
  rw [h5, slot_set_eq_lookup]

theorem slot_set_id (s : State) (id : ptid_t) : (slot_set s id).id = id := by
  rw [slot_set_eq_lookup]
  exact lookup_inferior_bps_id _ _

/-- The slot sets of a state whose vector had the structure at index `k`, the
one of `P`, overwritten. -/
theorem slot_set_store (l : List sparc_linux_inferior_bps) (k : Nat) (P : ptid_t)
    (x : sparc_linux_inferior_bps) (hfind : find_inferior_bps P l 0 = some k)
    (hx : x.id = P) (heap : Heap) (pt Q : ptid_t) :
    slot_set ⟨heap, l.set k x, pt⟩ Q = if Q = P then x else lookup_inferior_bps l Q := by
  obtain ⟨_, y0, hy0, hid0⟩ := find_inferior_bps_some P l 0 k hfind
  simp only [Nat.sub_zero] at hy0
  rw [slot_set_eq_lookup]
  show lookup_inferior_bps (l.set k x) Q = _
  rw [lookup_inferior_bps_set l k x Q
    (by intro y hy; rw [hy0] at hy; cases hy; rw [hid0, hx])]
  by_cases hQ : Q = P
  · subst hQ
    simp [hfind]
  · have hne : find_inferior_bps Q l 0 ≠ some k := by
      intro hf
      obtain ⟨_, y, hy, hid⟩ := find_inferior_bps_some Q l 0 k hf
      simp only [Nat.sub_zero] at hy
      rw [hy0] at hy
      cases hy
      exact hQ (hid.symm.trans hid0)
    simp [hne, hQ]

/-! ## Heap steps on the record just allocated -/

theorem store_new (heap : Heap) (c : sparc_linux_hw_breakpoint)
    (f : sparc_linux_hw_breakpoint → sparc_linux_hw_breakpoint) :
    store (heap ++ [some c]) (some heap.length) f = .ok (heap ++ [some (f c)]) := by
  simp [store, cell_append_new]

theorem load_new (heap : Heap) (c : sparc_linux_hw_breakpoint) :
    load (heap ++ [some c]) (some heap.length) = .ok c := by
  simp [load, deref, cell_append_new]

theorem xfree_new (heap : Heap) (c : sparc_linux_hw_breakpoint) :
    xfree (heap ++ [some c]) (some heap.length) = .ok (heap ++ [none]) := by
  simp [xfree, cell_append_new]

/-! ## The scan under hypotheses on the set -/

theorem get_breakpoint_in_inf_list_absent (heap : Heap) (list : sparc_linux_inferior_bps)
    (bp : sparc_linux_hw_breakpoint)
    (h : ∀ (j : Fin SPARC_MAX_HW_BPS) (n : Nat), list.bps j = some n →
      ∃ r, cell heap n = some r ∧ hw_breakpoint_equal r bp = false) :
    get_breakpoint_in_inf_list heap list bp = .ok NULL :=
  get_breakpoint_loop_none heap list bp (SPARC_MAX_HW_BPS + 1) 0 (by decide) (by decide)
    (fun j _ n hn => h j n hn)

theorem get_breakpoint_in_inf_list_none_inv (heap : Heap) (list : sparc_linux_inferior_bps)
    (bp : sparc_linux_hw_breakpoint)
    (h : get_breakpoint_in_inf_list heap list bp = .ok NULL) :
    ∀ (j : Fin SPARC_MAX_HW_BPS) (n : Nat), list.bps j = some n →
      ∃ r, cell heap n = some r ∧ hw_breakpoint_equal r bp = false :=
  fun j n hn =>
    get_breakpoint_loop_none_inv heap list bp (SPARC_MAX_HW_BPS + 1) 0 h j (Nat.zero_le _) n hn

/-- With every occupied position live and some record equal to `bp`, the scan
returns the pointer at the first such position, which no earlier position
holds. -/
theorem get_breakpoint_in_inf_list_found (heap : Heap) (list : sparc_linux_inferior_bps)
    (bp : sparc_linux_hw_breakpoint) (hlive : slots_live heap list)
    (h : ∃ (i : Fin SPARC_MAX_HW_BPS) (n : Nat) (r : sparc_linux_hw_breakpoint),
      list.bps i = some n ∧ cell heap n = some r ∧ hw_breakpoint_equal r bp = true) :
    ∃ (k : Fin SPARC_MAX_HW_BPS) (n : Nat) (r : sparc_linux_hw_breakpoint),
      list.bps k = some n ∧ cell heap n = some r ∧ hw_breakpoint_equal r bp = true ∧
      (∀ j : Fin SPARC_MAX_HW_BPS, j.val < k.val → list.bps j ≠ some n) ∧
      (∀ (j : Fin SPARC_MAX_HW_BPS), j.val < k.val → ∀ m, list.bps j = some m →
        ∃ r', cell heap m = some r' ∧ hw_breakpoint_equal r' bp = false) ∧
      get_breakpoint_in_inf_list heap list bp = .ok (some n) := by
  obtain ⟨k, ⟨n, r, hk, hr, he⟩, hmin⟩ := exists_first_position
    (fun i => ∃ (n : Nat) (r : sparc_linux_hw_breakpoint),
      list.bps i = some n ∧ cell heap n = some r ∧ hw_breakpoint_equal r bp = true) h
  have hbefore : ∀ (j : Fin SPARC_MAX_HW_BPS), j.val < k.val → ∀ m, list.bps j = some m →
      ∃ r', cell heap m = some r' ∧ hw_breakpoint_equal r' bp = false := by
    intro j hj m hm
    obtain ⟨r', hr'⟩ := hlive j m hm
    refine ⟨r', hr', ?_⟩
    cases he' : hw_breakpoint_equal r' bp with
    | false => rfl
    | true => exact absurd ⟨m, r', hm, hr', he'⟩ (hmin j hj)
  refine ⟨k, n, r, hk, hr, he, ?_, hbefore, ?_⟩
  · intro j hj hjn
    obtain ⟨r', hr', hne⟩ := hbefore j hj n hjn
    rw [hr] at hr'
    cases hr'
    rw [he] at hne
    cases hne
  · exact get_breakpoint_loop_some heap list bp k n r hk hr he (SPARC_MAX_HW_BPS + 1) 0
      (by decide) (Nat.zero_le _) (fun j _ hj m hm => hbefore j hj m hm)

/-! ## The paths through `sparc_linux_insert_hw_breakpoint_1` -/

theorem insert_path_duplicate (s : State) (ptrace : ptrace_call → Int) (address : Nat)
    (type : target_hw_bp_type) (mask n : Nat)
    (h : get_breakpoint_in_inf_list (s.heap ++ [some (candidate address type)])
      (slot_set s s.inferior_ptid) (candidate address type) = .ok (some n)) :
    ∃ s', sparc_linux_insert_hw_breakpoint_1 s ptrace address type mask = .ok ⟨-1, s', []⟩ ∧
      s'.heap = s.heap ++ [none] ∧ s'.inferior_ptid = s.inferior_ptid ∧
      s'.inf_list = (sparc_linux_get_inferior_bps s s.inferior_ptid).2.2.inf_list ∧
      ∀ Q, slot_set s' Q = slot_set s Q := by
  obtain ⟨k, s1, hg, hheap, hpt, hfind, hget, hlook⟩ :=
    get_inferior_bps_cases s s.inferior_ptid
  have hc : ({ zero_hw_breakpoint with
      address := to_unsigned_int address, type := type, enabled := 1 } :
      sparc_linux_hw_breakpoint) = candidate address type := rfl
  refine ⟨⟨s.heap ++ [none], s1.inf_list, s.inferior_ptid⟩, ?_, rfl, rfl, ?_, ?_⟩
  · unfold sparc_linux_insert_hw_breakpoint_1
    rw [hg]
    simp only [xcalloc_hw_breakpoint, hheap, store_new, load_new, hc, h, dealloc, xfree_new,
      hpt]
  · rw [hg]
  · intro Q
    rw [slot_set_eq_lookup, slot_set_eq_lookup]
    exact hlook Q

theorem insert_path_fault (s : State) (ptrace : ptrace_call → Int) (address : Nat)
    (type : target_hw_bp_type) (mask : Nat) (e : Fault)
    (h : get_breakpoint_in_inf_list (s.heap ++ [some (candidate address type)])
      (slot_set s s.inferior_ptid) (candidate address type) = .ok NULL)
    (hins : insert_breakpoint_in_inf_list (slot_set s s.inferior_ptid) (some s.heap.length) =
      .error e) :
    sparc_linux_insert_hw_breakpoint_1 s ptrace address type mask = .error e := by
  obtain ⟨k, s1, hg, hheap, hpt, hfind, hget, hlook⟩ :=
    get_inferior_bps_cases s s.inferior_ptid
  have hc : ({ zero_hw_breakpoint with
      address := to_unsigned_int address, type := type, enabled := 1 } :
      sparc_linux_hw_breakpoint) = candidate address type := rfl
  unfold sparc_linux_insert_hw_breakpoint_1
  rw [hg]
  simp only [xcalloc_hw_breakpoint, hheap, store_new, load_new, hc, h, hins]

/-- The path on which the candidate was entered in the set and the install
call was issued. -/
theorem insert_path_install (s : State) (ptrace : ptrace_call → Int) (address : Nat)
    (type : target_hw_bp_type) (mask : Nat) (l1 : sparc_linux_inferior_bps)
    (h : get_breakpoint_in_inf_list (s.heap ++ [some (candidate address type)])
      (slot_set s s.inferior_ptid) (candidate address type) = .ok NULL)
    (hins : insert_breakpoint_in_inf_list (slot_set s s.inferior_ptid) (some s.heap.length) =
      .ok (0, l1))
    (hid : l1.id = s.inferior_ptid) :
    ∃ s', sparc_linux_insert_hw_breakpoint_1 s ptrace address type mask =
        .ok ⟨if ptrace (install_call s address type) < 0 then -1 else 0, s',
          if ptrace (install_call s address type) < 0 ∨ mask = 0
          then [install_call s address type]
          else [install_call s address type,
            mask_call s (ptrace (install_call s address type))]⟩ ∧
      s'.heap = s.heap ++ [if ptrace (install_call s address type) < 0 then none
        else some ⟨to_unsigned_int address, mask, type, 1,
          ptrace (install_call s address type)⟩] ∧
      s'.inferior_ptid = s.inferior_ptid ∧
      ∀ Q, slot_set s' Q = if Q = s.inferior_ptid then l1 else slot_set s Q := by
  obtain ⟨k, s1, hg, hheap, hpt, hfind, hget, hlook⟩ :=
    get_inferior_bps_cases s s.inferior_ptid
  have hc : ({ zero_hw_breakpoint with
      address := to_unsigned_int address, type := type, enabled := 1 } :
      sparc_linux_hw_breakpoint) = candidate address type := rfl
  have hsets : ∀ (heap : Heap) (Q : ptid_t),
      slot_set ⟨heap, s1.inf_list.set k l1, s.inferior_ptid⟩ Q =
        if Q = s.inferior_ptid then l1 else slot_set s Q := by
    intro heap Q
    rw [slot_set_store s1.inf_list k s.inferior_ptid l1 hfind hid heap s.inferior_ptid Q,
      hlook Q, slot_set_eq_lookup]
  have hcall : (⟨PTRACE_SETHBREGS, ptid_get_pid s.inferior_ptid,
      ((candidate address type).address : Int),
      INSERT_BREAKPOINT (candidate address type).type⟩ : ptrace_call) =
      install_call s address type := rfl
  by_cases hr : ptrace (install_call s address type) < 0
  · refine ⟨⟨s.heap ++ [none], s1.inf_list.set k l1, s.inferior_ptid⟩, ?_, ?_, rfl,
      hsets _⟩
    · unfold sparc_linux_insert_hw_breakpoint_1
      rw [hg]
      simp only [xcalloc_hw_breakpoint, hheap, store_new, load_new, hc, h, hins, hpt, hcall,
        dealloc, xfree_new]
      simp [hr]
    · simp [hr]
  · by_cases hm : mask = 0
    · refine ⟨⟨s.heap ++ [some ⟨to_unsigned_int address, mask, type, 1,
          ptrace (install_call s address type)⟩], s1.inf_list.set k l1, s.inferior_ptid⟩,
        ?_, ?_, rfl, hsets _⟩
      · unfold sparc_linux_insert_hw_breakpoint_1
        rw [hg]
        simp only [xcalloc_hw_breakpoint, hheap, store_new, load_new, hc, h, hins, hpt, hcall]
        simp [hr, hm, candidate]
      · simp [hr]
    · refine ⟨⟨s.heap ++ [some ⟨to_unsigned_int address, mask, type, 1,
          ptrace (install_call s address type)⟩], s1.inf_list.set k l1, s.inferior_ptid⟩,
        ?_, ?_, rfl, hsets _⟩
      · unfold sparc_linux_insert_hw_breakpoint_1
        rw [hg]
        simp only [xcalloc_hw_breakpoint, hheap, store_new, load_new, hc, h, hins, hpt, hcall]
        simp [hr, hm, candidate, mask_call]
      · simp [hr]

/-! ## The paths through `sparc_linux_remove_hw_breakpoint_1` -/

theorem remove_path_absent (s : State) (ptrace : ptrace_call → Int)
    (comp_bp : sparc_linux_hw_breakpoint)
    (h : get_breakpoint_in_inf_list s.heap (slot_set s s.inferior_ptid) comp_bp = .ok NULL) :
    ∃ s', sparc_linux_remove_hw_breakpoint_1 s ptrace comp_bp = .ok ⟨-1, s', []⟩ ∧
      s'.heap = s.heap ∧ s'.inferior_ptid = s.inferior_ptid ∧
      ∀ Q, slot_set s' Q = slot_set s Q := by
  obtain ⟨k, s1, hg, hheap, hpt, hfind, hget, hlook⟩ :=
    get_inferior_bps_cases s s.inferior_ptid
  refine ⟨s1, ?_, hheap, hpt, ?_⟩
  · unfold sparc_linux_remove_hw_breakpoint_1
    rw [hg]
    simp only [hheap, h]
  · intro Q
    rw [slot_set_eq_lookup, slot_set_eq_lookup]
    exact hlook Q

/-- The path on which the record was found and the remove call was issued. -/
theorem remove_path_found (s : State) (ptrace : ptrace_call → Int)
    (comp_bp b : sparc_linux_hw_breakpoint) (n : Nat) (rc : Int)
    (l1 : sparc_linux_inferior_bps)
    (h : get_breakpoint_in_inf_list s.heap (slot_set s s.inferior_ptid) comp_bp =
      .ok (some n))
    (hb : cell s.heap n = some b)
    (hrem : remove_breakpoint_in_inf_list (slot_set s s.inferior_ptid) (some n) =
      .ok (rc, l1))
    (hid : l1.id = s.inferior_ptid) :
    ∃ s', sparc_linux_remove_hw_breakpoint_1 s ptrace comp_bp =
        .ok ⟨if ptrace (remove_call s b.hw_slot) < 0 then -1 else 0, s',
          [remove_call s b.hw_slot]⟩ ∧
      s'.heap = (if ptrace (remove_call s b.hw_slot) < 0 then s.heap
        else s.heap.set n none) ∧
      s'.inferior_ptid = s.inferior_ptid ∧
      ∀ Q, slot_set s' Q = if Q = s.inferior_ptid then l1 else slot_set s Q := by
  obtain ⟨k, s1, hg, hheap, hpt, hfind, hget, hlook⟩ :=
    get_inferior_bps_cases s s.inferior_ptid
  have hsets : ∀ (heap : Heap) (Q : ptid_t),
      slot_set ⟨heap, s1.inf_list.set k l1, s.inferior_ptid⟩ Q =
        if Q = s.inferior_ptid then l1 else slot_set s Q := by
    intro heap Q
    rw [slot_set_store s1.inf_list k s.inferior_ptid l1 hfind hid heap s.inferior_ptid Q,
      hlook Q, slot_set_eq_lookup]
  have hcall : (⟨PTRACE_SETHBREGS, ptid_get_pid s.inferior_ptid, b.hw_slot,
      REMOVE_BREAKPOINT⟩ : ptrace_call) = remove_call s b.hw_slot := rfl
  by_cases hr : ptrace (remove_call s b.hw_slot) < 0
  · refine ⟨⟨s.heap, s1.inf_list.set k l1, s.inferior_ptid⟩, ?_, ?_, rfl, hsets _⟩
    · unfold sparc_linux_remove_hw_breakpoint_1
      rw [hg]
      simp only [hheap, h, load, deref, hb, hrem, hpt, hcall]
      simp [hr]
    · simp [hr]
  · refine ⟨⟨s.heap.set n none, s1.inf_list.set k l1, s.inferior_ptid⟩, ?_, ?_, rfl,
      hsets _⟩
    · unfold sparc_linux_remove_hw_breakpoint_1
      rw [hg]
      simp only [hheap, h, load, deref, hb, hrem, hpt, hcall]
      simp [hr, xfree, hb]
    · simp [hr]

/-! ## The paths through `sparc_linux_stopped_by_watchpoint` -/

theorem stopped_by_watchpoint_trap (s : State) (siginfo : siginfo_t)
    (htrap : siginfo.si_signo = SIGTRAP) (p : Ptr)
    (h : get_breakpoint_in_inf_list s.heap (slot_set s s.inferior_ptid)
      ⟨to_unsigned_int siginfo.si_addr, 0, .hw_execute, 0, 0⟩ = .ok p) :
    ∃ s' calls, sparc_linux_stopped_by_watchpoint s siginfo =
        .ok ⟨if p = NULL then 1 else 0, s', calls⟩ ∧
      s'.heap = s.heap ∧ s'.inferior_ptid = s.inferior_ptid ∧
      ∀ Q, slot_set s' Q = slot_set s Q := by
  obtain ⟨k, s1, hg, hheap, hpt, hfind, hget, hlook⟩ :=
    get_inferior_bps_cases s s.inferior_ptid
  refine ⟨s1, [⟨PTRACE_GETSIGINFO, ptid_get_pid s.inferior_ptid, 0, 0⟩], ?_, hheap, hpt, ?_⟩
  · unfold sparc_linux_stopped_by_watchpoint
    rw [hg]
    cases p with
    | none => simp [htrap, hheap, h]
    | some n => simp [htrap, hheap, h]
  · intro Q
    rw [slot_set_eq_lookup, slot_set_eq_lookup]
    exact hlook Q

theorem stopped_by_watchpoint_other (s : State) (siginfo : siginfo_t)
    (htrap : siginfo.si_signo ≠ SIGTRAP) :
    sparc_linux_stopped_by_watchpoint s siginfo =
      .ok ⟨0, s, [⟨PTRACE_GETSIGINFO, ptid_get_pid s.inferior_ptid, 0, 0⟩]⟩ := by
  unfold sparc_linux_stopped_by_watchpoint
  simp [htrap]

/-! ## From hypotheses on the set to the outcome of the scan -/

theorem absent_of_not_holds (heap : Heap) (list : sparc_linux_inferior_bps)
    (bp : sparc_linux_hw_breakpoint) (hlive : slots_live heap list)
    (hno : ¬ holds heap list bp.address bp.type) :
    ∀ (j : Fin SPARC_MAX_HW_BPS) (n : Nat), list.bps j = some n →
      ∃ r, cell heap n = some r ∧ hw_breakpoint_equal r bp = false := by
  intro j n hn
  obtain ⟨r, hr⟩ := hlive j n hn
  refine ⟨r, hr, ?_⟩
  cases he : hw_breakpoint_equal r bp with
  | false => rfl
  | true =>
    have hab := (hw_breakpoint_equal_iff r bp).1 he
    exact absurd ⟨j, n, r, hn, hr, hab.1, hab.2⟩ hno

theorem found_of_holds (heap : Heap) (list : sparc_linux_inferior_bps)
    (bp : sparc_linux_hw_breakpoint) (h : holds heap list bp.address bp.type) :
    ∃ (i : Fin SPARC_MAX_HW_BPS) (n : Nat) (r : sparc_linux_hw_breakpoint),
      list.bps i = some n ∧ cell heap n = some r ∧ hw_breakpoint_equal r bp = true := by
  obtain ⟨i, n, r, hn, hr, ha, ht⟩ := h
  exact ⟨i, n, r, hn, hr, (hw_breakpoint_equal_iff r bp).2 ⟨ha, ht⟩⟩

theorem slots_live_append (heap : Heap) (list : sparc_linux_inferior_bps)
    (c : Option sparc_linux_hw_breakpoint) (hlive : slots_live heap list) :
    slots_live (heap ++ [c]) list := by
  intro j n hn
  obtain ⟨r, hr⟩ := hlive j n hn
  exact ⟨r, cell_append_old c hr⟩

/-- A set that holds a record is in the vector already: the lookup leaves
the state as it is. -/
theorem get_inferior_bps_of_occupied (s : State) (id : ptid_t) (i : Fin SPARC_MAX_HW_BPS)
    (n : Nat) (h : (slot_set s id).bps i = some n) :
    (sparc_linux_get_inferior_bps s id).2.2 = s := by
  unfold slot_set sparc_linux_get_inferior_bps at h
  unfold sparc_linux_get_inferior_bps
  cases hf : find_inferior_bps id s.inf_list 0 with
  | some j => rfl
  | none =>
    rw [hf] at h
    simp [new_inferior_bps] at h

/-! ## Insert with room in the set -/

/-- With every occupied position live, no record for the pair and an empty
position, the candidate is entered at the first empty position and the
install call is issued; its result decides the rest. -/
theorem insert_free_slot (s : State) (ptrace : ptrace_call → Int) (address : Nat)
    (type : target_hw_bp_type) (mask : Nat)
    (hlive : slots_live s.heap (slot_set s s.inferior_ptid))
    (hno : ¬ holds s.heap (slot_set s s.inferior_ptid) (to_unsigned_int address) type)
    (hfree : ∃ i, (slot_set s s.inferior_ptid).bps i = NULL) :
    ∃ (k : Fin SPARC_MAX_HW_BPS) (s' : State),
      (slot_set s s.inferior_ptid).bps k = NULL ∧
      (∀ j : Fin SPARC_MAX_HW_BPS, j.val < k.val →
        (slot_set s s.inferior_ptid).bps j ≠ NULL) ∧
      sparc_linux_insert_hw_breakpoint_1 s ptrace address type mask =
        .ok ⟨if ptrace (install_call s address type) < 0 then -1 else 0, s',
          if ptrace (install_call s address type) < 0 ∨ mask = 0
          then [install_call s address type]
          else [install_call s address type,
            mask_call s (ptrace (install_call s address type))]⟩ ∧
      s'.heap = s.heap ++ [if ptrace (install_call s address type) < 0 then none
        else some ⟨to_unsigned_int address, mask, type, 1,
          ptrace (install_call s address type)⟩] ∧
      s'.inferior_ptid = s.inferior_ptid ∧
      ∀ Q, slot_set s' Q = if Q = s.inferior_ptid
        then { slot_set s s.inferior_ptid with
          bps := Function.update (slot_set s s.inferior_ptid).bps k (some s.heap.length) }
        else slot_set s Q := by
  obtain ⟨k, hk, hmin⟩ := exists_first_position
    (fun i => (slot_set s s.inferior_ptid).bps i = NULL) hfree
  have hscan : get_breakpoint_in_inf_list (s.heap ++ [some (candidate address type)])
      (slot_set s s.inferior_ptid) (candidate address type) = .ok NULL := by
    apply get_breakpoint_in_inf_list_absent
    intro j n hn
    obtain ⟨r, hr, he⟩ := absent_of_not_holds s.heap (slot_set s s.inferior_ptid)
      (candidate address type) hlive hno j n hn
    exact ⟨r, cell_append_old _ hr, he⟩
  have hins : insert_breakpoint_in_inf_list (slot_set s s.inferior_ptid)
      (some s.heap.length) = .ok (0, { slot_set s s.inferior_ptid with
        bps := Function.update (slot_set s s.inferior_ptid).bps k (some s.heap.length) }) :=
    insert_breakpoint_loop_free _ _ k hk (SPARC_MAX_HW_BPS + 1) 0 (by decide)
      (Nat.zero_le _) (fun j _ hj => hmin j hj)
  obtain ⟨s', h1, h2, h3, h4⟩ := insert_path_install s ptrace address type mask _ hscan hins
    (slot_set_id s s.inferior_ptid)
  exact ⟨k, s', hk, hmin, h1, h2, h3, h4⟩

/-- With every position occupied and no record for the pair, the scan for an
empty position runs past the end of the array. -/
theorem insert_no_free_slot (s : State) (ptrace : ptrace_call → Int) (address : Nat)
    (type : target_hw_bp_type) (mask : Nat)
    (hlive : slots_live s.heap (slot_set s s.inferior_ptid))
    (hno : ¬ holds s.heap (slot_set s s.inferior_ptid) (to_unsigned_int address) type)
    (hfull : ∀ i, (slot_set s s.inferior_ptid).bps i ≠ NULL) :
    sparc_linux_insert_hw_breakpoint_1 s ptrace address type mask =
      .error .out_of_bounds := by
  have hscan : get_breakpoint_in_inf_list (s.heap ++ [some (candidate address type)])
      (slot_set s s.inferior_ptid) (candidate address type) = .ok NULL := by
    apply get_breakpoint_in_inf_list_absent
    intro j n hn
    obtain ⟨r, hr, he⟩ := absent_of_not_holds s.heap (slot_set s s.inferior_ptid)
      (candidate address type) hlive hno j n hn
    exact ⟨r, cell_append_old _ hr, he⟩
  have hins : insert_breakpoint_in_inf_list (slot_set s s.inferior_ptid)
      (some s.heap.length) = .error .out_of_bounds :=
    insert_breakpoint_loop_full _ _ (SPARC_MAX_HW_BPS + 1) 0 (by decide) (by decide)
      (fun j _ => hfull j)
  exact insert_path_fault s ptrace address type mask _ hscan hins

/-! ## Facts about the example states -/

theorem demo_empty_live : slots_live demo_empty.heap (slot_set demo_empty demo_P) := by
  intro i n h
  simp [slot_set, sparc_linux_get_inferior_bps, demo_empty, find_inferior_bps,
    new_inferior_bps] at h

theorem demo_empty_not_holds (address : Nat) (type : target_hw_bp_type) :
    ¬ holds demo_empty.heap (slot_set demo_empty demo_P) address type := by
  rintro ⟨i, n, r, h, _⟩
  simp [slot_set, sparc_linux_get_inferior_bps, demo_empty, find_inferior_bps,
    new_inferior_bps] at h

theorem demo_one_set :
    slot_set demo_one demo_P = ⟨demo_P, fun i => if i.val = 0 then some 0 else none, 0⟩ :=
  rfl

theorem demo_one_live : slots_live demo_one.heap (slot_set demo_one demo_P) := by
  intro i n h
  rw [demo_one_set] at h
  by_cases hi : i.val = 0
  · simp [hi] at h
    subst h
    exact ⟨_, rfl⟩
  · simp [hi] at h

theorem demo_one_holds :
    holds demo_one.heap (slot_set demo_one demo_P) 0x1000 .hw_execute :=
  ⟨0, 0, ⟨0x1000, 0, .hw_execute, 1, 0⟩, rfl, rfl, rfl, rfl⟩

theorem demo_one_not_holds (address : Nat) (type : target_hw_bp_type)
    (h : ¬ (address = 0x1000 ∧ type = .hw_execute)) :
    ¬ holds demo_one.heap (slot_set demo_one demo_P) address type := by
  rintro ⟨i, n, r, hn, hr, ha, ht⟩
  rw [demo_one_set] at hn
  by_cases hi : i.val = 0
  · simp [hi] at hn
    subst hn
    have hr0 : cell demo_one.heap 0 = some ⟨0x1000, 0, .hw_execute, 1, 0⟩ := rfl
    rw [hr0] at hr
    cases hr
    exact h ⟨ha.symm, ht.symm⟩
  · simp [hi] at hn

theorem demo_full_set :
    slot_set demo_full demo_P = ⟨demo_P, fun i => some i.val, 0⟩ :=
  rfl

theorem demo_full_live : slots_live demo_full.heap (slot_set demo_full demo_P) := by
  intro i n h
  rw [demo_full_set] at h
  simp at h
  subst h
  fin_cases i <;> exact ⟨_, rfl⟩

theorem demo_full_not_holds (address : Nat) (type : target_hw_bp_type)
    (h : address ≠ 0x1000 ∧ address ≠ 0x2000 ∧ address ≠ 0x3000 ∧ address ≠ 0x4000) :
    ¬ holds demo_full.heap (slot_set demo_full demo_P) address type := by
  rintro ⟨i, n, r, hn, hr, ha, ht⟩
  rw [demo_full_set] at hn
  simp at hn
  subst hn
  obtain ⟨h1, h2, h3, h4⟩ := h
  fin_cases i
  · have hr0 : cell demo_full.heap 0 = some ⟨0x1000, 0, .hw_execute, 1, 0⟩ := rfl
    simp only [Fin.zero_eta, Fin.val_zero] at hr
    rw [hr0] at hr
    cases hr
    exact h1 ha.symm
  · have hr0 : cell demo_full.heap 1 = some ⟨0x2000, 0, .hw_execute, 1, 1⟩ := rfl
    simp only [Fin.mk_one, Fin.val_one] at hr
    rw [hr0] at hr
    cases hr
    exact h2 ha.symm
  · have hr0 : cell demo_full.heap 2 = some ⟨0x3000, 0, .hw_execute, 1, 2⟩ := rfl
    simp only [Fin.reduceFinMk, Fin.val_two] at hr
    rw [hr0] at hr
    cases hr
    exact h3 ha.symm
  · have hr0 : cell demo_full.heap 3 = some ⟨0x4000, 0, .hw_execute, 1, 3⟩ := rfl
    simp only [Fin.reduceFinMk] at hr
    have hr1 : cell demo_full.heap 3 = some r := hr
    rw [hr0] at hr1
    cases hr1
    exact h4 ha.symm

/-! ## Claims about `sparc_linux_insert_hw_breakpoint_1` -/

/-- C1, as the code behaves: when the set of the current inferior has every
occupied position live, holds no record for the pair and has an empty
position, and the install call returns a negative value, then
`sparc_linux_insert_hw_breakpoint_1` returns -1 after that one call, but the
set is not as before: the candidate was entered at the first empty position
`k` before the call, and the exit path only frees it, so position `k`, empty
before, now holds the pointer to the freed candidate record. -/
theorem install_failure_leaves_slot_occupied (s : State) (ptrace : ptrace_call → Int)
    (address : Nat) (type : target_hw_bp_type) (mask : Nat)
    (hlive : slots_live s.heap (slot_set s s.inferior_ptid))
    (hno : ¬ holds s.heap (slot_set s s.inferior_ptid) (to_unsigned_int address) type)
    (hfree : ∃ i, (slot_set s s.inferior_ptid).bps i = NULL)
    (hr : ptrace ⟨PTRACE_SETHBREGS, ptid_get_pid s.inferior_ptid, to_unsigned_int address,
      INSERT_BREAKPOINT type⟩ < 0) :
    ∃ (k : Fin SPARC_MAX_HW_BPS) (p : Nat) (s' : State),
      sparc_linux_insert_hw_breakpoint_1 s ptrace address type mask =
        .ok ⟨-1, s', [⟨PTRACE_SETHBREGS, ptid_get_pid s.inferior_ptid,
          to_unsigned_int address, INSERT_BREAKPOINT type⟩]⟩ ∧
      (slot_set s s.inferior_ptid).bps k = NULL ∧
      (slot_set s' s.inferior_ptid).bps k = some p ∧
      cell s'.heap p = none ∧
      (∀ j, j ≠ k → (slot_set s' s.inferior_ptid).bps j = (slot_set s s.inferior_ptid).bps j) := by
  obtain ⟨k, s', hk, _, hres, hheap, _, hsets⟩ :=
    insert_free_slot s ptrace address type mask hlive hno hfree
  have hr' : ptrace (install_call s address type) < 0 := hr
  refine ⟨k, s.heap.length, s', ?_, hk, ?_, ?_, ?_⟩
  · rw [hres, if_pos hr', if_pos (Or.inl hr')]
    rfl
  · rw [hsets]
    simp
  · rw [hheap]
    simp [hr', cell_append_new]
  · intro j hj
    rw [hsets]
    simp [Function.update_noteq hj]

/-- The failing input of C1: the first request of a process, an execute
breakpoint at 0x1000, with an install call that fails. -/
theorem install_failure_leaves_slot_occupied_witness :
    ∃ (k : Fin SPARC_MAX_HW_BPS) (p : Nat) (s' : State),
      sparc_linux_insert_hw_breakpoint_1 demo_empty demo_ptrace_fail 0x1000 .hw_execute 0 =
        .ok ⟨-1, s', [⟨PTRACE_SETHBREGS, ptid_get_pid demo_empty.inferior_ptid,
          to_unsigned_int 0x1000, INSERT_BREAKPOINT .hw_execute⟩]⟩ ∧
      (slot_set demo_empty demo_empty.inferior_ptid).bps k = NULL ∧
      (slot_set s' demo_empty.inferior_ptid).bps k = some p ∧
      cell s'.heap p = none ∧
      (∀ j, j ≠ k → (slot_set s' demo_empty.inferior_ptid).bps j =
        (slot_set demo_empty demo_empty.inferior_ptid).bps j) :=
  install_failure_leaves_slot_occupied demo_empty demo_ptrace_fail 0x1000 .hw_execute 0
    demo_empty_live (demo_empty_not_holds _ _) ⟨0, rfl⟩ (by decide)

/-- C2: when the set of the current inferior has every occupied position live
and holds a record with the stored address `(unsigned int) address` (the
address itself for every 32-bit address) and the kind `type`, then for every
mask `sparc_linux_insert_hw_breakpoint_1` returns -1, issues no
process-control call, and leaves the vector of sets, hence every position of
every set and the number of occupied positions, and every live record
unchanged. -/
theorem duplicate_insert_rejected (s : State) (ptrace : ptrace_call → Int)
    (address : Nat) (type : target_hw_bp_type) (mask : Nat)
    (hlive : slots_live s.heap (slot_set s s.inferior_ptid))
    (hdup : holds s.heap (slot_set s s.inferior_ptid) (to_unsigned_int address) type) :
    ∃ s' : State,
      sparc_linux_insert_hw_breakpoint_1 s ptrace address type mask = .ok ⟨-1, s', []⟩ ∧
      s'.inf_list = s.inf_list ∧
      s'.inferior_ptid = s.inferior_ptid ∧
      (∀ Q, slot_set s' Q = slot_set s Q) ∧
      (∀ n r, cell s.heap n = some r → cell s'.heap n = some r) := by
  obtain ⟨i0, n0, r0, hn0, hr0, ha0, ht0⟩ := hdup
  have hfound := found_of_holds (s.heap ++ [some (candidate address type)])
    (slot_set s s.inferior_ptid) (candidate address type)
    ⟨i0, n0, r0, hn0, cell_append_old _ hr0, ha0, ht0⟩
  obtain ⟨_, n, _, _, _, _, _, _, hscan⟩ := get_breakpoint_in_inf_list_found _ _ _
    (slots_live_append s.heap _ (some (candidate address type)) hlive) hfound
  obtain ⟨s', hres, hheap, hpt, hlist, hsets⟩ :=
    insert_path_duplicate s ptrace address type mask n hscan
  refine ⟨s', hres, ?_, hpt, hsets, ?_⟩
  · rw [hlist, get_inferior_bps_of_occupied s s.inferior_ptid i0 n0 hn0]
  · intro m r hm
    rw [hheap]
    exact cell_append_old _ hm

/-- The second insert of the spec's example: an execute breakpoint at 0x1000
requested again. -/
theorem duplicate_insert_rejected_witness :
    ∃ s' : State,
      sparc_linux_insert_hw_breakpoint_1 demo_one demo_ptrace_ok 0x1000 .hw_execute 7 =
        .ok ⟨-1, s', []⟩ ∧
      s'.inf_list = demo_one.inf_list ∧
      s'.inferior_ptid = demo_one.inferior_ptid ∧
      (∀ Q, slot_set s' Q = slot_set demo_one Q) ∧
      (∀ n r, cell demo_one.heap n = some r → cell s'.heap n = some r) :=
  duplicate_insert_rejected demo_one demo_ptrace_ok 0x1000 .hw_execute 7
    demo_one_live demo_one_holds

/-- C3, as the code behaves: when all four positions of the current
inferior's set are occupied by live records and none of them has the pair,
`sparc_linux_insert_hw_breakpoint_1` does not return failure:
the loop of `insert_breakpoint_in_inf_list` tests the constant
`SPARC_MAX_HW_BPS` instead of `i < SPARC_MAX_HW_BPS`, so it reads `bps[4]`,
past the end of the array, and its `return -1` is never reached. -/
theorem insert_into_full_set_out_of_bounds (s : State) (ptrace : ptrace_call → Int)
    (address : Nat) (type : target_hw_bp_type) (mask : Nat)
    (hlive : slots_live s.heap (slot_set s s.inferior_ptid))
    (hno : ¬ holds s.heap (slot_set s s.inferior_ptid) (to_unsigned_int address) type)
    (hfull : ∀ i, (slot_set s s.inferior_ptid).bps i ≠ NULL) :
    sparc_linux_insert_hw_breakpoint_1 s ptrace address type mask =
      .error .out_of_bounds :=
  insert_no_free_slot s ptrace address type mask hlive hno hfull

/-- The failing input of C3: a fifth pair, an execute breakpoint at 0x5000,
for a process that holds four. -/
theorem insert_into_full_set_out_of_bounds_witness :
    sparc_linux_insert_hw_breakpoint_1 demo_full demo_ptrace_ok 0x5000 .hw_execute 0 =
      .error .out_of_bounds :=
  insert_into_full_set_out_of_bounds demo_full demo_ptrace_ok 0x5000 .hw_execute 0
    demo_full_live (demo_full_not_holds _ _ (by decide))
    (by
      intro i
      show (slot_set demo_full demo_P).bps i ≠ NULL
      rw [demo_full_set]
      simp)

/-- C4: when the set of the current inferior has every occupied position
live, holds no record for the pair and has an empty position, and the install
call returns `r ≥ 0`, then `sparc_linux_insert_hw_breakpoint_1` returns 0, and
afterwards one position `k` that was empty holds a pointer to a live record
with the stored address `(unsigned int) address` (the address itself for
every 32-bit address), the kind `type`, `enabled = 1`, `hw_slot = r` and the
requested mask; every other position, every record that was live and every
other set is unchanged.  The process-control call is an arbitrary function, so
this holds whatever the mask call returns. -/
theorem successful_insert_postcondition (s : State) (ptrace : ptrace_call → Int)
    (address : Nat) (type : target_hw_bp_type) (mask : Nat)
    (hlive : slots_live s.heap (slot_set s s.inferior_ptid))
    (hno : ¬ holds s.heap (slot_set s s.inferior_ptid) (to_unsigned_int address) type)
    (hfree : ∃ i, (slot_set s s.inferior_ptid).bps i = NULL)
    (hr : 0 ≤ ptrace ⟨PTRACE_SETHBREGS, ptid_get_pid s.inferior_ptid,
      to_unsigned_int address, INSERT_BREAKPOINT type⟩) :
    ∃ (k : Fin SPARC_MAX_HW_BPS) (p : Nat) (s' : State) (calls : List ptrace_call),
      sparc_linux_insert_hw_breakpoint_1 s ptrace address type mask = .ok ⟨0, s', calls⟩ ∧
      (slot_set s s.inferior_ptid).bps k = NULL ∧
      (slot_set s' s.inferior_ptid).bps k = some p ∧
      cell s.heap p = none ∧
      cell s'.heap p = some ⟨to_unsigned_int address, mask, type, 1,
        ptrace ⟨PTRACE_SETHBREGS, ptid_get_pid s.inferior_ptid, to_unsigned_int address,
          INSERT_BREAKPOINT type⟩⟩ ∧
      (∀ j, j ≠ k → (slot_set s' s.inferior_ptid).bps j = (slot_set s s.inferior_ptid).bps j) ∧
      (slot_set s' s.inferior_ptid).id = (slot_set s s.inferior_ptid).id ∧
      (slot_set s' s.inferior_ptid).num = (slot_set s s.inferior_ptid).num ∧
      (∀ n r, cell s.heap n = some r → cell s'.heap n = some r) ∧
      (∀ Q, Q ≠ s.inferior_ptid → slot_set s' Q = slot_set s Q) ∧
      s'.inferior_ptid = s.inferior_ptid := by
  obtain ⟨k, s', hk, _, hres, hheap, hpt, hsets⟩ :=
    insert_free_slot s ptrace address type mask hlive hno hfree
  have hr' : ¬ ptrace (install_call s address type) < 0 := not_lt.2 hr
  refine ⟨k, s.heap.length, s',
    if ptrace (install_call s address type) < 0 ∨ mask = 0
    then [install_call s address type]
    else [install_call s address type, mask_call s (ptrace (install_call s address type))],
    ?_, hk, ?_, ?_, ?_, ?_, ?_, ?_, ?_, ?_, hpt⟩
  · rw [hres, if_neg hr']
  · rw [hsets]
    simp
  · cases hc : cell s.heap s.heap.length with
    | none => rfl
    | some r => exact absurd (cell_lt_length hc) (lt_irrefl _)
  · rw [hheap]
    simp only [hr', if_false, cell_append_new]
    rfl
  · intro j hj
    rw [hsets]
    simp [Function.update_noteq hj]
  · rw [hsets]
    simp
  · rw [hsets]
    simp
  · intro n r hn
    rw [hheap]
    exact cell_append_old _ hn
  · intro Q hQ
    rw [hsets]
    simp [hQ]

/-- The first insert of the spec's example, here with a mask: an execute
breakpoint at 0x1000 into the empty set. -/
theorem successful_insert_postcondition_witness :
    ∃ (k : Fin SPARC_MAX_HW_BPS) (p : Nat) (s' : State) (calls : List ptrace_call),
      sparc_linux_insert_hw_breakpoint_1 demo_empty demo_ptrace_ok 0x1000 .hw_execute 7 =
        .ok ⟨0, s', calls⟩ ∧
      (slot_set demo_empty demo_empty.inferior_ptid).bps k = NULL ∧
      (slot_set s' demo_empty.inferior_ptid).bps k = some p ∧
      cell demo_empty.heap p = none ∧
      cell s'.heap p = some ⟨to_unsigned_int 0x1000, 7, .hw_execute, 1,
        demo_ptrace_ok ⟨PTRACE_SETHBREGS, ptid_get_pid demo_empty.inferior_ptid,
          to_unsigned_int 0x1000, INSERT_BREAKPOINT .hw_execute⟩⟩ ∧
      (∀ j, j ≠ k → (slot_set s' demo_empty.inferior_ptid).bps j =
        (slot_set demo_empty demo_empty.inferior_ptid).bps j) ∧
      (slot_set s' demo_empty.inferior_ptid).id =
        (slot_set demo_empty demo_empty.inferior_ptid).id ∧
      (slot_set s' demo_empty.inferior_ptid).num =
        (slot_set demo_empty demo_empty.inferior_ptid).num ∧
      (∀ n r, cell demo_empty.heap n = some r → cell s'.heap n = some r) ∧
      (∀ Q, Q ≠ demo_empty.inferior_ptid → slot_set s' Q = slot_set demo_empty Q) ∧
      s'.inferior_ptid = demo_empty.inferior_ptid :=
  successful_insert_postcondition demo_empty demo_ptrace_ok 0x1000 .hw_execute 7
    demo_empty_live (demo_empty_not_holds _ _) ⟨0, rfl⟩ (by decide)

/-! ## Claims about `sparc_linux_remove_hw_breakpoint_1` -/

/-- C5: when the set of the current inferior has every occupied position live
and holds no record with the address and kind of `comp_bp`,
`sparc_linux_remove_hw_breakpoint_1` returns -1, issues no process-control
call, and leaves the heap and every position of every set unchanged. -/
theorem remove_unknown_pair (s : State) (ptrace : ptrace_call → Int)
    (comp_bp : sparc_linux_hw_breakpoint)
    (hlive : slots_live s.heap (slot_set s s.inferior_ptid))
    (hno : ¬ holds s.heap (slot_set s s.inferior_ptid) comp_bp.address comp_bp.type) :
    ∃ s' : State,
      sparc_linux_remove_hw_breakpoint_1 s ptrace comp_bp = .ok ⟨-1, s', []⟩ ∧
      s'.heap = s.heap ∧
      s'.inferior_ptid = s.inferior_ptid ∧
      (∀ Q, slot_set s' Q = slot_set s Q) :=
  remove_path_absent s ptrace comp_bp
    (get_breakpoint_in_inf_list_absent _ _ _
      (absent_of_not_holds s.heap _ comp_bp hlive hno))

/-- A remove of an execute breakpoint at 0x2000 from a set that holds one at
0x1000 only. -/
theorem remove_unknown_pair_witness :
    ∃ s' : State,
      sparc_linux_remove_hw_breakpoint_1 demo_one demo_ptrace_ok
        ⟨0x2000, 0, .hw_execute, 0, 0⟩ = .ok ⟨-1, s', []⟩ ∧
      s'.heap = demo_one.heap ∧
      s'.inferior_ptid = demo_one.inferior_ptid ∧
      (∀ Q, slot_set s' Q = slot_set demo_one Q) :=
  remove_unknown_pair demo_one demo_ptrace_ok ⟨0x2000, 0, .hw_execute, 0, 0⟩
    demo_one_live (demo_one_not_holds _ _ (by decide))

/-- With every occupied position live and a record for the pair of
`comp_bp`, the remove call is issued for the first such record, whose
position is vacated. -/
theorem remove_first_match (s : State) (ptrace : ptrace_call → Int)
    (comp_bp : sparc_linux_hw_breakpoint)
    (hlive : slots_live s.heap (slot_set s s.inferior_ptid))
    (hdup : holds s.heap (slot_set s s.inferior_ptid) comp_bp.address comp_bp.type) :
    ∃ (k : Fin SPARC_MAX_HW_BPS) (n : Nat) (b : sparc_linux_hw_breakpoint) (s' : State),
      (slot_set s s.inferior_ptid).bps k = some n ∧ cell s.heap n = some b ∧
      hw_breakpoint_equal b comp_bp = true ∧
      (∀ (j : Fin SPARC_MAX_HW_BPS), j.val < k.val → ∀ m,
        (slot_set s s.inferior_ptid).bps j = some m →
        ∃ r', cell s.heap m = some r' ∧ hw_breakpoint_equal r' comp_bp = false) ∧
      sparc_linux_remove_hw_breakpoint_1 s ptrace comp_bp =
        .ok ⟨if ptrace (remove_call s b.hw_slot) < 0 then -1 else 0, s',
          [remove_call s b.hw_slot]⟩ ∧
      s'.heap = (if ptrace (remove_call s b.hw_slot) < 0 then s.heap
        else s.heap.set n none) ∧
      s'.inferior_ptid = s.inferior_ptid ∧
      ∀ Q, slot_set s' Q = if Q = s.inferior_ptid
        then { slot_set s s.inferior_ptid with
          bps := Function.update (slot_set s s.inferior_ptid).bps k NULL }
        else slot_set s Q := by
  obtain ⟨k, n, b, hk, hb, he, hfirst, hbefore, hscan⟩ :=
    get_breakpoint_in_inf_list_found s.heap _ comp_bp hlive (found_of_holds _ _ _ hdup)
  have hrem : remove_breakpoint_in_inf_list (slot_set s s.inferior_ptid) (some n) =
      .ok (0, { slot_set s s.inferior_ptid with
        bps := Function.update (slot_set s s.inferior_ptid).bps k NULL }) :=
    remove_breakpoint_loop_found _ _ k hk (SPARC_MAX_HW_BPS + 1) 0 (by decide)
      (Nat.zero_le _) (fun j _ hj => hfirst j hj)
  obtain ⟨s', h1, h2, h3, h4⟩ := remove_path_found s ptrace comp_bp b n 0 _ hscan hb hrem
    (slot_set_id s s.inferior_ptid)
  exact ⟨k, n, b, s', hk, hb, he, hbefore, h1, h2, h3, h4⟩

/-- C6: when the set of the current inferior has every occupied position live
and holds a record with the address and kind of `comp_bp`,
`sparc_linux_remove_hw_breakpoint_1` issues exactly one process-control
call, with the `hw_slot` of such a record `b` at a position `k` as address
argument and `REMOVE_BREAKPOINT` (8) as data argument; it returns -1 when the
call returned a negative value and 0 otherwise; in both cases position `k` is
empty afterwards, and every other position, every other record and every
other set is unchanged. -/
theorem remove_known_pair (s : State) (ptrace : ptrace_call → Int)
    (comp_bp : sparc_linux_hw_breakpoint)
    (hlive : slots_live s.heap (slot_set s s.inferior_ptid))
    (hdup : holds s.heap (slot_set s s.inferior_ptid) comp_bp.address comp_bp.type) :
    ∃ (k : Fin SPARC_MAX_HW_BPS) (n : Nat) (b : sparc_linux_hw_breakpoint) (s' : State),
      (slot_set s s.inferior_ptid).bps k = some n ∧ cell s.heap n = some b ∧
      b.address = comp_bp.address ∧ b.type = comp_bp.type ∧
      sparc_linux_remove_hw_breakpoint_1 s ptrace comp_bp =
        .ok ⟨if ptrace ⟨PTRACE_SETHBREGS, ptid_get_pid s.inferior_ptid, b.hw_slot, 8⟩ < 0
            then -1 else 0, s',
          [⟨PTRACE_SETHBREGS, ptid_get_pid s.inferior_ptid, b.hw_slot, 8⟩]⟩ ∧
      (slot_set s' s.inferior_ptid).bps k = NULL ∧
      (∀ j, j ≠ k → (slot_set s' s.inferior_ptid).bps j = (slot_set s s.inferior_ptid).bps j) ∧
      (slot_set s' s.inferior_ptid).id = (slot_set s s.inferior_ptid).id ∧
      (slot_set s' s.inferior_ptid).num = (slot_set s s.inferior_ptid).num ∧
      (∀ m, m ≠ n → cell s'.heap m = cell s.heap m) ∧
      (∀ Q, Q ≠ s.inferior_ptid → slot_set s' Q = slot_set s Q) ∧
      s'.inferior_ptid = s.inferior_ptid := by
  obtain ⟨k, n, b, s', hk, hb, he, _, hres, hheap, hpt, hsets⟩ :=
    remove_first_match s ptrace comp_bp hlive hdup
  have hab := (hw_breakpoint_equal_iff b comp_bp).1 he
  refine ⟨k, n, b, s', hk, hb, hab.1, hab.2, hres, ?_, ?_, ?_, ?_, ?_, ?_, hpt⟩
  · rw [hsets]
    simp
  · intro j hj
    rw [hsets]
    simp [Function.update_noteq hj]
  · rw [hsets]
    simp
  · rw [hsets]
    simp
  · intro m hm
    rw [hheap]
    by_cases hr : ptrace (remove_call s b.hw_slot) < 0
    · rw [if_pos hr]
    · rw [if_neg hr]
      exact cell_set_ne s.heap none hm
  · intro Q hQ
    rw [hsets]
    simp [hQ]

/-- The remove of the spec's example, with a remove call that fails: the
execute breakpoint at 0x1000 is dropped from the set all the same. -/
theorem remove_known_pair_witness :
    ∃ (k : Fin SPARC_MAX_HW_BPS) (n : Nat) (b : sparc_linux_hw_breakpoint) (s' : State),
      (slot_set demo_one demo_one.inferior_ptid).bps k = some n ∧
      cell demo_one.heap n = some b ∧
      b.address = 0x1000 ∧ b.type = .hw_execute ∧
      sparc_linux_remove_hw_breakpoint_1 demo_one demo_ptrace_fail
          ⟨0x1000, 9, .hw_execute, 0, 0⟩ =
        .ok ⟨if demo_ptrace_fail
              ⟨PTRACE_SETHBREGS, ptid_get_pid demo_one.inferior_ptid, b.hw_slot, 8⟩ < 0
            then -1 else 0, s',
          [⟨PTRACE_SETHBREGS, ptid_get_pid demo_one.inferior_ptid, b.hw_slot, 8⟩]⟩ ∧
      (slot_set s' demo_one.inferior_ptid).bps k = NULL ∧
      (∀ j, j ≠ k → (slot_set s' demo_one.inferior_ptid).bps j =
        (slot_set demo_one demo_one.inferior_ptid).bps j) ∧
      (slot_set s' demo_one.inferior_ptid).id = (slot_set demo_one demo_one.inferior_ptid).id ∧
      (slot_set s' demo_one.inferior_ptid).num =
        (slot_set demo_one demo_one.inferior_ptid).num ∧
      (∀ m, m ≠ n → cell s'.heap m = cell demo_one.heap m) ∧
      (∀ Q, Q ≠ demo_one.inferior_ptid → slot_set s' Q = slot_set demo_one Q) ∧
      s'.inferior_ptid = demo_one.inferior_ptid :=
  remove_known_pair demo_one demo_ptrace_fail ⟨0x1000, 9, .hw_execute, 0, 0⟩
    demo_one_live demo_one_holds

/-! ## Claim about `sparc_linux_stopped_by_watchpoint` -/

/-- C9: when the set of the current inferior has every occupied position
live, `sparc_linux_stopped_by_watchpoint` returns 0 or 1, and it returns 1
(true) if and only if the pending signal is `SIGTRAP` and the set holds no
record of kind `hw_execute` whose address is the reported fault address, as
cast to `unsigned int` (the fault address itself for every 32-bit address).
So it returns 0 for another signal, and 0 when such an execute record exists,
whatever else is installed at that address.  The heap and all sets are left
unchanged. -/
theorem stopped_by_watchpoint_iff (s : State) (siginfo : siginfo_t)
    (hlive : slots_live s.heap (slot_set s s.inferior_ptid)) :
    ∃ (v : Int) (s' : State) (calls : List ptrace_call),
      sparc_linux_stopped_by_watchpoint s siginfo = .ok ⟨v, s', calls⟩ ∧
      (v = 0 ∨ v = 1) ∧
      (v = 1 ↔ (siginfo.si_signo = SIGTRAP ∧
        ¬ holds s.heap (slot_set s s.inferior_ptid)
          (to_unsigned_int siginfo.si_addr) .hw_execute)) ∧
      s'.heap = s.heap ∧ (∀ Q, slot_set s' Q = slot_set s Q) := by
  by_cases htrap : siginfo.si_signo = SIGTRAP
  · by_cases hh : holds s.heap (slot_set s s.inferior_ptid)
        (to_unsigned_int siginfo.si_addr) .hw_execute
    · obtain ⟨_, n, _, _, _, _, _, _, hscan⟩ := get_breakpoint_in_inf_list_found s.heap _
        ⟨to_unsigned_int siginfo.si_addr, 0, .hw_execute, 0, 0⟩ hlive
        (found_of_holds _ _ ⟨to_unsigned_int siginfo.si_addr, 0, .hw_execute, 0, 0⟩ hh)
      obtain ⟨s', calls, hres, hheap, _, hsets⟩ :=
        stopped_by_watchpoint_trap s siginfo htrap (some n) hscan
      refine ⟨0, s', calls, ?_, Or.inl rfl, ?_, hheap, hsets⟩
      · rw [hres]
        simp
      · constructor
        · intro h01
          exact absurd h01 (by decide)
        · intro hc
          exact absurd hh hc.2
    · have hscan := get_breakpoint_in_inf_list_absent s.heap _ _
        (absent_of_not_holds s.heap (slot_set s s.inferior_ptid)
          ⟨to_unsigned_int siginfo.si_addr, 0, .hw_execute, 0, 0⟩ hlive hh)
      obtain ⟨s', calls, hres, hheap, _, hsets⟩ :=
        stopped_by_watchpoint_trap s siginfo htrap NULL hscan
      refine ⟨1, s', calls, ?_, Or.inr rfl, ?_, hheap, hsets⟩
      · rw [hres]
        simp
      · constructor
        · intro _
          exact ⟨htrap, hh⟩
        · intro _
          rfl
  · refine ⟨0, s, _, stopped_by_watchpoint_other s siginfo htrap, Or.inl rfl, ?_, rfl,
      fun _ => rfl⟩
    constructor
    · intro h01
      exact absurd h01 (by decide)
    · intro hc
      exact absurd hc.1 htrap

/-- A trap at 0x1000 in a process that holds an execute breakpoint there. -/
theorem stopped_by_watchpoint_iff_witness :
    ∃ (v : Int) (s' : State) (calls : List ptrace_call),
      sparc_linux_stopped_by_watchpoint demo_one ⟨SIGTRAP, 0x1000⟩ = .ok ⟨v, s', calls⟩ ∧
      (v = 0 ∨ v = 1) ∧
      (v = 1 ↔ ((⟨SIGTRAP, 0x1000⟩ : siginfo_t).si_signo = SIGTRAP ∧
        ¬ holds demo_one.heap (slot_set demo_one demo_one.inferior_ptid)
          (to_unsigned_int (⟨SIGTRAP, 0x1000⟩ : siginfo_t).si_addr) .hw_execute)) ∧
      s'.heap = demo_one.heap ∧ (∀ Q, slot_set s' Q = slot_set demo_one Q) :=
  stopped_by_watchpoint_iff demo_one ⟨SIGTRAP, 0x1000⟩ demo_one_live

/-! ## Insert followed by remove -/

theorem insert_path_scan_fault (s : State) (ptrace : ptrace_call → Int) (address : Nat)
    (type : target_hw_bp_type) (mask : Nat) (e : Fault)
    (h : get_breakpoint_in_inf_list (s.heap ++ [some (candidate address type)])
      (slot_set s s.inferior_ptid) (candidate address type) = .error e) :
    sparc_linux_insert_hw_breakpoint_1 s ptrace address type mask = .error e := by
  obtain ⟨k, s1, hg, hheap, hpt, hfind, hget, hlook⟩ :=
    get_inferior_bps_cases s s.inferior_ptid
  have hc : ({ zero_hw_breakpoint with
      address := to_unsigned_int address, type := type, enabled := 1 } :
      sparc_linux_hw_breakpoint) = candidate address type := rfl
  unfold sparc_linux_insert_hw_breakpoint_1
  rw [hg]
  simp only [xcalloc_hw_breakpoint, hheap, store_new, load_new, hc, h]

/-- An insert that returns 0 started from a set with every occupied position
live, without a record for the pair and with an empty position, and its
install call did not fail. -/
theorem insert_success_inv (s : State) (ptrace : ptrace_call → Int) (address : Nat)
    (type : target_hw_bp_type) (mask : Nat) (s1 : State) (calls : List ptrace_call)
    (hins : sparc_linux_insert_hw_breakpoint_1 s ptrace address type mask =
      .ok ⟨0, s1, calls⟩) :
    slots_live s.heap (slot_set s s.inferior_ptid) ∧
    ¬ holds s.heap (slot_set s s.inferior_ptid) (to_unsigned_int address) type ∧
    (∃ i, (slot_set s s.inferior_ptid).bps i = NULL) ∧
    ¬ ptrace (install_call s address type) < 0 := by
  cases hscan : get_breakpoint_in_inf_list (s.heap ++ [some (candidate address type)])
      (slot_set s s.inferior_ptid) (candidate address type) with
  | error e =>
    rw [insert_path_scan_fault s ptrace address type mask e hscan] at hins
    cases hins
  | ok p =>
    cases p with
    | some n =>
      obtain ⟨s', hres, _⟩ := insert_path_duplicate s ptrace address type mask n hscan
      rw [hres] at hins
      injection hins with hins
      injection hins with hv
      exact absurd hv (by decide)
    | none =>
      have hinv := get_breakpoint_in_inf_list_none_inv _ _ _ hscan
      have hold : ∀ (j : Fin SPARC_MAX_HW_BPS) (n : Nat),
          (slot_set s s.inferior_ptid).bps j = some n →
          ∃ r, cell s.heap n = some r ∧
            hw_breakpoint_equal r (candidate address type) = false := by
        intro j n hn
        obtain ⟨r, hr, he⟩ := hinv j n hn
        have hne : n ≠ s.heap.length := by
          intro hlen
          rw [hlen, cell_append_new] at hr
          cases hr
          simp [hw_breakpoint_equal] at he
        have hlt : n < s.heap.length := by
          have h1 := cell_lt_length hr
          simp only [List.length_append, List.length_singleton] at h1
          omega
        rw [cell_append_lt _ hlt] at hr
        exact ⟨r, hr, he⟩
      have hlive : slots_live s.heap (slot_set s s.inferior_ptid) := by
        intro j n hn
        obtain ⟨r, hr, _⟩ := hold j n hn
        exact ⟨r, hr⟩
      have hno : ¬ holds s.heap (slot_set s s.inferior_ptid)
          (to_unsigned_int address) type := by
        rintro ⟨j, n, r, hn, hr, ha, ht⟩
        obtain ⟨r', hr', he⟩ := hold j n hn
        rw [hr] at hr'
        cases hr'
        have htrue : hw_breakpoint_equal r (candidate address type) = true :=
          (hw_breakpoint_equal_iff _ _).2 ⟨ha, ht⟩
        rw [htrue] at he
        cases he
      by_cases hfree : ∃ i, (slot_set s s.inferior_ptid).bps i = NULL
      · refine ⟨hlive, hno, hfree, ?_⟩
        intro hr
        obtain ⟨_, s', _, _, hres, _⟩ :=
          insert_free_slot s ptrace address type mask hlive hno hfree
        rw [hres, if_pos hr] at hins
        injection hins with hins
        injection hins with hv
        exact absurd hv (by decide)
      · have hfull : ∀ i, (slot_set s s.inferior_ptid).bps i ≠ NULL :=
          fun i hi => hfree ⟨i, hi⟩
        rw [insert_no_free_slot s ptrace address type mask hlive hno hfull] at hins
        cases hins

/-- An insert that returns 0, then a remove of the same pair, then another
one: the first remove finds the record just installed and vacates its
position, the second finds nothing. -/
theorem insert_remove_remove (s : State) (ptrace1 ptrace2 ptrace3 : ptrace_call → Int)
    (address : Nat) (type : target_hw_bp_type) (mask : Nat)
    (s1 : State) (calls1 : List ptrace_call)
    (comp_bp : sparc_linux_hw_breakpoint)
    (hins : sparc_linux_insert_hw_breakpoint_1 s ptrace1 address type mask =
      .ok ⟨0, s1, calls1⟩)
    (ha : comp_bp.address = to_unsigned_int address) (ht : comp_bp.type = type) :
    ∃ (v : Int) (s2 : State) (calls2 : List ptrace_call) (s3 : State),
      sparc_linux_remove_hw_breakpoint_1 s1 ptrace2 comp_bp = .ok ⟨v, s2, calls2⟩ ∧
      (∀ Q, slot_set s2 Q = slot_set s Q) ∧
      (∀ (i : Fin SPARC_MAX_HW_BPS) (n : Nat), (slot_set s s.inferior_ptid).bps i = some n →
        cell s2.heap n = cell s.heap n) ∧
      s2.inferior_ptid = s.inferior_ptid ∧
      sparc_linux_remove_hw_breakpoint_1 s2 ptrace3 comp_bp = .ok ⟨-1, s3, []⟩ ∧
      (∀ Q, slot_set s3 Q = slot_set s Q) := by
  obtain ⟨hlive, hno, hfree, hr⟩ :=
    insert_success_inv s ptrace1 address type mask s1 calls1 hins
  obtain ⟨k, s', hk, _, hres, hheap, hpt, hsets⟩ :=
    insert_free_slot s ptrace1 address type mask hlive hno hfree
  rw [hres] at hins
  injection hins with hins
  injection hins with _ hst _
  subst hst
  rw [if_neg hr] at hheap
  -- the set and the heap after the insert
  have hset1 : slot_set s' s'.inferior_ptid = { slot_set s s.inferior_ptid with
      bps := Function.update (slot_set s s.inferior_ptid).bps k (some s.heap.length) } := by
    rw [hpt, hsets]
    simp
  have hold_lt : ∀ (j : Fin SPARC_MAX_HW_BPS) (n : Nat),
      (slot_set s s.inferior_ptid).bps j = some n → n < s.heap.length := by
    intro j n hn
    obtain ⟨r, hr⟩ := hlive j n hn
    exact cell_lt_length hr
  have hlive1 : slots_live s'.heap (slot_set s' s'.inferior_ptid) := by
    intro j n hn
    rw [hset1] at hn
    rw [hheap]
    by_cases hj : j = k
    · subst hj
      simp at hn
      subst hn
      exact ⟨_, cell_append_new _ _⟩
    · simp [Function.update_noteq hj] at hn
      obtain ⟨r, hr⟩ := hlive j n hn
      exact ⟨r, cell_append_old _ hr⟩
  have hdup1 : holds s'.heap (slot_set s' s'.inferior_ptid) comp_bp.address comp_bp.type := by
    refine ⟨k, s.heap.length, ⟨to_unsigned_int address, mask, type, 1,
      ptrace1 (install_call s address type)⟩, ?_, ?_, ha.symm, ht.symm⟩
    · rw [hset1]
      simp
    · rw [hheap]
      exact cell_append_new _ _
  obtain ⟨k', n', b, s2, hk', hb, he, _, hres2, hheap2, hpt2, hsets2⟩ :=
    remove_first_match s' ptrace2 comp_bp hlive1 hdup1
  -- the record found is the one just installed
  have hkk : k' = k := by
    by_contra hne
    rw [hset1] at hk'
    simp [Function.update_noteq hne] at hk'
    obtain ⟨r, hr⟩ := hlive k' n' hk'
    have hr1 : cell s'.heap n' = some r := by
      rw [hheap]
      exact cell_append_old _ hr
    rw [hb] at hr1
    cases hr1
    have hab := (hw_breakpoint_equal_iff b comp_bp).1 he
    exact hno ⟨k', n', b, hk', hr, hab.1.trans ha, hab.2.trans ht⟩
  subst hkk
  have hn' : n' = s.heap.length := by
    rw [hset1] at hk'
    simp at hk'
    exact hk'.symm
  subst hn'
  have hsets2' : ∀ Q, slot_set s2 Q = slot_set s Q := by
    intro Q
    rw [hsets2]
    by_cases hQ : Q = s'.inferior_ptid
    · rw [if_pos hQ, hset1, hQ, hpt]
      simp only [Function.update_idem]
      have hself : Function.update (slot_set s s.inferior_ptid).bps k' NULL =
          (slot_set s s.inferior_ptid).bps := by
        rw [← hk]
        exact Function.update_eq_self _ _
      rw [hself]
    · rw [if_neg hQ, hsets, if_neg (by rw [← hpt]; exact hQ)]
  have hcell2 : ∀ n, n < s.heap.length → cell s2.heap n = cell s.heap n := by
    intro n hn
    rw [hheap2]
    by_cases hr2 : ptrace2 (remove_call s' b.hw_slot) < 0
    · rw [if_pos hr2, hheap]
      exact cell_append_lt _ hn
    · rw [if_neg hr2, cell_set_ne _ none (Nat.ne_of_lt hn), hheap]
      exact cell_append_lt _ hn
  have hset2 : slot_set s2 s2.inferior_ptid = slot_set s s.inferior_ptid := by
    rw [hpt2, hpt]
    exact hsets2' _
  have hlive2 : slots_live s2.heap (slot_set s2 s2.inferior_ptid) := by
    intro j n hn
    rw [hset2] at hn
    obtain ⟨r, hr⟩ := hlive j n hn
    exact ⟨r, by rw [hcell2 n (cell_lt_length hr)]; exact hr⟩
  have hno2 : ¬ holds s2.heap (slot_set s2 s2.inferior_ptid)
      comp_bp.address comp_bp.type := by
    rintro ⟨j, n, r, hn, hr, ha', ht'⟩
    rw [hset2] at hn
    rw [hcell2 n (hold_lt j n hn)] at hr
    exact hno ⟨j, n, r, hn, hr, ha'.trans ha, ht'.trans ht⟩
  obtain ⟨s3, hres3, _, _, hsets3⟩ := remove_path_absent s2 ptrace3 comp_bp
    (get_breakpoint_in_inf_list_absent _ _ _
      (absent_of_not_holds s2.heap _ comp_bp hlive2 hno2))
  refine ⟨_, s2, _, s3, hres2, hsets2', ?_, hpt2.trans hpt, hres3, ?_⟩
  · intro i n hn
    exact hcell2 n (hold_lt i n hn)
  · intro Q
    rw [hsets3, hsets2']

/-- C7: if `sparc_linux_insert_hw_breakpoint_1 (address, type, mask)` returns
0, then `sparc_linux_remove_hw_breakpoint_1` called next with a comparator of
the same stored address and kind, whatever its mask and whatever the remove
call returns, completes and leaves every slot set, the one of the current
inferior included, with the positions it had before the insert, and the
records at these positions as they were; a further remove of the same pair
returns -1 without a process-control call. -/
theorem insert_remove_round_trip (s : State) (ptrace1 ptrace2 ptrace3 : ptrace_call → Int)
    (address : Nat) (type : target_hw_bp_type) (mask : Nat)
    (s1 : State) (calls1 : List ptrace_call)
    (comp_bp : sparc_linux_hw_breakpoint)
    (hins : sparc_linux_insert_hw_breakpoint_1 s ptrace1 address type mask =
      .ok ⟨0, s1, calls1⟩)
    (ha : comp_bp.address = to_unsigned_int address) (ht : comp_bp.type = type) :
    ∃ (v : Int) (s2 : State) (calls2 : List ptrace_call) (s3 : State),
      sparc_linux_remove_hw_breakpoint_1 s1 ptrace2 comp_bp = .ok ⟨v, s2, calls2⟩ ∧
      (∀ Q, slot_set s2 Q = slot_set s Q) ∧
      (∀ (i : Fin SPARC_MAX_HW_BPS) (n : Nat), (slot_set s s.inferior_ptid).bps i = some n →
        cell s2.heap n = cell s.heap n) ∧
      s2.inferior_ptid = s.inferior_ptid ∧
      sparc_linux_remove_hw_breakpoint_1 s2 ptrace3 comp_bp = .ok ⟨-1, s3, []⟩ ∧
      (∀ Q, slot_set s3 Q = slot_set s Q) :=
  insert_remove_remove s ptrace1 ptrace2 ptrace3 address type mask s1 calls1 comp_bp
    hins ha ht

/-- The spec's example: insert execute at 0x1000, remove at 0x1000, remove at
0x1000 again. -/
theorem insert_remove_round_trip_witness :
    ∃ (v : Int) (s2 : State) (calls2 : List ptrace_call) (s3 : State),
      sparc_linux_remove_hw_breakpoint_1 demo_inserted demo_ptrace_ok
        ⟨0x1000, 0, .hw_execute, 0, 0⟩ = .ok ⟨v, s2, calls2⟩ ∧
      (∀ Q, slot_set s2 Q = slot_set demo_empty Q) ∧
      (∀ (i : Fin SPARC_MAX_HW_BPS) (n : Nat),
        (slot_set demo_empty demo_empty.inferior_ptid).bps i = some n →
        cell s2.heap n = cell demo_empty.heap n) ∧
      s2.inferior_ptid = demo_empty.inferior_ptid ∧
      sparc_linux_remove_hw_breakpoint_1 s2 demo_ptrace_ok
        ⟨0x1000, 0, .hw_execute, 0, 0⟩ = .ok ⟨-1, s3, []⟩ ∧
      (∀ Q, slot_set s3 Q = slot_set demo_empty Q) :=
  insert_remove_round_trip demo_empty demo_ptrace_ok demo_ptrace_ok demo_ptrace_ok
    0x1000 .hw_execute 0 demo_inserted
    [⟨PTRACE_SETHBREGS, 1, 0x1000, 3⟩] ⟨0x1000, 0, .hw_execute, 0, 0⟩ rfl rfl rfl

/-! ## Frame and dependency of insert and remove -/

theorem remove_path_scan_fault (s : State) (ptrace : ptrace_call → Int)
    (comp_bp : sparc_linux_hw_breakpoint) (e : Fault)
    (h : get_breakpoint_in_inf_list s.heap (slot_set s s.inferior_ptid) comp_bp = .error e) :
    sparc_linux_remove_hw_breakpoint_1 s ptrace comp_bp = .error e := by
  obtain ⟨k, s1, hg, hheap, hpt, hfind, hget, hlook⟩ :=
    get_inferior_bps_cases s s.inferior_ptid
  unfold sparc_linux_remove_hw_breakpoint_1
  rw [hg]
  simp only [hheap, h]

/-- The insert loop, as a function of the set alone: it enters the pointer at
the first empty position, or runs past the end of the array. -/
theorem insert_breakpoint_in_inf_list_cases (list : sparc_linux_inferior_bps) (bp : Ptr) :
    (∃ k : Fin SPARC_MAX_HW_BPS, list.bps k = NULL ∧
      insert_breakpoint_in_inf_list list bp =
        .ok (0, { list with bps := Function.update list.bps k bp })) ∨
    ((∀ i, list.bps i ≠ NULL) ∧
      insert_breakpoint_in_inf_list list bp = .error .out_of_bounds) := by
  by_cases hfree : ∃ i, list.bps i = NULL
  · obtain ⟨k, hk, hmin⟩ := exists_first_position (fun i => list.bps i = NULL) hfree
    exact Or.inl ⟨k, hk, insert_breakpoint_loop_free _ _ k hk (SPARC_MAX_HW_BPS + 1) 0
      (by decide) (Nat.zero_le _) (fun j _ hj => hmin j hj)⟩
  · have hfull : ∀ i, list.bps i ≠ NULL := fun i hi => hfree ⟨i, hi⟩
    exact Or.inr ⟨hfull, insert_breakpoint_loop_full _ _ (SPARC_MAX_HW_BPS + 1) 0
      (by decide) (by decide) (fun j _ => hfull j)⟩

/-- A scan that returned a pointer makes the remove loop vacate the position
of that pointer. -/
theorem remove_after_scan (heap : Heap) (list : sparc_linux_inferior_bps)
    (bp : sparc_linux_hw_breakpoint) (n : Nat)
    (h : get_breakpoint_in_inf_list heap list bp = .ok (some n)) :
    ∃ (k : Fin SPARC_MAX_HW_BPS) (b : sparc_linux_hw_breakpoint),
      list.bps k = some n ∧ cell heap n = some b ∧
      remove_breakpoint_in_inf_list list (some n) =
        .ok (0, { list with bps := Function.update list.bps k NULL }) := by
  obtain ⟨k, b, _, hk, hb, he, hbefore⟩ :=
    get_breakpoint_loop_some_inv heap list bp n (SPARC_MAX_HW_BPS + 1) 0 h
  refine ⟨k, b, hk, hb, ?_⟩
  apply remove_breakpoint_loop_found _ _ k hk (SPARC_MAX_HW_BPS + 1) 0 (by decide)
    (Nat.zero_le _)
  intro j _ hj hjn
  obtain ⟨r', hr', hne⟩ := hbefore j (Nat.zero_le _) hj n hjn
  rw [hb] at hr'
  cases hr'
  rw [he] at hne
  cases hne

/-- Every completed insert leaves the sets of the other inferiors and every
live record as they were. -/
theorem insert_frame (s : State) (ptrace : ptrace_call → Int) (address : Nat)
    (type : target_hw_bp_type) (mask : Nat) (v : Int) (s' : State)
    (calls : List ptrace_call)
    (h : sparc_linux_insert_hw_breakpoint_1 s ptrace address type mask = .ok ⟨v, s', calls⟩) :
    (∀ Q, Q ≠ s.inferior_ptid → slot_set s' Q = slot_set s Q) ∧
    (∀ n r, cell s.heap n = some r → cell s'.heap n = some r) ∧
    s'.inferior_ptid = s.inferior_ptid := by
  cases hscan : get_breakpoint_in_inf_list (s.heap ++ [some (candidate address type)])
      (slot_set s s.inferior_ptid) (candidate address type) with
  | error e =>
    rw [insert_path_scan_fault s ptrace address type mask e hscan] at h
    cases h
  | ok p =>
    cases p with
    | some n =>
      obtain ⟨t, hres, hheap, hpt, _, hsets⟩ :=
        insert_path_duplicate s ptrace address type mask n hscan
      rw [hres] at h
      injection h with h
      injection h with _ hst _
      subst hst
      exact ⟨fun Q _ => hsets Q, fun n r hn => by rw [hheap]; exact cell_append_old _ hn,
        hpt⟩
    | none =>
      rcases insert_breakpoint_in_inf_list_cases (slot_set s s.inferior_ptid)
        (some s.heap.length) with ⟨k, _, hins⟩ | ⟨_, hins⟩
      · obtain ⟨t, hres, hheap, hpt, hsets⟩ :=
          insert_path_install s ptrace address type mask _ hscan hins
            (slot_set_id s s.inferior_ptid)
        rw [hres] at h
        injection h with h
        injection h with _ hst _
        subst hst
        refine ⟨?_, ?_, hpt⟩
        · intro Q hQ
          rw [hsets, if_neg hQ]
        · intro n r hn
          rw [hheap]
          exact cell_append_old _ hn
      · rw [insert_path_fault s ptrace address type mask _ hscan hins] at h
        cases h

/-- Every completed remove leaves the sets of the other inferiors, and every
live record that the set of the current inferior does not point to, as they
were. -/
theorem remove_frame (s : State) (ptrace : ptrace_call → Int)
    (comp_bp : sparc_linux_hw_breakpoint) (v : Int) (s' : State)
    (calls : List ptrace_call)
    (h : sparc_linux_remove_hw_breakpoint_1 s ptrace comp_bp = .ok ⟨v, s', calls⟩) :
    (∀ Q, Q ≠ s.inferior_ptid → slot_set s' Q = slot_set s Q) ∧
    (∀ n r, cell s.heap n = some r →
      (∀ i, (slot_set s s.inferior_ptid).bps i ≠ some n) → cell s'.heap n = some r) ∧
    s'.inferior_ptid = s.inferior_ptid := by
  cases hscan : get_breakpoint_in_inf_list s.heap (slot_set s s.inferior_ptid) comp_bp with
  | error e =>
    rw [remove_path_scan_fault s ptrace comp_bp e hscan] at h
    cases h
  | ok p =>
    cases p with
    | none =>
      obtain ⟨t, hres, hheap, hpt, hsets⟩ := remove_path_absent s ptrace comp_bp hscan
      rw [hres] at h
      injection h with h
      injection h with _ hst _
      subst hst
      exact ⟨fun Q _ => hsets Q, fun n r hn _ => by rw [hheap]; exact hn, hpt⟩
    | some n =>
      obtain ⟨k, b, hk, hb, hrem⟩ := remove_after_scan _ _ _ n hscan
      obtain ⟨t, hres, hheap, hpt, hsets⟩ :=
        remove_path_found s ptrace comp_bp b n 0 _ hscan hb hrem
          (slot_set_id s s.inferior_ptid)
      rw [hres] at h
      injection h with h
      injection h with _ hst _
      subst hst
      refine ⟨?_, ?_, hpt⟩
      · intro Q hQ
        rw [hsets, if_neg hQ]
      · intro m r hm hnot
        rw [hheap]
        by_cases hr : ptrace (remove_call s b.hw_slot) < 0
        · rw [if_pos hr]
          exact hm
        · rw [if_neg hr, cell_set_ne _ none (fun hmn => hnot k (by rw [hk, hmn]))]
          exact hm

/-- What an insert lets the current inferior observe is the same in two
states with the same heap, the same current inferior and the same set for
it. -/
theorem insert_observed_congr (s t : State) (ptrace : ptrace_call → Int) (address : Nat)
    (type : target_hw_bp_type) (mask : Nat)
    (hheap : t.heap = s.heap) (hpt : t.inferior_ptid = s.inferior_ptid)
    (hset : slot_set t s.inferior_ptid = slot_set s s.inferior_ptid) :
    observed s.inferior_ptid (sparc_linux_insert_hw_breakpoint_1 t ptrace address type mask) =
      observed s.inferior_ptid
        (sparc_linux_insert_hw_breakpoint_1 s ptrace address type mask) := by
  have hsett : slot_set t t.inferior_ptid = slot_set s s.inferior_ptid := by
    rw [hpt]
    exact hset
  have hcall : install_call t address type = install_call s address type := by
    simp [install_call, hpt]
  have hmask : ∀ r, mask_call t r = mask_call s r := by
    intro r
    simp [mask_call, hpt]
  cases hscan : get_breakpoint_in_inf_list (s.heap ++ [some (candidate address type)])
      (slot_set s s.inferior_ptid) (candidate address type) with
  | error e =>
    rw [insert_path_scan_fault s ptrace address type mask e hscan,
      insert_path_scan_fault t ptrace address type mask e (by rw [hheap, hsett]; exact hscan)]
  | ok p =>
    cases p with
    | some n =>
      obtain ⟨s', hres, hh, hp, _, hsets⟩ :=
        insert_path_duplicate s ptrace address type mask n hscan
      obtain ⟨t', hrest, hht, hpt', _, hsetst⟩ :=
        insert_path_duplicate t ptrace address type mask n
          (by rw [hheap, hsett]; exact hscan)
      rw [hres, hrest]
      simp only [observed, hh, hht, hheap, hsets, hsetst, hset]
    | none =>
      rcases insert_breakpoint_in_inf_list_cases (slot_set s s.inferior_ptid)
        (some s.heap.length) with ⟨k, _, hins⟩ | ⟨_, hins⟩
      · obtain ⟨s', hres, hh, hp, hsets⟩ :=
          insert_path_install s ptrace address type mask _ hscan hins
            (slot_set_id s s.inferior_ptid)
        obtain ⟨t', hrest, hht, hpt', hsetst⟩ :=
          insert_path_install t ptrace address type mask _
            (by rw [hheap, hsett]; exact hscan) (by rw [hheap, hsett]; exact hins)
            (by rw [hpt]; exact slot_set_id s s.inferior_ptid)
        rw [hres, hrest]
        simp only [observed, hh, hht, hheap, hsets, hsetst, hcall, hmask, hpt, if_true]
      · rw [insert_path_fault s ptrace address type mask _ hscan hins,
          insert_path_fault t ptrace address type mask _
            (by rw [hheap, hsett]; exact hscan) (by rw [hheap, hsett]; exact hins)]

/-- What a remove lets the current inferior observe is the same in two states
with the same heap, the same current inferior and the same set for it. -/
theorem remove_observed_congr (s t : State) (ptrace : ptrace_call → Int)
    (comp_bp : sparc_linux_hw_breakpoint)
    (hheap : t.heap = s.heap) (hpt : t.inferior_ptid = s.inferior_ptid)
    (hset : slot_set t s.inferior_ptid = slot_set s s.inferior_ptid) :
    observed s.inferior_ptid (sparc_linux_remove_hw_breakpoint_1 t ptrace comp_bp) =
      observed s.inferior_ptid (sparc_linux_remove_hw_breakpoint_1 s ptrace comp_bp) := by
  have hsett : slot_set t t.inferior_ptid = slot_set s s.inferior_ptid := by
    rw [hpt]
    exact hset
  have hcall : ∀ x, remove_call t x = remove_call s x := by
    intro x
    simp [remove_call, hpt]
  cases hscan : get_breakpoint_in_inf_list s.heap (slot_set s s.inferior_ptid) comp_bp with
  | error e =>
    rw [remove_path_scan_fault s ptrace comp_bp e hscan,
      remove_path_scan_fault t ptrace comp_bp e (by rw [hheap, hsett]; exact hscan)]
  | ok p =>
    cases p with
    | none =>
      obtain ⟨s', hres, hh, _, hsets⟩ := remove_path_absent s ptrace comp_bp hscan
      obtain ⟨t', hrest, hht, _, hsetst⟩ := remove_path_absent t ptrace comp_bp
        (by rw [hheap, hsett]; exact hscan)
      rw [hres, hrest]
      simp only [observed, hh, hht, hheap, hsets, hsetst, hset]
    | some n =>
      obtain ⟨k, b, hk, hb, hrem⟩ := remove_after_scan _ _ _ n hscan
      obtain ⟨s', hres, hh, _, hsets⟩ :=
        remove_path_found s ptrace comp_bp b n 0 _ hscan hb hrem
          (slot_set_id s s.inferior_ptid)
      obtain ⟨t', hrest, hht, _, hsetst⟩ :=
        remove_path_found t ptrace comp_bp b n 0 _
          (by rw [hheap, hsett]; exact hscan) (by rw [hheap]; exact hb)
          (by rw [hsett]; exact hrem) (by rw [hpt]; exact slot_set_id s s.inferior_ptid)
      rw [hres, hrest]
      simp only [observed, hh, hht, hheap, hsets, hsetst, hcall, hpt, if_true]

/-! ## Two inferiors holding the same pairs -/

theorem demo_both_holds :
    ∀ a ∈ [0x1000, 0x2000, 0x3000, 0x4000],
      holds demo_both.heap (slot_set demo_both demo_P) a .hw_execute ∧
      holds demo_both.heap (slot_set demo_both demo_Q) a .hw_execute := by
  intro a ha
  simp only [List.mem_cons, List.mem_singleton, List.not_mem_nil, or_false] at ha
  rcases ha with rfl | rfl | rfl | rfl
  · exact ⟨⟨0, 0, ⟨0x1000, 0, .hw_execute, 1, 0⟩, rfl, rfl, rfl, rfl⟩,
      ⟨0, 4, ⟨0x1000, 0, .hw_execute, 1, 0⟩, rfl, rfl, rfl, rfl⟩⟩
  · exact ⟨⟨1, 1, ⟨0x2000, 0, .hw_execute, 1, 0⟩, rfl, rfl, rfl, rfl⟩,
      ⟨1, 5, ⟨0x2000, 0, .hw_execute, 1, 0⟩, rfl, rfl, rfl, rfl⟩⟩
  · exact ⟨⟨2, 2, ⟨0x3000, 0, .hw_execute, 1, 0⟩, rfl, rfl, rfl, rfl⟩,
      ⟨2, 6, ⟨0x3000, 0, .hw_execute, 1, 0⟩, rfl, rfl, rfl, rfl⟩⟩
  · exact ⟨⟨3, 3, ⟨0x4000, 0, .hw_execute, 1, 0⟩, rfl, rfl, rfl, rfl⟩,
      ⟨3, 7, ⟨0x4000, 0, .hw_execute, 1, 0⟩, rfl, rfl, rfl, rfl⟩⟩

/-! ## Reclaiming a process -/

theorem find_inferior_bps_succ (id : ptid_t) :
    ∀ (l : List sparc_linux_inferior_bps) (i : Nat),
      find_inferior_bps id l (i + 1) = (find_inferior_bps id l i).map (· + 1)
  | [], _ => rfl
  | a :: l, i => by
    by_cases he : ptid_equal a.id id = true
    · simp [find_inferior_bps, he]
    · simp only [find_inferior_bps, he, if_false]
      exact find_inferior_bps_succ id l (i + 1)

theorem find_inferior_bps_none (id : ptid_t) :
    ∀ (l : List sparc_linux_inferior_bps) (i : Nat),
      (∀ x ∈ l, x.id ≠ id) → find_inferior_bps id l i = none
  | [], _, _ => rfl
  | a :: l, i, h => by
    have ha : ¬ ptid_equal a.id id = true := by
      intro he
      exact h a (List.mem_cons_self _ _) ((ptid_equal_iff _ _).1 he)
    simp only [find_inferior_bps, ha, if_false]
    exact find_inferior_bps_none id l (i + 1)
      (fun x hx => h x (List.mem_cons_of_mem _ hx))

theorem lookup_inferior_bps_cons (a : sparc_linux_inferior_bps)
    (l : List sparc_linux_inferior_bps) (Q : ptid_t) :
    lookup_inferior_bps (a :: l) Q =
      if ptid_equal a.id Q then a else lookup_inferior_bps l Q := by
  unfold lookup_inferior_bps
  by_cases he : ptid_equal a.id Q = true
  · simp [find_inferior_bps, he]
  · simp only [find_inferior_bps, he, if_false]
    rw [find_inferior_bps_succ Q l 0]
    cases find_inferior_bps Q l 0 with
    | none => rfl
    | some j => simp [List.getD_eq_getElem?_getD]

theorem lookup_inferior_bps_eraseIdx (Q : ptid_t) :
    ∀ (l : List sparc_linux_inferior_bps) (k : Nat),
      (∀ x, l[k]? = some x → x.id ≠ Q) →
      lookup_inferior_bps (l.eraseIdx k) Q = lookup_inferior_bps l Q
  | [], _, _ => by simp
  | a :: l, 0, h => by
    have ha : ¬ ptid_equal a.id Q = true := by
      intro he
      exact h a (by simp) ((ptid_equal_iff _ _).1 he)
    rw [List.eraseIdx_cons_zero, lookup_inferior_bps_cons, if_neg ha]
  | a :: l, k + 1, h => by
    rw [List.eraseIdx_cons_succ, lookup_inferior_bps_cons, lookup_inferior_bps_cons,
      lookup_inferior_bps_eraseIdx Q l k (by intro x hx; exact h x (by simpa using hx))]

theorem forget_find_loop_found (pid : Int) :
    ∀ (l : List sparc_linux_inferior_bps) (i k : Nat) (x : sparc_linux_inferior_bps),
      l[k]? = some x → x.id.pid = pid →
      (∀ (j : Nat) (y : sparc_linux_inferior_bps), j < k → l[j]? = some y → y.id.pid ≠ pid) →
      forget_find_loop pid l i = (i + k, some (i + k))
  | [], _, _, _, h, _, _ => by simp at h
  | a :: l, i, 0, x, h, hp, _ => by
    simp only [List.getElem?_cons_zero, Option.some.injEq] at h
    subst h
    simp [forget_find_loop, hp]
  | a :: l, i, k + 1, x, h, hp, hfirst => by
    have ha : a.id.pid ≠ pid := hfirst 0 a (Nat.succ_pos _) (by simp)
    simp only [forget_find_loop, ha, if_false]
    rw [forget_find_loop_found pid l (i + 1) k x (by simpa using h) hp
      (fun j y hj hy => hfirst (j + 1) y (by omega) (by simpa using hy))]
    have hik : i + 1 + k = i + (k + 1) := by omega
    rw [hik]

/-- The loop that frees the records, started at position `j` with the
positions from `j` on pointing to live records, each to its own: it completes,
releases exactly these records, and leaves the other cells as they were. -/
theorem forget_free_loop_spec :
    ∀ (fuel j : Nat) (heap : Heap) (inf_bps : sparc_linux_inferior_bps),
      SPARC_MAX_HW_BPS < fuel + j → j ≤ SPARC_MAX_HW_BPS →
      (∀ (i : Fin SPARC_MAX_HW_BPS) (n : Nat), j ≤ i.val → inf_bps.bps i = some n →
        ∃ r, cell heap n = some r) →
      (∀ (i i' : Fin SPARC_MAX_HW_BPS) (n : Nat), j ≤ i.val → j ≤ i'.val →
        inf_bps.bps i = some n → inf_bps.bps i' = some n → i = i') →
      ∃ (heap' : Heap) (inf_bps' : sparc_linux_inferior_bps),
        forget_free_loop fuel j heap inf_bps = .ok (heap', inf_bps') ∧
        (∀ m, (∀ i : Fin SPARC_MAX_HW_BPS, j ≤ i.val → inf_bps.bps i ≠ some m) →
          cell heap' m = cell heap m) ∧
        (∀ (i : Fin SPARC_MAX_HW_BPS) (n : Nat), j ≤ i.val → inf_bps.bps i = some n →
          cell heap' n = none) := by
  intro fuel
  induction fuel with
  | zero => intro j heap inf_bps h1 h2; omega
  | succ fuel ih =>
    intro j heap inf_bps h1 h2 hlive hdist
    have h4 : SPARC_MAX_HW_BPS = 4 := rfl
    unfold forget_free_loop
    by_cases hj : j < SPARC_MAX_HW_BPS
    · rw [dif_pos hj]
      cases hb : inf_bps.bps ⟨j, hj⟩ with
      | none =>
        obtain ⟨heap', inf', hres, hp1, hp2⟩ := ih (j + 1) heap inf_bps (by omega) (by omega)
          (fun i n hi hn => hlive i n (by omega) hn)
          (fun i i' n hi hi' hn hn' => hdist i i' n (by omega) (by omega) hn hn')
        refine ⟨heap', inf', hres, ?_, ?_⟩
        · intro m hm
          exact hp1 m (fun i hi => hm i (by omega))
        · intro i n hi hn
          have hij : i.val ≠ j := by
            intro e
            have hfin : i = ⟨j, hj⟩ := Fin.ext e
            rw [hfin, hb] at hn
            cases hn
          exact hp2 i n (by omega) hn
      | some n =>
        obtain ⟨r, hr⟩ := hlive ⟨j, hj⟩ n (le_refl _) hb
        have hupd : ∀ i : Fin SPARC_MAX_HW_BPS, j + 1 ≤ i.val →
            Function.update inf_bps.bps ⟨j, hj⟩ NULL i = inf_bps.bps i := by
          intro i hi
          apply Function.update_noteq
          intro e
          have := congrArg Fin.val e
          simp at this
          omega
        have hother : ∀ (i : Fin SPARC_MAX_HW_BPS) (m : Nat), j + 1 ≤ i.val →
            inf_bps.bps i = some m → m ≠ n := by
          intro i m hi hm hmn
          subst hmn
          have e := hdist i ⟨j, hj⟩ m (by omega) (le_refl _) hm hb
          have := congrArg Fin.val e
          simp at this
          omega
        obtain ⟨heap', inf', hres, hp1, hp2⟩ := ih (j + 1) (heap.set n none)
          { inf_bps with bps := Function.update inf_bps.bps ⟨j, hj⟩ NULL }
          (by omega) (by omega)
          (by
            intro i m hi hm
            simp only [hupd i hi] at hm
            obtain ⟨r', hr'⟩ := hlive i m (by omega) hm
            exact ⟨r', by rw [cell_set_ne _ none (hother i m hi hm)]; exact hr'⟩)
          (by
            intro i i' m hi hi' hm hm'
            simp only [hupd i hi] at hm
            simp only [hupd i' hi'] at hm'
            exact hdist i i' m (by omega) (by omega) hm hm')
        refine ⟨heap', inf', ?_, ?_, ?_⟩
        · simp only [xfree, hr]
          exact hres
        · intro m hm
          have hmn : m ≠ n := fun e => hm ⟨j, hj⟩ (le_refl _) (by rw [hb, e])
          rw [hp1 m (by
            intro i hi
            simp only [hupd i hi]
            exact hm i (by omega)), cell_set_ne _ none hmn]
        · intro i m hi hm
          by_cases hij : i.val = j
          · have hfin : i = ⟨j, hj⟩ := Fin.ext hij
            rw [hfin, hb] at hm
            cases hm
            rw [hp1 n (by
              intro i' hi'
              simp only [hupd i' hi']
              intro hc
              exact hother i' n hi' hc rfl), cell_set_none]
          · exact hp2 i m (by omega) (by simp only [hupd i (by omega)]; exact hm)
    · rw [dif_neg hj]
      refine ⟨heap, inf_bps, rfl, fun _ _ => rfl, ?_⟩
      intro i n hi _
      have := i.isLt
      omega

/-- The reclaim of a process whose set is the first in the vector with that
process id. -/
theorem forget_process_first (s : State) (P : ptid_t) (k : Nat)
    (hk : find_inferior_bps P s.inf_list 0 = some k)
    (hfirst : ∀ (j : Nat) (x : sparc_linux_inferior_bps), j < k →
      s.inf_list[j]? = some x → x.id.pid ≠ ptid_get_pid P)
    (hreg : one_set_per_identity s.inf_list)
    (hlive : slots_live s.heap (slot_set s P))
    (hdist : slots_distinct (slot_set s P)) :
    ∃ s' : State,
      sparc_linux_forget_process s (ptid_get_pid P) = .ok ⟨(), s', []⟩ ∧
      s'.inf_list = s.inf_list.eraseIdx k ∧
      (∀ x ∈ s'.inf_list, x.id ≠ P) ∧
      (∀ Q, Q ≠ P → slot_set s' Q = slot_set s Q) ∧
      (∀ m, (∀ i, (slot_set s P).bps i ≠ some m) → cell s'.heap m = cell s.heap m) ∧
      (∀ i n, (slot_set s P).bps i = some n → cell s'.heap n = none) ∧
      slot_set s' P = new_inferior_bps P ∧
      s'.inferior_ptid = s.inferior_ptid := by
  obtain ⟨_, y, hy, hid⟩ := find_inferior_bps_some P s.inf_list 0 k hk
  simp only [Nat.sub_zero] at hy
  have hset : slot_set s P = y := by
    rw [slot_set_eq_lookup]
    unfold lookup_inferior_bps
    rw [hk]
    simp [List.getD_eq_getElem?_getD, hy]
  have hgetD : s.inf_list.getD k (new_inferior_bps s.inferior_ptid) = y := by
    simp [List.getD_eq_getElem?_getD, hy]
  have hfind : forget_find_loop (ptid_get_pid P) s.inf_list 0 = (k, some k) := by
    have h := forget_find_loop_found (ptid_get_pid P) s.inf_list 0 k y hy
      (by rw [hid]; rfl) hfirst
    simpa using h
  rw [hset] at hlive hdist
  obtain ⟨heap', inf', hfree, hp1, hp2⟩ :=
    forget_free_loop_spec (SPARC_MAX_HW_BPS + 1) 0 s.heap y (by decide) (by decide)
      (fun i n _ hn => hlive i n hn) (fun i i' n _ _ hn hn' => hdist i i' n hn hn')
  have hnone : ∀ x ∈ s.inf_list.eraseIdx k, x.id ≠ P := by
    intro x hx hxP
    obtain ⟨i, hik, hix⟩ := List.mem_eraseIdx_iff_getElem?.1 hx
    exact hik (hreg i k x y hix hy (hxP.trans hid.symm))
  refine ⟨⟨heap', s.inf_list.eraseIdx k, s.inferior_ptid⟩, ?_, rfl, hnone, ?_, ?_, ?_, ?_,
    rfl⟩
  · unfold sparc_linux_forget_process
    rw [hfind]
    simp only [hgetD, hfree]
  · intro Q hQ
    rw [slot_set_eq_lookup, slot_set_eq_lookup]
    apply lookup_inferior_bps_eraseIdx
    intro x hx
    rw [hy] at hx
    cases hx
    rw [hid]
    exact fun e => hQ e.symm
  · intro m hm
    rw [hset] at hm
    exact hp1 m (fun i _ => hm i)
  · intro i n hn
    rw [hset] at hn
    exact hp2 i n (Nat.zero_le _) hn
  · rw [slot_set_eq_lookup]
    unfold lookup_inferior_bps
    show (match find_inferior_bps P (s.inf_list.eraseIdx k) 0 with
      | some i => (s.inf_list.eraseIdx k).getD i (new_inferior_bps P)
      | none => new_inferior_bps P) = new_inferior_bps P
    rw [find_inferior_bps_none P _ 0 hnone]

/-! ## Claim about `sparc_linux_forget_process` with sets to forget -/

/-- C10, as the code behaves: `sparc_linux_forget_process` does not clear a
process whose sets are keyed by more than one identity.  The vector is keyed
by the full identity (`ptid_equal` in `sparc_linux_get_inferior_bps`), while
the search loop of `sparc_linux_forget_process` compares the process id only
and stops at the first set it finds.  In `demo_threads` the vector holds a
set for `demo_T1`, with three installed records, behind the set of `demo_T2`,
an identity with the same process id.  The call with that process id
completes without a process-control call, but the set it takes out of the
vector is the one of `demo_T2` only: the set of `demo_T1` remains in the
vector, its first position still occupied by a live record, so a set and
records of the ended process are left behind. -/
theorem forget_process_takes_first_of_pid :
    ∃ s' : State,
      sparc_linux_forget_process demo_threads (ptid_get_pid demo_T1) = .ok ⟨(), s', []⟩ ∧
      (∃ x ∈ s'.inf_list, x.id = demo_T1) ∧
      (slot_set s' demo_T1).bps 0 = some 0 ∧
      cell s'.heap 0 = some ⟨0x1000, 0, .hw_execute, 1, 0⟩ ∧
      (slot_set demo_threads demo_T2).bps 0 = some 3 ∧
      (slot_set s' demo_T2).bps 0 = NULL :=
  ⟨_, rfl, ⟨_, List.mem_cons_self _ _, rfl⟩, rfl, rfl, rfl, rfl⟩

/-- The reclaim when the set of `P` is the first in the vector with the
process id of `P`: with at most one set per identity, and every occupied
position of that set pointing to a live record of its own,
`sparc_linux_forget_process (pid of P)` completes without a process-control
call; it takes the set of `P` out of the vector and releases the records the
set pointed to; the sets of all other identities and all other heap cells are
unchanged; and `sparc_linux_get_inferior_bps` for `P` then yields a set with
all four positions empty. -/
theorem forget_process_clears (s : State) (P : ptid_t) (k : Nat)
    (hk : find_inferior_bps P s.inf_list 0 = some k)
    (hfirst : ∀ (j : Nat) (x : sparc_linux_inferior_bps), j < k →
      s.inf_list[j]? = some x → x.id.pid ≠ ptid_get_pid P)
    (hreg : one_set_per_identity s.inf_list)
    (hlive : slots_live s.heap (slot_set s P))
    (hdist : slots_distinct (slot_set s P)) :
    ∃ s' : State,
      sparc_linux_forget_process s (ptid_get_pid P) = .ok ⟨(), s', []⟩ ∧
      s'.inf_list = s.inf_list.eraseIdx k ∧
      (∀ x ∈ s'.inf_list, x.id ≠ P) ∧
      (∀ Q, Q ≠ P → slot_set s' Q = slot_set s Q) ∧
      (∀ m, (∀ i, (slot_set s P).bps i ≠ some m) → cell s'.heap m = cell s.heap m) ∧
      (∀ i n, (slot_set s P).bps i = some n → cell s'.heap n = none) ∧
      (∀ i, (sparc_linux_get_inferior_bps s' P).2.1.bps i = NULL) ∧
      s'.inferior_ptid = s.inferior_ptid := by
  obtain ⟨s', h1, h2, h3, h4, h5, h6, h7, h8⟩ :=
    forget_process_first s P k hk hfirst hreg hlive hdist
  refine ⟨s', h1, h2, h3, h4, h5, h6, ?_, h8⟩
  intro i
  have hset : (sparc_linux_get_inferior_bps s' P).2.1 = new_inferior_bps P := h7
  rw [hset]
  rfl

theorem demo_three_registry : one_set_per_identity demo_three.inf_list := by
  intro i j x y hx hy hid
  rcases i with _ | _ | i <;> rcases j with _ | _ | j <;>
    simp [demo_three] at hx hy <;> try rfl
  · subst hx
    subst hy
    exact absurd hid (by decide)
  · subst hx
    subst hy
    exact absurd hid (by decide)

theorem demo_three_live : slots_live demo_three.heap (slot_set demo_three demo_P) := by
  intro i n h
  have hset : slot_set demo_three demo_P =
      ⟨demo_P, fun i => if i.val < 3 then some i.val else none, 0⟩ := rfl
  rw [hset] at h
  fin_cases i <;> simp at h <;> subst h <;> exact ⟨_, rfl⟩

theorem demo_three_distinct : slots_distinct (slot_set demo_three demo_P) := by
  intro i j n hi hj
  have hset : slot_set demo_three demo_P =
      ⟨demo_P, fun i => if i.val < 3 then some i.val else none, 0⟩ := rfl
  rw [hset] at hi hj
  fin_cases i <;> fin_cases j <;> simp at hi hj <;> first | rfl | omega

/-- The spec's example: a process with three installed breakpoints is
forgotten, next to another process with one watchpoint. -/
theorem forget_process_clears_witness :
    ∃ s' : State,
      sparc_linux_forget_process demo_three (ptid_get_pid demo_P) = .ok ⟨(), s', []⟩ ∧
      s'.inf_list = demo_three.inf_list.eraseIdx 1 ∧
      (∀ x ∈ s'.inf_list, x.id ≠ demo_P) ∧
      (∀ Q, Q ≠ demo_P → slot_set s' Q = slot_set demo_three Q) ∧
      (∀ m, (∀ i, (slot_set demo_three demo_P).bps i ≠ some m) →
        cell s'.heap m = cell demo_three.heap m) ∧
      (∀ i n, (slot_set demo_three demo_P).bps i = some n → cell s'.heap n = none) ∧
      (∀ i, (sparc_linux_get_inferior_bps s' demo_P).2.1.bps i = NULL) ∧
      s'.inferior_ptid = demo_three.inferior_ptid :=
  forget_process_clears demo_three demo_P 1 rfl
    (by
      intro j x hj hx
      have hj0 : j = 0 := by omega
      subst hj0
      simp [demo_three] at hx
      subst hx
      decide)
    demo_three_registry demo_three_live demo_three_distinct

/-! ## Claim about `sparc_linux_can_use_hw_breakpoint` -/

/-- C20: for every requested count `cnt` and every value of the arguments
`type` and `othertype`, `sparc_linux_can_use_hw_breakpoint` returns 1 or -1;
it returns 1 if and only if `cnt ≤ 4`, and -1 if and only if `cnt > 4`. -/
theorem can_use_hw_breakpoint_iff (type cnt othertype : Int) :
    (sparc_linux_can_use_hw_breakpoint type cnt othertype = 1 ∨
      sparc_linux_can_use_hw_breakpoint type cnt othertype = -1) ∧
    (sparc_linux_can_use_hw_breakpoint type cnt othertype = 1 ↔ cnt ≤ 4) ∧
    (sparc_linux_can_use_hw_breakpoint type cnt othertype = -1 ↔ cnt > 4) := by
  unfold sparc_linux_can_use_hw_breakpoint
  by_cases h : cnt > (SPARC_MAX_HW_BPS : Int)
  · have h4 : cnt > 4 := h
    rw [if_pos h]
    refine ⟨Or.inr rfl, ?_, ?_⟩
    · constructor
      · intro h1
        exact absurd h1 (by decide)
      · intro h1
        omega
    · exact ⟨fun _ => h4, fun _ => rfl⟩
  · have h4 : ¬ cnt > 4 := h
    rw [if_neg h]
    refine ⟨Or.inl rfl, ?_, ?_⟩
    · exact ⟨fun _ => by omega, fun _ => rfl⟩
    · constructor
      · intro h1
        exact absurd h1 (by decide)
      · intro h1
        exact absurd h1 h4

/-! ## Claims about `sparc_place_addr` -/

theorem testBit_mask (i : Nat) :
    (0xfffffffc : Nat).testBit i = decide (2 ≤ i ∧ i < 32) := by
  have h := Nat.testBit_two_pow_sub_succ (show 3 < 2 ^ 32 by decide) i
  have h3 := Nat.testBit_two_pow_sub_one 2 i
  have e1 : (2 ^ 32 - (3 + 1) : Nat) = 0xfffffffc := by decide
  have e2 : (2 ^ 2 - 1 : Nat) = 3 := by decide
  rw [e1] at h
  rw [e2] at h3
  rw [h, h3]
  by_cases h1 : i < 32 <;> by_cases h2 : i < 2 <;> simp [h1, h2]
  omega

/-- Bit `i` of the placed address is bit `i` of the address for
`2 ≤ i < 32`, and zero for every other `i`. -/
theorem sparc_place_addr_testBit (addr i : Nat) :
    (sparc_place_addr addr).testBit i = (decide (2 ≤ i ∧ i < 32) && addr.testBit i) := by
  unfold sparc_place_addr to_unsigned_int
  rw [Nat.testBit_and, Nat.testBit_mod_two_pow, testBit_mask]
  by_cases h1 : i < 32 <;> by_cases h2 : 2 ≤ i <;> simp [h1, h2]

theorem sparc_place_addr_lt (addr : Nat) : sparc_place_addr addr < 2 ^ 32 :=
  Nat.and_lt_two_pow _ (by decide)

theorem sparc_place_addr_mod_four (addr : Nat) : sparc_place_addr addr % 4 = 0 := by
  have h := Nat.and_pow_two_sub_one_eq_mod (sparc_place_addr addr) 2
  have e : (2 ^ 2 - 1 : Nat) = 3 := by decide
  have e4 : (2 ^ 2 : Nat) = 4 := by decide
  rw [e, e4] at h
  rw [← h]
  unfold sparc_place_addr
  rw [Nat.and_assoc]
  have hm : (0xfffffffc : Nat) &&& 3 = 0 := by decide
  rw [hm]
  simp

theorem sparc_place_addr_idem (addr : Nat) :
    sparc_place_addr (sparc_place_addr addr) = sparc_place_addr addr := by
  have hlt := sparc_place_addr_lt addr
  have hcast : to_unsigned_int (sparc_place_addr addr) = sparc_place_addr addr :=
    Nat.mod_eq_of_lt hlt
  show to_unsigned_int (sparc_place_addr addr) &&& 0xfffffffc = sparc_place_addr addr
  rw [hcast]
  unfold sparc_place_addr
  rw [Nat.and_assoc]
  have hm : (0xfffffffc : Nat) &&& 0xfffffffc = 0xfffffffc := by decide
  rw [hm]

/-- The placed address of a 32-bit address is the address less its remainder
modulo 4. -/
theorem sparc_place_addr_of_lt (addr : Nat) (h : addr < 2 ^ 32) :
    sparc_place_addr addr = addr - addr % 4 := by
  have hdiv : addr - addr % 4 = 2 ^ 2 * (addr / 4) := by
    have := Nat.div_add_mod addr 4
    omega
  rw [hdiv]
  apply Nat.eq_of_testBit_eq
  intro i
  rw [sparc_place_addr_testBit, Nat.testBit_mul_pow_two]
  have hshift : (addr / 4).testBit (i - 2) = addr.testBit (2 + (i - 2)) := by
    have := @Nat.testBit_shiftRight 2 (i - 2) addr
    rw [Nat.shiftRight_eq_div_pow] at this
    exact this
  by_cases h2 : 2 ≤ i
  · have e : 2 + (i - 2) = i := by omega
    rw [hshift, e]
    by_cases h32 : i < 32
    · simp [h2, h32]
    · have hfalse : addr.testBit i = false :=
        Nat.testBit_lt_two_pow (lt_of_lt_of_le h (Nat.pow_le_pow_right (by decide) (by omega)))
      simp [hfalse]
  · simp [h2]

/-- C14 as stated fails where `CORE_ADDR` has more than 32 bits: 0x100001003
is a 64-bit value; its placed address is 0x1000, while the address with its
two low-order bits cleared and all other bits unchanged is 0x100001000: bit 32
was set and is cleared. -/
theorem sparc_place_addr_drops_high_bits :
    (0x100001003 : Nat) < 2 ^ 64 ∧
    sparc_place_addr 0x100001003 = 0x1000 ∧
    (0x100001003 : Nat) - 0x100001003 % 4 = 0x100001000 ∧
    (0x100001003 : Nat).testBit 32 = true ∧
    (sparc_place_addr 0x100001003).testBit 32 = false := by
  decide

/-- C14, amended: for every `CORE_ADDR` value, `sparc_place_addr` returns the
low 32 bits of the address with the 2 low-order bits cleared: bit `i` of the
result is bit `i` of the address for `2 ≤ i < 32` and zero otherwise.  For
every address below `2 ^ 32` this is the address with its 2 low-order bits
cleared and all other bits unchanged, that is the address less its remainder
modulo 4.  The address 0x1003 yields 0x1000. -/
theorem sparc_place_addr_clears_low_bits (addr : Nat) :
    (∀ i, (sparc_place_addr addr).testBit i =
      (decide (2 ≤ i ∧ i < 32) && addr.testBit i)) ∧
    (addr < 2 ^ 32 →
      (∀ i, (sparc_place_addr addr).testBit i = (decide (2 ≤ i) && addr.testBit i)) ∧
      sparc_place_addr addr = addr - addr % 4) ∧
    sparc_place_addr 0x1003 = 0x1000 := by
  refine ⟨sparc_place_addr_testBit addr, ?_, by decide⟩
  intro h
  refine ⟨?_, sparc_place_addr_of_lt addr h⟩
  intro i
  rw [sparc_place_addr_testBit]
  by_cases h32 : i < 32
  · simp [h32]
  · have hfalse : addr.testBit i = false :=
      Nat.testBit_lt_two_pow (lt_of_lt_of_le h (Nat.pow_le_pow_right (by decide) (by omega)))
    simp [hfalse]

/-- The example of the spec, 0x1003, a 32-bit address. -/
theorem sparc_place_addr_clears_low_bits_witness :
    (0x1003 : Nat) < 2 ^ 32 ∧
    (∀ i, (sparc_place_addr 0x1003).testBit i =
      (decide (2 ≤ i) && (0x1003 : Nat).testBit i)) ∧
    sparc_place_addr 0x1003 = 0x1003 - 0x1003 % 4 :=
  ⟨by decide, ((sparc_place_addr_clears_low_bits 0x1003).2.1 (by decide)).1,
    ((sparc_place_addr_clears_low_bits 0x1003).2.1 (by decide)).2⟩

/-- C15: for every address `a`, `sparc_place_addr (sparc_place_addr a)` is
`sparc_place_addr a`, and `sparc_place_addr a` is a multiple of 4.  The
address 0x1000 yields 0x1000. -/
theorem sparc_place_addr_idempotent_aligned (a : Nat) :
    sparc_place_addr (sparc_place_addr a) = sparc_place_addr a ∧
    4 ∣ sparc_place_addr a ∧
    sparc_place_addr 0x1000 = 0x1000 :=
  ⟨sparc_place_addr_idem a, Nat.dvd_of_mod_eq_zero (sparc_place_addr_mod_four a), by decide⟩

/-! ## Claim about `sparc_linux_forget_process` with nothing to forget -/

theorem forget_find_loop_none (pid : Int) :
    ∀ (l : List sparc_linux_inferior_bps) (i : Nat), (∀ x ∈ l, x.id.pid ≠ pid) →
      forget_find_loop pid l i = (i + l.length, none)
  | [], i, _ => rfl
  | a :: l, i, h => by
    have ha : a.id.pid ≠ pid := h a (List.mem_cons_self _ _)
    simp only [forget_find_loop, ha, if_false]
    rw [forget_find_loop_none pid l (i + 1) (fun x hx => h x (List.mem_cons_of_mem _ hx))]
    simp only [List.length_cons]
    have e : i + 1 + l.length = i + (l.length + 1) := by omega
    rw [e]

/-- Without a set for the process id, the search loop leaves the local
`inf_bps` unassigned, and the test `inf_bps == NULL` reads it. -/
theorem forget_process_no_set (s : State) (pid : Int)
    (h : ∀ x ∈ s.inf_list, x.id.pid ≠ pid) :
    sparc_linux_forget_process s pid = .error .uninitialized := by
  unfold sparc_linux_forget_process
  rw [forget_find_loop_none pid s.inf_list 0 h]

/-- Forgetting `demo_P` in `demo_three` a second time: the first call
completes, the second reads the unassigned local. -/
theorem forget_process_twice :
    ∃ s' : State,
      sparc_linux_forget_process demo_three (ptid_get_pid demo_P) = .ok ⟨(), s', []⟩ ∧
      sparc_linux_forget_process s' (ptid_get_pid demo_P) = .error .uninitialized :=
  ⟨_, rfl, rfl⟩

/-- C11, as the code behaves: when the vector holds no set whose identity has
the given process id, the empty vector included,
`sparc_linux_forget_process` does not return with everything unchanged: the
local `inf_bps` is declared without an initial value and the search loop
assigns it only on a match, so the test `inf_bps == NULL` that guards the
early return reads an unassigned pointer. -/
theorem forget_process_reads_unassigned (s : State) (pid : Int)
    (h : ∀ x ∈ s.inf_list, x.id.pid ≠ pid) :
    sparc_linux_forget_process s pid = .error .uninitialized :=
  forget_process_no_set s pid h

/-- The failing input of C11: the empty vector. -/
theorem forget_process_reads_unassigned_witness :
    sparc_linux_forget_process demo_empty 1 = .error .uninitialized :=
  forget_process_reads_unassigned demo_empty 1 (by intro x hx; cases hx)

/-! ## Claim about `sparc_linux_get_inferior_bps` -/

theorem find_inferior_bps_none_inv (id : ptid_t) :
    ∀ (l : List sparc_linux_inferior_bps) (i : Nat), find_inferior_bps id l i = none →
      ∀ x ∈ l, x.id ≠ id
  | [], _, _ => by intro x hx; cases hx
  | a :: l, i, h => by
    unfold find_inferior_bps at h
    by_cases he : ptid_equal a.id id = true
    · simp [he] at h
    · simp only [he, if_false] at h
      intro x hx
      rcases List.mem_cons.1 hx with rfl | hx'
      · intro hid
        exact he ((ptid_equal_iff _ _).2 hid)
      · exact find_inferior_bps_none_inv id l (i + 1) h x hx'

theorem getElem?_append_singleton {α : Type} (l : List α) (x y : α) (j : Nat)
    (h : (l ++ [x])[j]? = some y) :
    (j < l.length ∧ l[j]? = some y) ∨ (j = l.length ∧ y = x) := by
  by_cases hj : j < l.length
  · rw [List.getElem?_append_left hj] at h
    exact Or.inl ⟨hj, h⟩
  · rw [List.getElem?_append_right (by omega)] at h
    rcases hj' : j - l.length with _ | m
    · rw [hj'] at h
      simp at h
      exact Or.inr ⟨by omega, h.symm⟩
    · rw [hj'] at h
      simp at h

/-- Entering a new set for an identity the vector has no set for keeps the
vector at one set per identity. -/
theorem one_set_per_identity_append (l : List sparc_linux_inferior_bps) (P : ptid_t)
    (hreg : one_set_per_identity l) (hnone : ∀ x ∈ l, x.id ≠ P) :
    one_set_per_identity (l ++ [new_inferior_bps P]) := by
  intro i j x y hx hy hid
  rcases getElem?_append_singleton l _ x i hx with ⟨_, hx'⟩ | ⟨hi, hx'⟩ <;>
    rcases getElem?_append_singleton l _ y j hy with ⟨_, hy'⟩ | ⟨hj, hy'⟩
  · exact hreg i j x y hx' hy' hid
  · subst hy'
    exact absurd hid (hnone x (List.getElem?_mem hx'))
  · subst hx'
    exact absurd hid.symm (hnone y (List.getElem?_mem hy'))
  · rw [hi, hj]

/-- C19: for every vector with at most one set per identity and every
identity `P`, `sparc_linux_get_inferior_bps (P)`, a total function, returns a
pointer `k` to a set `l` with `id = P` that is in the vector afterwards; the
heap and the current inferior are untouched.  If the vector held a set for
`P`, the state is unchanged.  Otherwise the vector is the old one with the one
new set `l` appended, `num = 0` and all four positions empty, so every
existing set is unchanged.  Afterwards the vector still holds at most one set
per identity, and exactly one for `P`: the one at `k`. -/
theorem get_inferior_bps_get_or_create (s : State) (P : ptid_t)
    (hreg : one_set_per_identity s.inf_list) :
    ∃ (k : Nat) (l : sparc_linux_inferior_bps) (s1 : State),
      sparc_linux_get_inferior_bps s P = (k, l, s1) ∧
      l.id = P ∧ s1.inf_list[k]? = some l ∧
      s1.heap = s.heap ∧ s1.inferior_ptid = s.inferior_ptid ∧
      ((∃ x ∈ s.inf_list, x.id = P) → s1 = s ∧ l ∈ s.inf_list) ∧
      ((¬ ∃ x ∈ s.inf_list, x.id = P) →
        s1.inf_list = s.inf_list ++ [l] ∧ l.num = 0 ∧ ∀ i, l.bps i = NULL) ∧
      one_set_per_identity s1.inf_list ∧
      (∀ (j : Nat) (y : sparc_linux_inferior_bps), s1.inf_list[j]? = some y → y.id = P →
        j = k) := by
  unfold sparc_linux_get_inferior_bps
  cases hf : find_inferior_bps P s.inf_list 0 with
  | some j =>
    obtain ⟨_, y, hy, hid⟩ := find_inferior_bps_some P s.inf_list 0 j hf
    simp only [Nat.sub_zero] at hy
    have hgetD : s.inf_list.getD j (new_inferior_bps P) = y := by
      simp [List.getD_eq_getElem?_getD, hy]
    refine ⟨j, y, s, by dsimp only; rw [hgetD], hid, hy, rfl, rfl, ?_, ?_, hreg, ?_⟩
    · intro _
      exact ⟨rfl, List.getElem?_mem hy⟩
    · intro hno
      exact absurd ⟨y, List.getElem?_mem hy, hid⟩ hno
    · intro j' y' hy' hid'
      exact hreg j' j y' y hy' hy (hid'.trans hid.symm)
  | none =>
    have hnone := find_inferior_bps_none_inv P s.inf_list 0 hf
    refine ⟨s.inf_list.length, new_inferior_bps P,
      { s with inf_list := s.inf_list ++ [new_inferior_bps P] }, rfl, rfl, by simp, rfl, rfl,
      ?_, ?_, one_set_per_identity_append _ _ hreg hnone, ?_⟩
    · rintro ⟨x, hx, hid⟩
      exact absurd hid (hnone x hx)
    · intro _
      exact ⟨rfl, rfl, fun _ => rfl⟩
    · intro j y hy hid
      rcases getElem?_append_singleton s.inf_list _ y j hy with ⟨_, hy'⟩ | ⟨hj, _⟩
      · exact absurd hid (hnone y (List.getElem?_mem hy'))
      · exact hj

/-- The first lookup for `demo_Q` in a state that holds a set for `demo_P`
only. -/
theorem get_inferior_bps_get_or_create_witness :
    ∃ (k : Nat) (l : sparc_linux_inferior_bps) (s1 : State),
      sparc_linux_get_inferior_bps demo_one demo_Q = (k, l, s1) ∧
      l.id = demo_Q ∧ s1.inf_list[k]? = some l ∧
      s1.heap = demo_one.heap ∧ s1.inferior_ptid = demo_one.inferior_ptid ∧
      ((∃ x ∈ demo_one.inf_list, x.id = demo_Q) → s1 = demo_one ∧ l ∈ demo_one.inf_list) ∧
      ((¬ ∃ x ∈ demo_one.inf_list, x.id = demo_Q) →
        s1.inf_list = demo_one.inf_list ++ [l] ∧ l.num = 0 ∧ ∀ i, l.bps i = NULL) ∧
      one_set_per_identity s1.inf_list ∧
      (∀ (j : Nat) (y : sparc_linux_inferior_bps), s1.inf_list[j]? = some y →
        y.id = demo_Q → j = k) :=
  get_inferior_bps_get_or_create demo_one demo_Q
    (by
      intro i j x y hx hy _
      have hi : i < 1 := by
        by_contra hn
        rw [List.getElem?_eq_none (by simp [demo_one]; omega)] at hx
        cases hx
      have hj : j < 1 := by
        by_contra hn
        rw [List.getElem?_eq_none (by simp [demo_one]; omega)] at hy
        cases hy
      omega)

/-! ## Claim about the mask call -/

/-- C17, as the code behaves: when the set of the current inferior has every
occupied position live, holds no record for the pair and has an empty
position, and the install call returns `r ≥ 0`, then
`sparc_linux_insert_hw_breakpoint_1` issues a second process-control call if
and only if `mask ≠ 0`, and that call has the data argument `4 + r`; but its
address argument, the value to program, is `bp->mask` as read before the
assignment `bp->mask = mask`: the zero that `xcalloc` left there, not the
requested mask. -/
theorem mask_call_carries_zero (s : State) (ptrace : ptrace_call → Int)
    (address : Nat) (type : target_hw_bp_type) (mask : Nat)
    (hlive : slots_live s.heap (slot_set s s.inferior_ptid))
    (hno : ¬ holds s.heap (slot_set s s.inferior_ptid) (to_unsigned_int address) type)
    (hfree : ∃ i, (slot_set s s.inferior_ptid).bps i = NULL)
    (hr : 0 ≤ ptrace ⟨PTRACE_SETHBREGS, ptid_get_pid s.inferior_ptid,
      to_unsigned_int address, INSERT_BREAKPOINT type⟩) :
    ∃ s' : State,
      sparc_linux_insert_hw_breakpoint_1 s ptrace address type mask =
        .ok ⟨0, s',
          if mask = 0
          then [⟨PTRACE_SETHBREGS, ptid_get_pid s.inferior_ptid, to_unsigned_int address,
            INSERT_BREAKPOINT type⟩]
          else [⟨PTRACE_SETHBREGS, ptid_get_pid s.inferior_ptid, to_unsigned_int address,
              INSERT_BREAKPOINT type⟩,
            ⟨PTRACE_SETHBREGS, ptid_get_pid s.inferior_ptid, 0,
              4 + ptrace ⟨PTRACE_SETHBREGS, ptid_get_pid s.inferior_ptid,
                to_unsigned_int address, INSERT_BREAKPOINT type⟩⟩]⟩ := by
  obtain ⟨k, s', _, _, hres, _⟩ :=
    insert_free_slot s ptrace address type mask hlive hno hfree
  have hr' : ¬ ptrace (install_call s address type) < 0 := not_lt.2 hr
  refine ⟨s', ?_⟩
  rw [hres, if_neg hr']
  by_cases hm : mask = 0
  · rw [if_pos (Or.inr hm), if_pos hm]
    rfl
  · rw [if_neg (by intro h; rcases h with h | h; exact hr' h; exact hm h), if_neg hm]
    rfl

/-- The failing input of C17: a request with mask 7 in the empty state, with
an install call that returns slot 0: the second call is
`ptrace (PTRACE_SETHBREGS, 1, 0, 4)`, with 0 where the mask 7 was to go. -/
theorem mask_call_carries_zero_witness :
    ∃ s' : State,
      sparc_linux_insert_hw_breakpoint_1 demo_empty demo_ptrace_ok 0x1000 .hw_write 7 =
        .ok ⟨0, s',
          if (7 : Nat) = 0
          then [⟨PTRACE_SETHBREGS, ptid_get_pid demo_empty.inferior_ptid,
            to_unsigned_int 0x1000, INSERT_BREAKPOINT .hw_write⟩]
          else [⟨PTRACE_SETHBREGS, ptid_get_pid demo_empty.inferior_ptid,
              to_unsigned_int 0x1000, INSERT_BREAKPOINT .hw_write⟩,
            ⟨PTRACE_SETHBREGS, ptid_get_pid demo_empty.inferior_ptid, 0,
              4 + demo_ptrace_ok ⟨PTRACE_SETHBREGS, ptid_get_pid demo_empty.inferior_ptid,
                to_unsigned_int 0x1000, INSERT_BREAKPOINT .hw_write⟩⟩]⟩ :=
  mask_call_carries_zero demo_empty demo_ptrace_ok 0x1000 .hw_write 7
    demo_empty_live (demo_empty_not_holds _ _) ⟨0, rfl⟩ (by decide)

/-! ## Claim about the watchpoint operations -/

/-- C16, as the code behaves: `sparc_linux_insert_watchpoint` and
`sparc_linux_insert_mask_watchpoint` pass the address through
`sparc_place_addr`, `sparc_linux_remove_watchpoint` and
`sparc_linux_remove_mask_watchpoint` do not.  In the empty state a write
watchpoint requested at 0x1003 is installed, at 0x1000; the remove called with
the same address 0x1003 and kind returns -1 without a process-control call,
and the record at 0x1000 stays in the set.  The same holds for the masked pair
of operations. -/
theorem watchpoint_remove_misses_unaligned :
    (∃ (s1 s2 : State) (calls : List ptrace_call),
      sparc_linux_insert_watchpoint demo_empty demo_ptrace_ok 0x1003 4 .hw_write =
        .ok ⟨0, s1, calls⟩ ∧
      sparc_linux_remove_watchpoint s1 demo_ptrace_ok 0x1003 4 .hw_write =
        .ok ⟨-1, s2, []⟩ ∧
      (slot_set s2 demo_P).bps 0 = some 0 ∧
      cell s2.heap 0 = some ⟨0x1000, 0, .hw_write, 1, 0⟩) ∧
    (∃ (s1 s2 : State) (calls : List ptrace_call),
      sparc_linux_insert_mask_watchpoint demo_empty demo_ptrace_ok 0x1003 0xff .hw_write =
        .ok ⟨0, s1, calls⟩ ∧
      sparc_linux_remove_mask_watchpoint s1 demo_ptrace_ok 0x1003 0xff .hw_write =
        .ok ⟨-1, s2, []⟩ ∧
      (slot_set s2 demo_P).bps 0 = some 0 ∧
      cell s2.heap 0 = some ⟨0x1000, 0xff, .hw_write, 1, 0⟩) :=
  ⟨⟨_, _, _, rfl, rfl, rfl, rfl⟩, ⟨_, _, _, rfl, rfl, rfl, rfl⟩⟩

/-! ## The state an operation leaves -/

theorem list_set_same {α : Type} :
    ∀ (l : List α) (k : Nat) (x : α), l[k]? = some x → l.set k x = l
  | [], _, _, _ => by simp
  | a :: l, 0, x, h => by
    simp only [List.getElem?_cons_zero, Option.some.injEq] at h
    subst h
    rfl
  | a :: l, k + 1, x, h => by
    simp only [List.getElem?_cons_succ] at h
    simp only [List.set_cons_succ, list_set_same l k x h]

/-- The vector that `sparc_linux_get_inferior_bps` leaves is the given one,
possibly with the new empty set at its end, and holds the returned set at the
returned index. -/
theorem get_inferior_bps_list (s : State) (id : ptid_t) :
    ((sparc_linux_get_inferior_bps s id).2.2.inf_list = s.inf_list ∨
      (sparc_linux_get_inferior_bps s id).2.2.inf_list =
        s.inf_list ++ [new_inferior_bps id]) ∧
    (sparc_linux_get_inferior_bps s id).2.2.inf_list[(sparc_linux_get_inferior_bps s id).1]? =
      some (slot_set s id) ∧
    (sparc_linux_get_inferior_bps s id).2.2.heap = s.heap ∧
    (sparc_linux_get_inferior_bps s id).2.2.inferior_ptid = s.inferior_ptid := by
  obtain ⟨h1, h2, h3, _, h5, _⟩ := get_inferior_bps_spec s id
  refine ⟨?_, by rw [h5, slot_set_eq_lookup], h2, h3⟩
  unfold sparc_linux_get_inferior_bps
  cases find_inferior_bps id s.inf_list 0 with
  | some j => exact Or.inl rfl
  | none => exact Or.inr rfl

/-- A scan for the candidate that ends with `NULL` went over live records
only, none of them with the pair. -/
theorem scan_candidate_none_inv (heap : Heap) (list : sparc_linux_inferior_bps)
    (address : Nat) (type : target_hw_bp_type)
    (hscan : get_breakpoint_in_inf_list (heap ++ [some (candidate address type)]) list
      (candidate address type) = .ok NULL) :
    slots_live heap list ∧ ¬ holds heap list (to_unsigned_int address) type := by
  have hinv := get_breakpoint_in_inf_list_none_inv _ _ _ hscan
  have hold : ∀ (j : Fin SPARC_MAX_HW_BPS) (n : Nat), list.bps j = some n →
      ∃ r, cell heap n = some r ∧
        hw_breakpoint_equal r (candidate address type) = false := by
    intro j n hn
    obtain ⟨r, hr, he⟩ := hinv j n hn
    have hne : n ≠ heap.length := by
      intro hlen
      rw [hlen, cell_append_new] at hr
      cases hr
      simp [hw_breakpoint_equal] at he
    have hlt : n < heap.length := by
      have h1 := cell_lt_length hr
      simp only [List.length_append, List.length_singleton] at h1
      omega
    rw [cell_append_lt _ hlt] at hr
    exact ⟨r, hr, he⟩
  constructor
  · intro j n hn
    obtain ⟨r, hr, _⟩ := hold j n hn
    exact ⟨r, hr⟩
  · rintro ⟨j, n, r, hn, hr, ha, ht⟩
    obtain ⟨r', hr', he⟩ := hold j n hn
    rw [hr] at hr'
    cases hr'
    have htrue : hw_breakpoint_equal r (candidate address type) = true :=
      (hw_breakpoint_equal_iff _ _).2 ⟨ha, ht⟩
    rw [htrue] at he
    cases he

theorem insert_path_duplicate_state (s : State) (ptrace : ptrace_call → Int)
    (address : Nat) (type : target_hw_bp_type) (mask n : Nat)
    (h : get_breakpoint_in_inf_list (s.heap ++ [some (candidate address type)])
      (slot_set s s.inferior_ptid) (candidate address type) = .ok (some n)) :
    sparc_linux_insert_hw_breakpoint_1 s ptrace address type mask =
      .ok ⟨-1, ⟨s.heap ++ [none],
        (sparc_linux_get_inferior_bps s s.inferior_ptid).2.2.inf_list, s.inferior_ptid⟩,
        []⟩ := by
  obtain ⟨k, s1, hg, hheap, hpt, hfind, hget, hlook⟩ :=
    get_inferior_bps_cases s s.inferior_ptid
  have hc : ({ zero_hw_breakpoint with
      address := to_unsigned_int address, type := type, enabled := 1 } :
      sparc_linux_hw_breakpoint) = candidate address type := rfl
  have hG : (sparc_linux_get_inferior_bps s s.inferior_ptid).2.2 = s1 := by rw [hg]
  rw [hG]
  unfold sparc_linux_insert_hw_breakpoint_1
  rw [hg]
  simp only [xcalloc_hw_breakpoint, hheap, store_new, load_new, hc, h, dealloc, xfree_new,
    hpt]

theorem insert_path_install_state (s : State) (ptrace : ptrace_call → Int) (address : Nat)
    (type : target_hw_bp_type) (mask : Nat) (l1 : sparc_linux_inferior_bps)
    (h : get_breakpoint_in_inf_list (s.heap ++ [some (candidate address type)])
      (slot_set s s.inferior_ptid) (candidate address type) = .ok NULL)
    (hins : insert_breakpoint_in_inf_list (slot_set s s.inferior_ptid) (some s.heap.length) =
      .ok (0, l1)) :
    sparc_linux_insert_hw_breakpoint_1 s ptrace address type mask =
      .ok ⟨if ptrace (install_call s address type) < 0 then -1 else 0,
        ⟨s.heap ++ [if ptrace (install_call s address type) < 0 then none
            else some ⟨to_unsigned_int address, mask, type, 1,
              ptrace (install_call s address type)⟩],
          (sparc_linux_get_inferior_bps s s.inferior_ptid).2.2.inf_list.set
            (sparc_linux_get_inferior_bps s s.inferior_ptid).1 l1,
          s.inferior_ptid⟩,
        if ptrace (install_call s address type) < 0 ∨ mask = 0
        then [install_call s address type]
        else [install_call s address type,
          mask_call s (ptrace (install_call s address type))]⟩ := by
  obtain ⟨k, s1, hg, hheap, hpt, hfind, hget, hlook⟩ :=
    get_inferior_bps_cases s s.inferior_ptid
  have hc : ({ zero_hw_breakpoint with
      address := to_unsigned_int address, type := type, enabled := 1 } :
      sparc_linux_hw_breakpoint) = candidate address type := rfl
  have hcall : (⟨PTRACE_SETHBREGS, ptid_get_pid s.inferior_ptid,
      ((candidate address type).address : Int),
      INSERT_BREAKPOINT (candidate address type).type⟩ : ptrace_call) =
      install_call s address type := rfl
  have hG : (sparc_linux_get_inferior_bps s s.inferior_ptid).2.2 = s1 := by rw [hg]
  have hK : (sparc_linux_get_inferior_bps s s.inferior_ptid).1 = k := by rw [hg]
  rw [hG, hK]
  unfold sparc_linux_insert_hw_breakpoint_1
  rw [hg]
  simp only [xcalloc_hw_breakpoint, hheap, store_new, load_new, hc, h, hins, hpt, hcall,
    dealloc]
  by_cases hr : ptrace (install_call s address type) < 0
  · simp [hr, xfree_new]
  · by_cases hm : mask = 0
    · simp [hr, hm, candidate]
    · simp [hr, hm, candidate, mask_call, store_new, load_new]

/-- What a completed insert leaves: the heap with one more cell, and the
vector with the set of the current inferior, which it may have had to enter
first, either as it was (the duplicate) or with the candidate at an empty
position. -/
theorem insert_transition (s : State) (ptrace : ptrace_call → Int) (address : Nat)
    (type : target_hw_bp_type) (mask : Nat) (r : Ret Int)
    (h : sparc_linux_insert_hw_breakpoint_1 s ptrace address type mask = .ok r) :
    ∃ (g : List sparc_linux_inferior_bps) (k : Nat) (l1 : sparc_linux_inferior_bps)
        (c : Option sparc_linux_hw_breakpoint),
      (g = s.inf_list ∨ g = s.inf_list ++ [new_inferior_bps s.inferior_ptid]) ∧
      g[k]? = some (slot_set s s.inferior_ptid) ∧
      r.st.heap = s.heap ++ [c] ∧ r.st.inf_list = g.set k l1 ∧
      r.st.inferior_ptid = s.inferior_ptid ∧
      ((l1 = slot_set s s.inferior_ptid ∧ c = none ∧ r.calls = [] ∧ r.val = -1) ∨
       (∃ j : Fin SPARC_MAX_HW_BPS, (slot_set s s.inferior_ptid).bps j = NULL ∧
          l1 = { slot_set s s.inferior_ptid with
            bps := Function.update (slot_set s s.inferior_ptid).bps j (some s.heap.length) } ∧
          slots_live s.heap (slot_set s s.inferior_ptid) ∧
          ¬ holds s.heap (slot_set s s.inferior_ptid) (to_unsigned_int address) type ∧
          r.calls = (if ptrace (install_call s address type) < 0 ∨ mask = 0
            then [install_call s address type]
            else [install_call s address type,
              mask_call s (ptrace (install_call s address type))]) ∧
          r.val = (if ptrace (install_call s address type) < 0 then -1 else 0) ∧
          c = (if ptrace (install_call s address type) < 0 then none
            else some ⟨to_unsigned_int address, mask, type, 1,
              ptrace (install_call s address type)⟩))) := by
  obtain ⟨hg1, hg2, _, _⟩ := get_inferior_bps_list s s.inferior_ptid
  cases hscan : get_breakpoint_in_inf_list (s.heap ++ [some (candidate address type)])
      (slot_set s s.inferior_ptid) (candidate address type) with
  | error e =>
    rw [insert_path_scan_fault s ptrace address type mask e hscan] at h
    cases h
  | ok p =>
    cases p with
    | some n =>
      rw [insert_path_duplicate_state s ptrace address type mask n hscan] at h
      injection h with h
      subst h
      exact ⟨_, _, slot_set s s.inferior_ptid, none, hg1, hg2, rfl,
        (list_set_same _ _ _ hg2).symm, rfl, Or.inl ⟨rfl, rfl, rfl, rfl⟩⟩
    | none =>
      obtain ⟨hlive, hno⟩ := scan_candidate_none_inv _ _ _ _ hscan
      rcases insert_breakpoint_in_inf_list_cases (slot_set s s.inferior_ptid)
        (some s.heap.length) with ⟨j, hj, hins⟩ | ⟨_, hins⟩
      · rw [insert_path_install_state s ptrace address type mask _ hscan hins] at h
        injection h with h
        subst h
        exact ⟨_, _, _, _, hg1, hg2, rfl, rfl, rfl,
          Or.inr ⟨j, hj, rfl, hlive, hno, rfl, rfl, rfl⟩⟩
      · rw [insert_path_fault s ptrace address type mask _ hscan hins] at h
        cases h

theorem remove_path_absent_state (s : State) (ptrace : ptrace_call → Int)
    (comp_bp : sparc_linux_hw_breakpoint)
    (h : get_breakpoint_in_inf_list s.heap (slot_set s s.inferior_ptid) comp_bp = .ok NULL) :
    sparc_linux_remove_hw_breakpoint_1 s ptrace comp_bp =
      .ok ⟨-1, (sparc_linux_get_inferior_bps s s.inferior_ptid).2.2, []⟩ := by
  obtain ⟨k, s1, hg, hheap, hpt, hfind, hget, hlook⟩ :=
    get_inferior_bps_cases s s.inferior_ptid
  have hG : (sparc_linux_get_inferior_bps s s.inferior_ptid).2.2 = s1 := by rw [hg]
  rw [hG]
  unfold sparc_linux_remove_hw_breakpoint_1
  rw [hg]
  simp only [hheap, h]

theorem remove_path_found_state (s : State) (ptrace : ptrace_call → Int)
    (comp_bp b : sparc_linux_hw_breakpoint) (n : Nat) (rc : Int)
    (l1 : sparc_linux_inferior_bps)
    (h : get_breakpoint_in_inf_list s.heap (slot_set s s.inferior_ptid) comp_bp =
      .ok (some n))
    (hb : cell s.heap n = some b)
    (hrem : remove_breakpoint_in_inf_list (slot_set s s.inferior_ptid) (some n) =
      .ok (rc, l1)) :
    sparc_linux_remove_hw_breakpoint_1 s ptrace comp_bp =
      .ok ⟨if ptrace (remove_call s b.hw_slot) < 0 then -1 else 0,
        ⟨if ptrace (remove_call s b.hw_slot) < 0 then s.heap else s.heap.set n none,
          (sparc_linux_get_inferior_bps s s.inferior_ptid).2.2.inf_list.set
            (sparc_linux_get_inferior_bps s s.inferior_ptid).1 l1,
          s.inferior_ptid⟩,
        [remove_call s b.hw_slot]⟩ := by
  obtain ⟨k, s1, hg, hheap, hpt, hfind, hget, hlook⟩ :=
    get_inferior_bps_cases s s.inferior_ptid
  have hcall : (⟨PTRACE_SETHBREGS, ptid_get_pid s.inferior_ptid, b.hw_slot,
      REMOVE_BREAKPOINT⟩ : ptrace_call) = remove_call s b.hw_slot := rfl
  have hG : (sparc_linux_get_inferior_bps s s.inferior_ptid).2.2 = s1 := by rw [hg]
  have hK : (sparc_linux_get_inferior_bps s s.inferior_ptid).1 = k := by rw [hg]
  rw [hG, hK]
  unfold sparc_linux_remove_hw_breakpoint_1
  rw [hg]
  simp only [hheap, h, load, deref, hb, hrem, hpt, hcall]
  by_cases hr : ptrace (remove_call s b.hw_slot) < 0
  · simp [hr]
  · simp [hr, xfree, hb]

/-- What a completed remove leaves: the vector with the set of the current
inferior either as it was (nothing found, heap untouched) or with the
position of the first matching record vacated, that record released unless
the remove call failed. -/
theorem remove_transition (s : State) (ptrace : ptrace_call → Int)
    (comp_bp : sparc_linux_hw_breakpoint) (r : Ret Int)
    (h : sparc_linux_remove_hw_breakpoint_1 s ptrace comp_bp = .ok r) :
    ∃ (g : List sparc_linux_inferior_bps) (k : Nat) (l1 : sparc_linux_inferior_bps),
      (g = s.inf_list ∨ g = s.inf_list ++ [new_inferior_bps s.inferior_ptid]) ∧
      g[k]? = some (slot_set s s.inferior_ptid) ∧
      r.st.inf_list = g.set k l1 ∧ r.st.inferior_ptid = s.inferior_ptid ∧
      ((l1 = slot_set s s.inferior_ptid ∧ r.st.heap = s.heap ∧ r.calls = [] ∧ r.val = -1) ∨
       (∃ (j : Fin SPARC_MAX_HW_BPS) (n : Nat) (b : sparc_linux_hw_breakpoint),
          (slot_set s s.inferior_ptid).bps j = some n ∧ cell s.heap n = some b ∧
          hw_breakpoint_equal b comp_bp = true ∧
          l1 = { slot_set s s.inferior_ptid with
            bps := Function.update (slot_set s s.inferior_ptid).bps j NULL } ∧
          r.calls = [remove_call s b.hw_slot] ∧
          r.val = (if ptrace (remove_call s b.hw_slot) < 0 then -1 else 0) ∧
          r.st.heap = (if ptrace (remove_call s b.hw_slot) < 0 then s.heap
            else s.heap.set n none))) := by
  obtain ⟨hg1, hg2, _, _⟩ := get_inferior_bps_list s s.inferior_ptid
  cases hscan : get_breakpoint_in_inf_list s.heap (slot_set s s.inferior_ptid) comp_bp with
  | error e =>
    rw [remove_path_scan_fault s ptrace comp_bp e hscan] at h
    cases h
  | ok p =>
    cases p with
    | none =>
      rw [remove_path_absent_state s ptrace comp_bp hscan] at h
      injection h with h
      subst h
      obtain ⟨_, _, h3, h4⟩ := get_inferior_bps_list s s.inferior_ptid
      exact ⟨_, _, slot_set s s.inferior_ptid, hg1, hg2, (list_set_same _ _ _ hg2).symm, h4,
        Or.inl ⟨rfl, h3, rfl, rfl⟩⟩
    | some n =>
      obtain ⟨j, b, _, hj, hb, he, hbefore⟩ :=
        get_breakpoint_loop_some_inv s.heap _ comp_bp n (SPARC_MAX_HW_BPS + 1) 0 hscan
      have hrem : remove_breakpoint_in_inf_list (slot_set s s.inferior_ptid) (some n) =
          .ok (0, { slot_set s s.inferior_ptid with
            bps := Function.update (slot_set s s.inferior_ptid).bps j NULL }) := by
        apply remove_breakpoint_loop_found _ _ j hj (SPARC_MAX_HW_BPS + 1) 0 (by decide)
          (Nat.zero_le _)
        intro j' _ hj' hjn
        obtain ⟨r', hr', hne⟩ := hbefore j' (Nat.zero_le _) hj' n hjn
        rw [hb] at hr'
        cases hr'
        rw [he] at hne
        cases hne
      rw [remove_path_found_state s ptrace comp_bp b n 0 _ hscan hb hrem] at h
      injection h with h
      subst h
      exact ⟨_, _, _, hg1, hg2, rfl, rfl, Or.inr ⟨j, n, b, hj, hb, he, rfl, rfl, rfl, rfl⟩⟩

/-- What a completed trap attribution leaves: the heap, and the vector
possibly with the new empty set of the current inferior at its end. -/
theorem stopped_by_watchpoint_transition (s : State) (siginfo : siginfo_t) (r : Ret Int)
    (h : sparc_linux_stopped_by_watchpoint s siginfo = .ok r) :
    r.st.heap = s.heap ∧ r.st.inferior_ptid = s.inferior_ptid ∧
    (r.st.inf_list = s.inf_list ∨
      r.st.inf_list = s.inf_list ++ [new_inferior_bps s.inferior_ptid]) := by
  obtain ⟨hg1, _, hg3, hg4⟩ := get_inferior_bps_list s s.inferior_ptid
  unfold sparc_linux_stopped_by_watchpoint at h
  by_cases htrap : siginfo.si_signo = SIGTRAP
  · simp only [htrap, ne_eq, not_true_eq_false, if_false] at h
    cases hscan : get_breakpoint_in_inf_list
        (sparc_linux_get_inferior_bps s s.inferior_ptid).2.2.heap
        (sparc_linux_get_inferior_bps s s.inferior_ptid).2.1
        ⟨to_unsigned_int siginfo.si_addr, 0, .hw_execute, 0, 0⟩ with
    | error e =>
      rw [hscan] at h
      cases h
    | ok p =>
      rw [hscan] at h
      cases p with
      | none =>
        injection h with h
        subst h
        exact ⟨hg3, hg4, hg1⟩
      | some n =>
        injection h with h
        subst h
        exact ⟨hg3, hg4, hg1⟩
  · simp only [ne_eq, htrap, not_false_eq_true, if_true] at h
    injection h with h
    subst h
    exact ⟨rfl, rfl, Or.inl rfl⟩

/-- The loop that frees the records only releases cells. -/
theorem forget_free_loop_shrinks :
    ∀ (fuel j : Nat) (heap heap' : Heap) (inf_bps inf_bps' : sparc_linux_inferior_bps),
      forget_free_loop fuel j heap inf_bps = .ok (heap', inf_bps') →
      heap'.length = heap.length ∧
      ∀ m x, cell heap' m = some x → cell heap m = some x := by
  intro fuel
  induction fuel with
  | zero =>
    intro j heap heap' inf_bps inf_bps' h
    simp [forget_free_loop] at h
  | succ fuel ih =>
    intro j heap heap' inf_bps inf_bps' h
    unfold forget_free_loop at h
    by_cases hj : j < SPARC_MAX_HW_BPS
    · rw [dif_pos hj] at h
      cases hb : inf_bps.bps ⟨j, hj⟩ with
      | none =>
        rw [hb] at h
        exact ih (j + 1) heap heap' inf_bps inf_bps' h
      | some n =>
        rw [hb] at h
        dsimp only at h
        cases hx : cell heap n with
        | none => simp [xfree, hx] at h
        | some b =>
          simp only [xfree, hx] at h
          obtain ⟨h1, h2⟩ := ih (j + 1) (heap.set n none) heap' _ inf_bps' h
          refine ⟨by rw [h1, List.length_set], ?_⟩
          intro m x hm
          have hm' := h2 m x hm
          by_cases hmn : m = n
          · rw [hmn, cell_set_none] at hm'
            cases hm'
          · rw [cell_set_ne _ none hmn] at hm'
            exact hm'
    · rw [dif_neg hj] at h
      injection h with h
      injection h with h1 h2
      subst h1
      exact ⟨rfl, fun _ _ hm => hm⟩

/-- What a completed reclaim leaves: the vector without one of its sets, and
the heap with some cells released. -/
theorem forget_process_transition (s : State) (pid : Int) (r : Ret Unit)
    (h : sparc_linux_forget_process s pid = .ok r) :
    ∃ i : Nat, r.st.inf_list = s.inf_list.eraseIdx i ∧
      r.st.heap.length = s.heap.length ∧
      (∀ m x, cell r.st.heap m = some x → cell s.heap m = some x) ∧
      r.st.inferior_ptid = s.inferior_ptid ∧ r.calls = [] := by
  unfold sparc_linux_forget_process at h
  rcases hf : forget_find_loop pid s.inf_list 0 with ⟨i, o⟩
  rw [hf] at h
  cases o with
  | none => cases h
  | some k =>
    dsimp only at h
    cases hl : forget_free_loop (SPARC_MAX_HW_BPS + 1) 0 s.heap
        (s.inf_list.getD k (new_inferior_bps s.inferior_ptid)) with
    | error e =>
      rw [hl] at h
      cases h
    | ok q =>
      rw [hl] at h
      obtain ⟨heap1, inf1⟩ := q
      injection h with h
      subst h
      obtain ⟨h1, h2⟩ := forget_free_loop_shrinks _ _ _ _ _ _ hl
      exact ⟨i, rfl, h1, h2, rfl, rfl⟩

/-! ## Invariants of the reachable states -/

theorem entry_ok_new (heap : Heap) (id : ptid_t) : entry_ok heap (new_inferior_bps id) := by
  refine ⟨rfl, ?_, ?_⟩
  · intro i n h
    simp [new_inferior_bps] at h
  · intro i j n m r r' h
    simp [new_inferior_bps] at h

/-- A set that is a set of the old state with some positions vacated is in
order in a heap that agrees with the old one where it has live cells below
the old length. -/
theorem entry_ok_of_old (heap heap' : Heap) (l l' : sparc_linux_inferior_bps)
    (hl : entry_ok heap l)
    (hlen : heap.length ≤ heap'.length)
    (hcell : ∀ m, m < heap.length → ∀ x, cell heap' m = some x → cell heap m = some x)
    (hnum : l'.num = l.num)
    (hbps : ∀ (i : Fin SPARC_MAX_HW_BPS) (n : Nat), l'.bps i = some n → l.bps i = some n) :
    entry_ok heap' l' := by
  obtain ⟨h1, h2, h3⟩ := hl
  refine ⟨hnum.trans h1, ?_, ?_⟩
  · intro i n hn
    exact lt_of_lt_of_le (h2 i n (hbps i n hn)) hlen
  · intro i j n m r r' hi hj hr hr' ha ht
    have hi' := hbps i n hi
    have hj' := hbps j m hj
    exact h3 i j n m r r' hi' hj' (hcell n (h2 i n hi') r hr) (hcell m (h2 j m hj') r' hr')
      ha ht

theorem mem_get_list (s : State) (id : ptid_t) (g : List sparc_linux_inferior_bps)
    (hg : g = s.inf_list ∨ g = s.inf_list ++ [new_inferior_bps id])
    (hInv : ∀ l ∈ s.inf_list, entry_ok s.heap l) :
    ∀ l ∈ g, entry_ok s.heap l := by
  intro l hl
  rcases hg with rfl | rfl
  · exact hInv l hl
  · rcases List.mem_append.1 hl with h | h
    · exact hInv l h
    · simp only [List.mem_singleton] at h
      subst h
      exact entry_ok_new _ _

/-- Every set in every reachable state is in order. -/
theorem reachable_entry_ok (s : State) (h : Reachable s) :
    ∀ l ∈ s.inf_list, entry_ok s.heap l := by
  induction h with
  | empty id =>
    intro l hl
    cases hl
  | switch s id _ ih => exact ih
  | get_or_create s id _ ih =>
    obtain ⟨hg1, _, hg3, _⟩ := get_inferior_bps_list s id
    rw [hg3]
    exact mem_get_list s id _ hg1 ih
  | insert s ptrace address type mask r _ hres ih =>
    obtain ⟨g, k, l1, c, hg, hk, hheap, hlist, _, hcase⟩ :=
      insert_transition s ptrace address type mask r hres
    have hgok := mem_get_list s s.inferior_ptid g hg ih
    have hlistok := hgok _ (List.getElem?_mem hk)
    have hlen : s.heap.length ≤ (s.heap ++ [c]).length := by simp
    have hcell : ∀ m, m < s.heap.length → ∀ x, cell (s.heap ++ [c]) m = some x →
        cell s.heap m = some x := by
      intro m hm x hx
      rw [cell_append_lt _ hm] at hx
      exact hx
    intro l hl
    rw [hlist] at hl
    rw [hheap]
    rcases List.mem_or_eq_of_mem_set hl with hl' | hl'
    · exact entry_ok_of_old _ _ l l (hgok l hl') hlen hcell rfl (fun _ _ h => h)
    · subst hl'
      rcases hcase with ⟨h1, _⟩ | ⟨j, hj, h1, hlive, hno, _, _, hc⟩
      · rw [h1]
        exact entry_ok_of_old _ _ _ _ hlistok hlen hcell rfl (fun _ _ h => h)
      · obtain ⟨o1, o2, o3⟩ := hlistok
        have hbps : ∀ (i : Fin SPARC_MAX_HW_BPS), i ≠ j →
            l.bps i = (slot_set s s.inferior_ptid).bps i := by
          intro i hi
          rw [h1]
          exact Function.update_noteq hi _ _
        have hbpsj : l.bps j = some s.heap.length := by
          rw [h1]
          simp
        have hold : ∀ (i : Fin SPARC_MAX_HW_BPS) (n : Nat)
            (x : sparc_linux_hw_breakpoint), i ≠ j → l.bps i = some n →
            cell (s.heap ++ [c]) n = some x →
            ¬ (x.address = to_unsigned_int address ∧ x.type = type) := by
          intro i n x hi hn hx hpair
          rw [hbps i hi] at hn
          rw [cell_append_lt _ (o2 i n hn)] at hx
          exact hno ⟨i, n, x, hn, hx, hpair.1, hpair.2⟩
        have hnew : ∀ x : sparc_linux_hw_breakpoint,
            cell (s.heap ++ [c]) s.heap.length = some x →
            x.address = to_unsigned_int address ∧ x.type = type := by
          intro x hx
          rw [cell_append_new, hc] at hx
          by_cases hr : ptrace (install_call s address type) < 0
          · rw [if_pos hr] at hx
            cases hx
          · rw [if_neg hr] at hx
            cases hx
            exact ⟨rfl, rfl⟩
        refine ⟨?_, ?_, ?_⟩
        · rw [h1]
          exact o1
        · intro i n hn
          by_cases hi : i = j
          · rw [hi, hbpsj] at hn
            cases hn
            simp
          · rw [hbps i hi] at hn
            exact lt_of_lt_of_le (o2 i n hn) hlen
        · intro i i' n m x x' hi hi' hx hx' ha ht
          by_cases e1 : i = j <;> by_cases e2 : i' = j
          · rw [e1, e2]
          · rw [e1, hbpsj] at hi
            cases hi
            have hp := hnew x hx
            exact absurd ⟨ha.symm.trans hp.1, ht.symm.trans hp.2⟩ (hold i' m x' e2 hi' hx')
          · rw [e2, hbpsj] at hi'
            cases hi'
            have hp := hnew x' hx'
            exact absurd ⟨ha.trans hp.1, ht.trans hp.2⟩ (hold i n x e1 hi hx)
          · rw [hbps i e1] at hi
            rw [hbps i' e2] at hi'
            exact o3 i i' n m x x' hi hi' (hcell n (o2 i n hi) x hx)
              (hcell m (o2 i' m hi') x' hx') ha ht
  | remove s ptrace comp_bp r _ hres ih =>
    obtain ⟨g, k, l1, hg, hk, hlist, _, hcase⟩ := remove_transition s ptrace comp_bp r hres
    have hgok := mem_get_list s s.inferior_ptid g hg ih
    have hlistok := hgok _ (List.getElem?_mem hk)
    have hshrink : s.heap.length ≤ r.st.heap.length ∧
        ∀ m, m < s.heap.length → ∀ x, cell r.st.heap m = some x → cell s.heap m = some x := by
      rcases hcase with ⟨_, h2, _⟩ | ⟨j, n, b, _, _, _, _, _, _, h2⟩
      · rw [h2]
        exact ⟨le_refl _, fun _ _ _ hx => hx⟩
      · rw [h2]
        by_cases hr : ptrace (remove_call s b.hw_slot) < 0
        · rw [if_pos hr]
          exact ⟨le_refl _, fun _ _ _ hx => hx⟩
        · rw [if_neg hr]
          refine ⟨by rw [List.length_set], ?_⟩
          intro m _ x hx
          by_cases hmn : m = n
          · rw [hmn, cell_set_none] at hx
            cases hx
          · rw [cell_set_ne _ none hmn] at hx
            exact hx
    intro l hl
    rw [hlist] at hl
    rcases List.mem_or_eq_of_mem_set hl with hl' | hl'
    · exact entry_ok_of_old _ _ l l (hgok l hl') hshrink.1 hshrink.2 rfl (fun _ _ h => h)
    · subst hl'
      rcases hcase with ⟨h1, _⟩ | ⟨j, n, b, _, _, _, h1, _⟩
      · rw [h1]
        exact entry_ok_of_old _ _ _ _ hlistok hshrink.1 hshrink.2 rfl (fun _ _ h => h)
      · refine entry_ok_of_old _ _ _ _ hlistok hshrink.1 hshrink.2 (by rw [h1]) ?_
        intro i m hm
        rw [h1] at hm
        by_cases hi : i = j
        · rw [hi] at hm
          simp at hm
        · simpa [Function.update_noteq hi] using hm
  | stopped s siginfo r _ hres ih =>
    obtain ⟨h1, _, h3⟩ := stopped_by_watchpoint_transition s siginfo r hres
    rw [h1]
    exact mem_get_list s s.inferior_ptid _ h3 ih
  | forget s pid r _ hres ih =>
    obtain ⟨i, h1, h2, h3, _, _⟩ := forget_process_transition s pid r hres
    intro l hl
    rw [h1] at hl
    exact entry_ok_of_old _ _ l l (ih l (List.mem_of_mem_eraseIdx hl)) (le_of_eq h2.symm)
      (fun m _ x hx => h3 m x hx) rfl (fun _ _ h => h)

theorem occupied_le (l : sparc_linux_inferior_bps) : occupied l ≤ 4 := by
  unfold occupied
  exact le_trans (List.length_filter_le _ _) (le_of_eq (List.length_finRange _))

theorem occupied_eq_zero_iff (l : sparc_linux_inferior_bps) :
    occupied l = 0 ↔ ∀ i, l.bps i = NULL := by
  unfold occupied
  rw [List.length_eq_zero, List.filter_eq_nil_iff]
  constructor
  · intro h i
    have hi := h i (List.mem_finRange i)
    cases hb : l.bps i with
    | none => rfl
    | some n => simp [hb] at hi
  · intro h i _
    simp [h i]

theorem demo_inserted_reachable : Reachable demo_inserted :=
  Reachable.insert demo_empty demo_ptrace_ok 0x1000 .hw_execute 0
    ⟨0, demo_inserted, [⟨PTRACE_SETHBREGS, 1, 0x1000, 3⟩]⟩ (Reachable.empty demo_P) rfl

/-! ## The identity of records after completed operations -/

/-- In every state reached by operations that completed, no slot set holds,
at two different positions, live records with equal address and kind; the
mask is not part of the comparison.  A position left behind by an install
call that failed points to a released record and is not covered. -/
theorem identity_after_completed_operations (s : State) (h : Reachable s) :
    ∀ l ∈ s.inf_list,
      ∀ (i j : Fin SPARC_MAX_HW_BPS) (n m : Nat) (r r' : sparc_linux_hw_breakpoint),
        l.bps i = some n → l.bps j = some m →
        cell s.heap n = some r → cell s.heap m = some r' →
        r.address = r'.address → r.type = r'.type → i = j :=
  fun l hl => (reachable_entry_ok s h l hl).2.2

/-! ## Install calls along a run -/

/-- What a completed insert did, in terms of the set of the current
inferior: it found the pair and issued no call, or it found every occupied
position live and none with the pair, entered the candidate at an empty
position and issued the install call. -/
theorem insert_outcome (s : State) (ptrace : ptrace_call → Int) (address : Nat)
    (type : target_hw_bp_type) (mask : Nat) (r : Ret Int)
    (h : sparc_linux_insert_hw_breakpoint_1 s ptrace address type mask = .ok r) :
    r.st.inferior_ptid = s.inferior_ptid ∧
    ((r.calls = [] ∧ r.st.heap = s.heap ++ [none] ∧ ∀ Q, slot_set r.st Q = slot_set s Q) ∨
     (slots_live s.heap (slot_set s s.inferior_ptid) ∧
      ¬ holds s.heap (slot_set s s.inferior_ptid) (to_unsigned_int address) type ∧
      ∃ k : Fin SPARC_MAX_HW_BPS, (slot_set s s.inferior_ptid).bps k = NULL ∧
        r.calls = (if ptrace (install_call s address type) < 0 ∨ mask = 0
          then [install_call s address type]
          else [install_call s address type,
            mask_call s (ptrace (install_call s address type))]) ∧
        r.st.heap = s.heap ++ [if ptrace (install_call s address type) < 0 then none
          else some ⟨to_unsigned_int address, mask, type, 1,
            ptrace (install_call s address type)⟩] ∧
        ∀ Q, slot_set r.st Q = if Q = s.inferior_ptid
          then { slot_set s s.inferior_ptid with
            bps := Function.update (slot_set s s.inferior_ptid).bps k (some s.heap.length) }
          else slot_set s Q)) := by
  cases hscan : get_breakpoint_in_inf_list (s.heap ++ [some (candidate address type)])
      (slot_set s s.inferior_ptid) (candidate address type) with
  | error e =>
    rw [insert_path_scan_fault s ptrace address type mask e hscan] at h
    cases h
  | ok p =>
    cases p with
    | some n =>
      obtain ⟨t, hres, hheap, hpt, _, hsets⟩ :=
        insert_path_duplicate s ptrace address type mask n hscan
      rw [hres] at h
      injection h with h
      subst h
      exact ⟨hpt, Or.inl ⟨rfl, hheap, hsets⟩⟩
    | none =>
      obtain ⟨hlive, hno⟩ := scan_candidate_none_inv _ _ _ _ hscan
      by_cases hfree : ∃ i, (slot_set s s.inferior_ptid).bps i = NULL
      · obtain ⟨k, t, hk, _, hres, hheap, hpt, hsets⟩ :=
          insert_free_slot s ptrace address type mask hlive hno hfree
        rw [hres] at h
        injection h with h
        subst h
        exact ⟨hpt, Or.inr ⟨hlive, hno, k, hk, rfl, hheap, hsets⟩⟩
      · have hfull : ∀ i, (slot_set s s.inferior_ptid).bps i ≠ NULL :=
          fun i hi => hfree ⟨i, hi⟩
        rw [insert_no_free_slot s ptrace address type mask hlive hno hfull] at h
        cases h

/-- What a completed remove did, in terms of the set of the current
inferior: it found nothing and issued no call, or it found a live record
with the pair of the comparator, issued the remove call for it and vacated
its position. -/
theorem remove_outcome (s : State) (ptrace : ptrace_call → Int)
    (comp_bp : sparc_linux_hw_breakpoint) (r : Ret Int)
    (h : sparc_linux_remove_hw_breakpoint_1 s ptrace comp_bp = .ok r) :
    r.st.inferior_ptid = s.inferior_ptid ∧
    ((r.calls = [] ∧ r.st.heap = s.heap ∧ ∀ Q, slot_set r.st Q = slot_set s Q) ∨
     (∃ (k : Fin SPARC_MAX_HW_BPS) (n : Nat) (b : sparc_linux_hw_breakpoint),
        (slot_set s s.inferior_ptid).bps k = some n ∧ cell s.heap n = some b ∧
        hw_breakpoint_equal b comp_bp = true ∧
        r.calls = [remove_call s b.hw_slot] ∧
        r.st.heap = (if ptrace (remove_call s b.hw_slot) < 0 then s.heap
          else s.heap.set n none) ∧
        ∀ Q, slot_set r.st Q = if Q = s.inferior_ptid
          then { slot_set s s.inferior_ptid with
            bps := Function.update (slot_set s s.inferior_ptid).bps k NULL }
          else slot_set s Q)) := by
  cases hscan : get_breakpoint_in_inf_list s.heap (slot_set s s.inferior_ptid) comp_bp with
  | error e =>
    rw [remove_path_scan_fault s ptrace comp_bp e hscan] at h
    cases h
  | ok p =>
    cases p with
    | none =>
      obtain ⟨t, hres, hheap, hpt, hsets⟩ := remove_path_absent s ptrace comp_bp hscan
      rw [hres] at h
      injection h with h
      subst h
      exact ⟨hpt, Or.inl ⟨rfl, hheap, hsets⟩⟩
    | some n =>
      obtain ⟨j, b, _, hj, hb, he, hbefore⟩ :=
        get_breakpoint_loop_some_inv s.heap _ comp_bp n (SPARC_MAX_HW_BPS + 1) 0 hscan
      have hrem : remove_breakpoint_in_inf_list (slot_set s s.inferior_ptid) (some n) =
          .ok (0, { slot_set s s.inferior_ptid with
            bps := Function.update (slot_set s s.inferior_ptid).bps j NULL }) := by
        apply remove_breakpoint_loop_found _ _ j hj (SPARC_MAX_HW_BPS + 1) 0 (by decide)
          (Nat.zero_le _)
        intro j' _ hj' hjn
        obtain ⟨r', hr', hne⟩ := hbefore j' (Nat.zero_le _) hj' n hjn
        rw [hb] at hr'
        cases hr'
        rw [he] at hne
        cases hne
      obtain ⟨t, hres, hheap, hpt, hsets⟩ :=
        remove_path_found s ptrace comp_bp b n 0 _ hscan hb hrem
          (slot_set_id s s.inferior_ptid)
      rw [hres] at h
      injection h with h
      subst h
      exact ⟨hpt, Or.inr ⟨j, n, b, hj, hb, he, rfl, hheap, hsets⟩⟩

theorem cell_append_none {heap : Heap} {n : Nat} (h : cell heap n = none) :
    cell (heap ++ [none]) n = none := by
  by_cases hlt : n < heap.length
  · rw [cell_append_lt _ hlt]
    exact h
  · cases hc : cell (heap ++ [none]) n with
    | none => rfl
    | some x =>
      have h1 := cell_lt_length hc
      simp only [List.length_append, List.length_singleton] at h1
      have hn : n = heap.length := by omega
      rw [hn, cell_append_new] at hc
      cases hc

/-- The steps with one more at the end have an install call pending for a
pair only if the new step issued it, or one was pending before and the new
step issued no remove call for the pair. -/
theorem pending_snoc (log : List Step) (e : Step) (a : Nat) (t : target_hw_bp_type)
    (h : pending (log ++ [e]) a t) :
    e.installs a t ∨ (pending log a t ∧ ¬ e.removes a t) := by
  obtain ⟨pre, x, post, hlog, hx, hpost⟩ := h
  rcases List.eq_nil_or_concat post with rfl | ⟨post', y, rfl⟩
  · have hsplit : log = pre ∧ [e] = [x] :=
      List.append_inj' hlog (by simp)
    have hex : e = x := by
      have := hsplit.2
      simpa using this
    rw [hex]
    exact Or.inl hx
  · have hlog' : log ++ [e] = (pre ++ x :: post') ++ [y] := by
      rw [hlog]
      simp
    have hsplit : log = pre ++ x :: post' ∧ [e] = [y] :=
      List.append_inj' hlog' (by simp)
    have hey : e = y := by
      have := hsplit.2
      simpa using this
    refine Or.inr ⟨⟨pre, x, post', hsplit.1, hx, ?_⟩, ?_⟩
    · intro e' he'
      exact hpost e' (by simp [he'])
    · rw [hey]
      exact hpost y (by simp)

/-- One completed operation keeps the state accounting for the steps, and
issues an install call for a pair only if none is pending for it. -/
theorem step_history (log : List Step) (s : State) (op : Op) (r : Ret Int)
    (hok : history_ok log s) (hres : run_op s op = .ok r) :
    history_ok (log ++ [⟨s, op, r.val, r.calls⟩]) r.st ∧
    (∀ (a : Nat) (t : target_hw_bp_type),
      (⟨s, op, r.val, r.calls⟩ : Step).installs a t → ¬ pending log a t) := by
  cases op with
  | insert ptrace address type mask =>
    obtain ⟨hpt, hcase⟩ := insert_outcome s ptrace address type mask r hres
    rcases hcase with ⟨hcalls, hheap, hsets⟩ | ⟨hlive, hno, k, hk, hcalls, hheap, hsets⟩
    · constructor
      · intro a t hp
        rcases pending_snoc _ _ _ _ hp with hi | ⟨hpl, _⟩
        · exact absurd hcalls hi.2.2
        · rcases hok a t hpl with ⟨i, n, x, hn, hx, ha, ht⟩ | ⟨i, n, hn, hc⟩
          · refine Or.inl ⟨i, n, x, ?_, ?_, ha, ht⟩
            · rw [hpt, hsets]
              exact hn
            · rw [hheap]
              exact cell_append_old _ hx
          · refine Or.inr ⟨i, n, ?_, ?_⟩
            · rw [hpt, hsets]
              exact hn
            · rw [hheap]
              exact cell_append_none hc
      · intro a t hi
        exact absurd hcalls hi.2.2
    · have hnodangling : ¬ dangling s := by
        rintro ⟨i, n, hn, hc⟩
        obtain ⟨x, hx⟩ := hlive i n hn
        rw [hx] at hc
        cases hc
      have hsetk : (slot_set r.st r.st.inferior_ptid).bps k = some s.heap.length := by
        rw [hpt, hsets]
        simp
      have hseti : ∀ i, i ≠ k → (slot_set r.st r.st.inferior_ptid).bps i =
          (slot_set s s.inferior_ptid).bps i := by
        intro i hi
        rw [hpt, hsets]
        simp [Function.update_noteq hi]
      constructor
      · intro a t hp
        by_cases hr : ptrace (install_call s address type) < 0
        · refine Or.inr ⟨k, s.heap.length, hsetk, ?_⟩
          rw [hheap, if_pos hr]
          exact cell_append_new _ _
        · rw [if_neg hr] at hheap
          rcases pending_snoc _ _ _ _ hp with hi | ⟨hpl, _⟩
          · refine Or.inl ⟨k, s.heap.length, ⟨to_unsigned_int address, mask, type, 1,
              ptrace (install_call s address type)⟩, hsetk, ?_, hi.1, hi.2.1⟩
            rw [hheap]
            exact cell_append_new _ _
          · rcases hok a t hpl with ⟨i, n, x, hn, hx, ha, ht⟩ | hd
            · have hik : i ≠ k := by
                intro e
                rw [e, hk] at hn
                cases hn
              refine Or.inl ⟨i, n, x, ?_, ?_, ha, ht⟩
              · rw [hseti i hik]
                exact hn
              · rw [hheap]
                exact cell_append_old _ hx
            · exact absurd hd hnodangling
      · intro a t hi hpl
        obtain ⟨ha, ht, _⟩ := hi
        rcases hok a t hpl with hh | hd
        · rw [← ha, ← ht] at hh
          exact hno hh
        · exact hnodangling hd
  | remove ptrace comp_bp =>
    obtain ⟨hpt, hcase⟩ := remove_outcome s ptrace comp_bp r hres
    refine ⟨?_, fun a t hi => absurd hi (by intro h; exact h)⟩
    rcases hcase with ⟨hcalls, hheap, hsets⟩ | ⟨k, n, b, hk, hb, he, hcalls, hheap, hsets⟩
    · intro a t hp
      rcases pending_snoc _ _ _ _ hp with hi | ⟨hpl, _⟩
      · exact absurd hi (by intro h; exact h)
      · rcases hok a t hpl with ⟨i, n, x, hn, hx, ha, ht⟩ | ⟨i, n, hn, hc⟩
        · refine Or.inl ⟨i, n, x, ?_, ?_, ha, ht⟩
          · rw [hpt, hsets]
            exact hn
          · rw [hheap]
            exact hx
        · refine Or.inr ⟨i, n, ?_, ?_⟩
          · rw [hpt, hsets]
            exact hn
          · rw [hheap]
            exact hc
    · have hcell : ∀ m, m ≠ n → cell r.st.heap m = cell s.heap m := by
        intro m hm
        rw [hheap]
        by_cases hr : ptrace (remove_call s b.hw_slot) < 0
        · rw [if_pos hr]
        · rw [if_neg hr]
          exact cell_set_ne _ none hm
      have hseti : ∀ i, i ≠ k → (slot_set r.st r.st.inferior_ptid).bps i =
          (slot_set s s.inferior_ptid).bps i := by
        intro i hi
        rw [hpt, hsets]
        simp [Function.update_noteq hi]
      have hab := (hw_breakpoint_equal_iff b comp_bp).1 he
      intro a t hp
      rcases pending_snoc _ _ _ _ hp with hi | ⟨hpl, hnr⟩
      · exact absurd hi (by intro h; exact h)
      · have hpair : ¬ (comp_bp.address = a ∧ comp_bp.type = t) := by
          intro hc
          apply hnr
          refine ⟨hc.1, hc.2, ?_⟩
          show r.calls ≠ []
          rw [hcalls]
          simp
        rcases hok a t hpl with ⟨i, n', x, hn', hx, ha, ht⟩ | ⟨i, n', hn', hc⟩
        · have hne : n' ≠ n := by
            intro e
            rw [e, hb] at hx
            cases hx
            exact hpair ⟨hab.1.symm.trans ha, hab.2.symm.trans ht⟩
          have hik : i ≠ k := by
            intro e
            rw [e, hk] at hn'
            cases hn'
            exact hne rfl
          refine Or.inl ⟨i, n', x, ?_, ?_, ha, ht⟩
          · rw [hseti i hik]
            exact hn'
          · rw [hcell n' hne]
            exact hx
        · have hne : n' ≠ n := by
            intro e
            rw [e, hb] at hc
            cases hc
          have hik : i ≠ k := by
            intro e
            rw [e, hk] at hn'
            cases hn'
            exact hne rfl
          refine Or.inr ⟨i, n', ?_, ?_⟩
          · rw [hseti i hik]
            exact hn'
          · rw [hcell n' hne]
            exact hc

/-- Along a completed run started in a state that accounts for the steps
before it, no step issues an install call for a pair for which one is
pending. -/
theorem run_separated :
    ∀ (ops : List Op) (s : State) (hist log : List Step) (s' : State),
      history_ok hist s → run s ops = .ok (log, s') → separated hist log
  | [], s, hist, log, s', _, hrun => by
    simp only [run] at hrun
    injection hrun with hrun
    injection hrun with h1 _
    subst h1
    trivial
  | op :: rest, s, hist, log, s', hok, hrun => by
    simp only [run] at hrun
    cases hres : run_op s op with
    | error e =>
      rw [hres] at hrun
      cases hrun
    | ok r =>
      rw [hres] at hrun
      dsimp only at hrun
      cases hrest : run r.st rest with
      | error e =>
        rw [hrest] at hrun
        cases hrun
      | ok q =>
        rw [hrest] at hrun
        obtain ⟨log', s''⟩ := q
        dsimp only at hrun
        injection hrun with hrun
        injection hrun with h1 h2
        subst h1
        obtain ⟨hok', hsep⟩ := step_history hist s op r hok hres
        exact ⟨hsep, run_separated rest r.st _ log' s'' hok' hrest⟩

/-- Every step of a completed run is a completed operation, run for the
inferior the run started with. -/
theorem run_steps :
    ∀ (ops : List Op) (s : State) (log : List Step) (s' : State),
      run s ops = .ok (log, s') →
      ∀ e ∈ log, e.pre.inferior_ptid = s.inferior_ptid ∧
        ∃ st, run_op e.pre e.op = .ok ⟨e.val, st, e.calls⟩
  | [], s, log, s', hrun => by
    simp only [run] at hrun
    injection hrun with hrun
    injection hrun with h1 _
    subst h1
    intro e he
    cases he
  | op :: rest, s, log, s', hrun => by
    simp only [run] at hrun
    cases hres : run_op s op with
    | error e =>
      rw [hres] at hrun
      cases hrun
    | ok r =>
      rw [hres] at hrun
      dsimp only at hrun
      cases hrest : run r.st rest with
      | error e =>
        rw [hrest] at hrun
        cases hrun
      | ok q =>
        rw [hrest] at hrun
        obtain ⟨log', s''⟩ := q
        dsimp only at hrun
        injection hrun with hrun
        injection hrun with h1 h2
        subst h1
        have hpt : r.st.inferior_ptid = s.inferior_ptid := by
          cases op with
          | insert ptrace address type mask =>
            exact (insert_outcome s ptrace address type mask r hres).1
          | remove ptrace comp_bp => exact (remove_outcome s ptrace comp_bp r hres).1
        intro e he
        rcases List.mem_cons.1 he with rfl | he'
        · exact ⟨rfl, r.st, hres⟩
        · obtain ⟨h1, h2⟩ := run_steps rest r.st log' s'' hrest e he'
          exact ⟨h1.trans hpt, h2⟩

theorem separated_split :
    ∀ (pre : List Step) (hist log : List Step) (e2 : Step) (post : List Step),
      separated hist log → log = pre ++ e2 :: post →
      ∀ (a : Nat) (t : target_hw_bp_type), e2.installs a t → ¬ pending (hist ++ pre) a t
  | [], hist, log, e2, post, hsep, hlog => by
    subst hlog
    intro a t hi
    rw [List.append_nil]
    exact hsep.1 a t hi
  | x :: pre, hist, log, e2, post, hsep, hlog => by
    subst hlog
    intro a t hi
    have h := separated_split pre (hist ++ [x]) _ e2 post hsep.2 rfl a t hi
    rw [List.append_assoc] at h
    exact h

theorem not_pending_nil (a : Nat) (t : target_hw_bp_type) : ¬ pending [] a t := by
  rintro ⟨pre, e, post, h, _⟩
  cases pre <;> cases h

theorem history_ok_nil (s : State) : history_ok [] s :=
  fun a t h => absurd h (not_pending_nil a t)

/-- Along every run of insert and remove operations that completes, each
with its own outcomes of the process-control calls, from any state `s0`: a
step that issues an install call for `(a, t)` ran for the inferior of `s0`,
found no record with `(a, t)` in the set, and its first call is the install
call, followed by at most a mask call; a step that issues a remove call for
`(a, t)` found a record with `(a, t)` in the set and issued the one remove
call for the slot of that record; and between any two steps that issue an
install call for the same pair there is a step that issues a remove call for
that pair.  A run in which an operation reads a released record or runs past
the end of the array does not complete and is not covered. -/
theorem completed_runs_separate_installs (s0 : State) (ops : List Op) (log : List Step) (s' : State)
    (hrun : run s0 ops = .ok (log, s')) :
    (∀ e ∈ log, ∀ (a : Nat) (t : target_hw_bp_type), e.installs a t →
      e.pre.inferior_ptid = s0.inferior_ptid ∧
      ¬ holds e.pre.heap (slot_set e.pre e.pre.inferior_ptid) a t ∧
      ∃ rest : List ptrace_call,
        e.calls = ⟨PTRACE_SETHBREGS, ptid_get_pid s0.inferior_ptid, a,
          INSERT_BREAKPOINT t⟩ :: rest ∧
        (rest = [] ∨ ∃ r : Int,
          rest = [⟨PTRACE_SETHBREGS, ptid_get_pid s0.inferior_ptid, 0, CHANGE_MASK r⟩])) ∧
    (∀ e ∈ log, ∀ (a : Nat) (t : target_hw_bp_type), e.removes a t →
      e.pre.inferior_ptid = s0.inferior_ptid ∧
      ∃ (k : Fin SPARC_MAX_HW_BPS) (n : Nat) (b : sparc_linux_hw_breakpoint),
        (slot_set e.pre e.pre.inferior_ptid).bps k = some n ∧
        cell e.pre.heap n = some b ∧ b.address = a ∧ b.type = t ∧
        e.calls = [⟨PTRACE_SETHBREGS, ptid_get_pid s0.inferior_ptid, b.hw_slot,
          REMOVE_BREAKPOINT⟩]) ∧
    (∀ (pre : List Step) (e1 : Step) (mid : List Step) (e2 : Step) (post : List Step)
      (a : Nat) (t : target_hw_bp_type),
      log = pre ++ e1 :: (mid ++ e2 :: post) → e1.installs a t → e2.installs a t →
      ∃ e ∈ mid, e.removes a t) := by
  refine ⟨?_, ?_, ?_⟩
  · intro e he a t hi
    obtain ⟨hpt, st, hres⟩ := run_steps ops s0 log s' hrun e he
    obtain ⟨pre, op, val, calls⟩ := e
    cases op with
    | remove ptrace comp_bp => exact absurd hi (by intro h; exact h)
    | insert ptrace address type mask =>
      obtain ⟨ha, ht, hne⟩ := hi
      dsimp only at hpt hres ha ht hne ⊢
      obtain ⟨_, hcase⟩ := insert_outcome pre ptrace address type mask _ hres
      dsimp only at hcase
      rcases hcase with ⟨hcalls, _⟩ | ⟨_, hno, k, _, hcalls, _⟩
      · exact absurd hcalls hne
      · refine ⟨hpt, ?_, ?_⟩
        · rw [← ha, ← ht]
          exact hno
        · rw [hcalls, ← ha, ← ht, ← hpt]
          by_cases hc : ptrace (install_call pre address type) < 0 ∨ mask = 0
          · rw [if_pos hc]
            exact ⟨[], rfl, Or.inl rfl⟩
          · rw [if_neg hc]
            exact ⟨_, rfl, Or.inr ⟨_, rfl⟩⟩
  · intro e he a t hi
    obtain ⟨hpt, st, hres⟩ := run_steps ops s0 log s' hrun e he
    obtain ⟨pre, op, val, calls⟩ := e
    cases op with
    | insert ptrace address type mask => exact absurd hi (by intro h; exact h)
    | remove ptrace comp_bp =>
      obtain ⟨ha, ht, hne⟩ := hi
      dsimp only at hpt hres ha ht hne ⊢
      obtain ⟨_, hcase⟩ := remove_outcome pre ptrace comp_bp _ hres
      dsimp only at hcase
      rcases hcase with ⟨hcalls, _⟩ | ⟨k, n, b, hk, hb, heq, hcalls, _⟩
      · exact absurd hcalls hne
      · have hab := (hw_breakpoint_equal_iff b comp_bp).1 heq
        refine ⟨hpt, k, n, b, hk, hb, hab.1.trans ha, hab.2.trans ht, ?_⟩
        rw [hcalls, ← hpt]
        rfl
  · intro pre e1 mid e2 post a t hlog h1 h2
    by_contra hnone
    have hsep := run_separated ops s0 [] log s' (history_ok_nil s0) hrun
    have hsplit : log = (pre ++ e1 :: mid) ++ e2 :: post := by
      rw [hlog]
      simp
    have hnp := separated_split (pre ++ e1 :: mid) [] log e2 post hsep hsplit a t h2
    apply hnp
    rw [List.nil_append]
    exact ⟨pre, e1, mid, rfl, h1, fun e he hr => hnone ⟨e, he, hr⟩⟩

/-- The calls of the example run, step by step: the install call, the remove
call for slot 0, the install call again. -/
theorem demo_run_calls :
    (run demo_empty demo_ops).map (fun q => q.1.map Step.calls) =
      .ok [[⟨27, 1, 0x1000, 3⟩], [⟨27, 1, 0, 8⟩], [⟨27, 1, 0x1000, 3⟩]] := by
  rfl

/-! ## The outcome of insert and remove as a function of the contents of the set -/

theorem set_contents_none_iff {s t : State} {P : ptid_t}
    (h : set_contents t P = set_contents s P) (i : Fin SPARC_MAX_HW_BPS) :
    (slot_set t P).bps i = NULL ↔ (slot_set s P).bps i = NULL := by
  have hi := congrFun h i
  unfold set_contents at hi
  cases ht : (slot_set t P).bps i <;> cases hs : (slot_set s P).bps i <;>
    simp [ht, hs] at hi ⊢

theorem set_contents_some {s t : State} {P : ptid_t}
    (h : set_contents t P = set_contents s P) (i : Fin SPARC_MAX_HW_BPS) (n : Nat)
    (hn : (slot_set s P).bps i = some n) :
    ∃ m, (slot_set t P).bps i = some m ∧ cell t.heap m = cell s.heap n := by
  have hi := congrFun h i
  unfold set_contents at hi
  cases ht : (slot_set t P).bps i with
  | none => simp [ht, hn] at hi
  | some m =>
    refine ⟨m, rfl, ?_⟩
    simpa [ht, hn] using hi

theorem slots_live_of_set_contents {s t : State} {P : ptid_t}
    (h : set_contents t P = set_contents s P)
    (hl : slots_live s.heap (slot_set s P)) : slots_live t.heap (slot_set t P) := by
  intro i m hm
  obtain ⟨n, hn, hc⟩ := set_contents_some h.symm i m hm
  obtain ⟨r, hr⟩ := hl i n hn
  exact ⟨r, by rw [← hc]; exact hr⟩

theorem holds_of_set_contents {s t : State} {P : ptid_t}
    (h : set_contents t P = set_contents s P) {a : Nat} {ty : target_hw_bp_type}
    (hh : holds s.heap (slot_set s P) a ty) : holds t.heap (slot_set t P) a ty := by
  obtain ⟨i, n, r, hn, hr, ha, hty⟩ := hh
  obtain ⟨m, hm, hc⟩ := set_contents_some h i n hn
  exact ⟨i, m, r, hm, by rw [hc]; exact hr, ha, hty⟩

theorem map_cell_append_live (heap : Heap) (l : sparc_linux_inferior_bps)
    (c : Option sparc_linux_hw_breakpoint) (hl : slots_live heap l)
    (i : Fin SPARC_MAX_HW_BPS) :
    (l.bps i).map (cell (heap ++ [c])) = (l.bps i).map (cell heap) := by
  cases hb : l.bps i with
  | none => rfl
  | some n =>
    obtain ⟨r, hr⟩ := hl i n hb
    simp [cell_append_old c hr, hr]

/-- With every occupied position live and a record for the pair in the set,
the insert ends on the duplicate path. -/
theorem insert_duplicate (s : State) (ptrace : ptrace_call → Int)
    (address : Nat) (type : target_hw_bp_type) (mask : Nat)
    (hlive : slots_live s.heap (slot_set s s.inferior_ptid))
    (hdup : holds s.heap (slot_set s s.inferior_ptid) (to_unsigned_int address) type) :
    ∃ s' : State,
      sparc_linux_insert_hw_breakpoint_1 s ptrace address type mask = .ok ⟨-1, s', []⟩ ∧
      s'.heap = s.heap ++ [none] ∧ s'.inferior_ptid = s.inferior_ptid ∧
      ∀ Q, slot_set s' Q = slot_set s Q := by
  obtain ⟨i0, n0, r0, hn0, hr0, ha0, ht0⟩ := hdup
  have hfound := found_of_holds (s.heap ++ [some (candidate address type)])
    (slot_set s s.inferior_ptid) (candidate address type)
    ⟨i0, n0, r0, hn0, cell_append_old _ hr0, ha0, ht0⟩
  obtain ⟨_, n, _, _, _, _, _, _, hscan⟩ := get_breakpoint_in_inf_list_found _ _ _
    (slots_live_append s.heap _ (some (candidate address type)) hlive) hfound
  obtain ⟨s', hres, hheap, hpt, _, hsets⟩ :=
    insert_path_duplicate s ptrace address type mask n hscan
  exact ⟨s', hres, hheap, hpt, hsets⟩

/-- The outcome of an insert is the same in any two states in which the set
of the current inferior has the same contents, with any two process-control
functions that answer the install call alike. -/
theorem insert_outcome_congr (s t : State) (ptrace ptrace' : ptrace_call → Int)
    (address : Nat) (type : target_hw_bp_type) (mask : Nat)
    (hpt : t.inferior_ptid = s.inferior_ptid)
    (hlive : slots_live s.heap (slot_set s s.inferior_ptid))
    (hsame : set_contents t s.inferior_ptid = set_contents s s.inferior_ptid)
    (hans : ptrace' (install_call s address type) = ptrace (install_call s address type)) :
    outcome s.inferior_ptid
        (sparc_linux_insert_hw_breakpoint_1 t ptrace' address type mask) =
      outcome s.inferior_ptid
        (sparc_linux_insert_hw_breakpoint_1 s ptrace address type mask) := by
  have hsame' : set_contents t t.inferior_ptid = set_contents s s.inferior_ptid := by
    rw [hpt]
    exact hsame
  have hlivet : slots_live t.heap (slot_set t t.inferior_ptid) := by
    rw [hpt]
    exact slots_live_of_set_contents hsame hlive
  have hcall : install_call t address type = install_call s address type := by
    simp [install_call, hpt]
  have hmask : ∀ r, mask_call t r = mask_call s r := by
    intro r
    simp [mask_call, hpt]
  by_cases hh : holds s.heap (slot_set s s.inferior_ptid) (to_unsigned_int address) type
  · have hht : holds t.heap (slot_set t t.inferior_ptid) (to_unsigned_int address) type := by
      rw [hpt]
      exact holds_of_set_contents hsame hh
    obtain ⟨s', hres, hheap, _, hsets⟩ := insert_duplicate s ptrace address type mask hlive hh
    obtain ⟨t', hrest, hheapt, _, hsetst⟩ :=
      insert_duplicate t ptrace' address type mask hlivet hht
    rw [hres, hrest]
    simp only [outcome]
    have hc : set_contents t' s.inferior_ptid = set_contents s' s.inferior_ptid := by
      funext i
      unfold set_contents
      rw [hsets, hsetst, hheap, hheapt, map_cell_append_live _ _ _ hlive,
        map_cell_append_live _ _ _ (slots_live_of_set_contents hsame hlive)]
      exact congrFun hsame i
    rw [hc]
  · have hht : ¬ holds t.heap (slot_set t t.inferior_ptid) (to_unsigned_int address)
        type := by
      intro h
      rw [hpt] at h
      exact hh (holds_of_set_contents hsame.symm h)
    by_cases hfree : ∃ i, (slot_set s s.inferior_ptid).bps i = NULL
    · have hfreet : ∃ i, (slot_set t t.inferior_ptid).bps i = NULL := by
        obtain ⟨i, hi⟩ := hfree
        exact ⟨i, by rw [hpt]; exact (set_contents_none_iff hsame i).2 hi⟩
      obtain ⟨k, s', hk, hmin, hres, hheap, _, hsets⟩ :=
        insert_free_slot s ptrace address type mask hlive hh hfree
      obtain ⟨k', t', hk', hmin', hrest, hheapt, _, hsetst⟩ :=
        insert_free_slot t ptrace' address type mask hlivet hht hfreet
      rw [hpt] at hk' hmin'
      have hkk : k' = k := by
        apply Fin.ext
        rcases Nat.lt_trichotomy k'.val k.val with hlt | heq | hgt
        · exact absurd ((set_contents_none_iff hsame k').1 hk') (hmin k' hlt)
        · exact heq
        · exact absurd ((set_contents_none_iff hsame k).2 hk) (hmin' k hgt)
      subst hkk
      rw [hres, hrest]
      simp only [outcome, hcall, hmask, hans]
      have hsb : (slot_set s' s.inferior_ptid).bps =
          Function.update (slot_set s s.inferior_ptid).bps k' (some s.heap.length) := by
        rw [hsets, if_pos rfl]
      have htb : (slot_set t' s.inferior_ptid).bps =
          Function.update (slot_set t s.inferior_ptid).bps k' (some t.heap.length) := by
        rw [hsetst, hpt, if_pos rfl]
      have hc : set_contents t' s.inferior_ptid = set_contents s' s.inferior_ptid := by
        funext i
        unfold set_contents
        rw [hsb, htb, hheap, hheapt, hcall, hans]
        by_cases hi : i = k'
        · subst hi
          simp [cell_append_new]
        · rw [Function.update_noteq hi, Function.update_noteq hi,
            map_cell_append_live _ _ _ hlive,
            map_cell_append_live _ _ _ (slots_live_of_set_contents hsame hlive)]
          exact congrFun hsame i
      rw [hc]
    · have hfull : ∀ i, (slot_set s s.inferior_ptid).bps i ≠ NULL :=
        fun i hi => hfree ⟨i, hi⟩
      have hfullt : ∀ i, (slot_set t t.inferior_ptid).bps i ≠ NULL := by
        intro i hi
        rw [hpt] at hi
        exact hfull i ((set_contents_none_iff hsame i).1 hi)
      rw [insert_no_free_slot s ptrace address type mask hlive hh hfull,
        insert_no_free_slot t ptrace' address type mask hlivet hht hfullt]

/-- The outcome of a remove is the same in any two states in which the set of
the current inferior has the same contents, each occupied position with a
record of its own, with any two process-control functions that answer the
remove calls alike. -/
theorem remove_outcome_congr (s t : State) (ptrace ptrace' : ptrace_call → Int)
    (comp_bp : sparc_linux_hw_breakpoint)
    (hpt : t.inferior_ptid = s.inferior_ptid)
    (hlive : slots_live s.heap (slot_set s s.inferior_ptid))
    (hdist : slots_distinct (slot_set s s.inferior_ptid))
    (hdistt : slots_distinct (slot_set t s.inferior_ptid))
    (hsame : set_contents t s.inferior_ptid = set_contents s s.inferior_ptid)
    (hans : ∀ x, ptrace' (remove_call s x) = ptrace (remove_call s x)) :
    outcome s.inferior_ptid (sparc_linux_remove_hw_breakpoint_1 t ptrace' comp_bp) =
      outcome s.inferior_ptid (sparc_linux_remove_hw_breakpoint_1 s ptrace comp_bp) := by
  have hlivet : slots_live t.heap (slot_set t t.inferior_ptid) := by
    rw [hpt]
    exact slots_live_of_set_contents hsame hlive
  have hcall : ∀ x, remove_call t x = remove_call s x := by
    intro x
    simp [remove_call, hpt]
  by_cases hh : holds s.heap (slot_set s s.inferior_ptid) comp_bp.address comp_bp.type
  · have hht : holds t.heap (slot_set t t.inferior_ptid) comp_bp.address comp_bp.type := by
      rw [hpt]
      exact holds_of_set_contents hsame hh
    obtain ⟨k, n, b, s', hk, hb, he, hbefore, hres, hheap, _, hsets⟩ :=
      remove_first_match s ptrace comp_bp hlive hh
    obtain ⟨k', n', b', t', hk', hb', he', hbefore', hrest, hheapt, _, hsetst⟩ :=
      remove_first_match t ptrace' comp_bp hlivet hht
    rw [hpt] at hk' hbefore'
    have hkk : k' = k := by
      apply Fin.ext
      rcases Nat.lt_trichotomy k'.val k.val with hlt | heq | hgt
      · obtain ⟨m, hm, hc⟩ := set_contents_some hsame.symm k' n' hk'
        obtain ⟨r', hr', hne⟩ := hbefore k' hlt m hm
        rw [hc, hb'] at hr'
        cases hr'
        rw [he'] at hne
        cases hne
      · exact heq
      · obtain ⟨m, hm, hc⟩ := set_contents_some hsame k n hk
        obtain ⟨r', hr', hne⟩ := hbefore' k hgt m hm
        rw [hc, hb] at hr'
        cases hr'
        rw [he] at hne
        cases hne
    subst hkk
    have hbb : b' = b := by
      obtain ⟨m, hm, hc⟩ := set_contents_some hsame k' n hk
      rw [hk'] at hm
      cases hm
      rw [hb', hb] at hc
      cases hc
      rfl
    subst hbb
    rw [hres, hrest]
    simp only [outcome, hcall, hans]
    have hsb : (slot_set s' s.inferior_ptid).bps =
        Function.update (slot_set s s.inferior_ptid).bps k' NULL := by
      rw [hsets, if_pos rfl]
    have htb : (slot_set t' s.inferior_ptid).bps =
        Function.update (slot_set t s.inferior_ptid).bps k' NULL := by
      rw [hsetst, hpt, if_pos rfl]
    have hc : set_contents t' s.inferior_ptid = set_contents s' s.inferior_ptid := by
      funext i
      unfold set_contents
      rw [hsb, htb, hheap, hheapt, hcall, hans]
      by_cases hi : i = k'
      · subst hi
        simp
      · rw [Function.update_noteq hi, Function.update_noteq hi]
        have hcell : ∀ (heap : Heap) (l : sparc_linux_inferior_bps) (p : Nat),
            slots_distinct l → l.bps k' = some p →
            (l.bps i).map (cell (if ptrace (remove_call s b'.hw_slot) < 0 then heap
              else heap.set p none)) = (l.bps i).map (cell heap) := by
          intro heap l p hd hp
          by_cases hr : ptrace (remove_call s b'.hw_slot) < 0
          · rw [if_pos hr]
          · rw [if_neg hr]
            cases hbi : l.bps i with
            | none => rfl
            | some q =>
              have hqp : q ≠ p := by
                intro e
                subst e
                exact hi (hd i k' q hbi hp)
              simp [cell_set_ne heap none hqp]
        rw [hcell s.heap _ n hdist hk, hcell t.heap _ n' hdistt hk']
        exact congrFun hsame i
    rw [hc]
  · have hht : ¬ holds t.heap (slot_set t t.inferior_ptid) comp_bp.address comp_bp.type := by
      intro h
      rw [hpt] at h
      exact hh (holds_of_set_contents hsame.symm h)
    obtain ⟨s', hres, hheap, _, hsets⟩ := remove_path_absent s ptrace comp_bp
      (get_breakpoint_in_inf_list_absent _ _ _ (absent_of_not_holds s.heap _ comp_bp hlive hh))
    obtain ⟨t', hrest, hheapt, _, hsetst⟩ := remove_path_absent t ptrace' comp_bp
      (get_breakpoint_in_inf_list_absent _ _ _
        (absent_of_not_holds t.heap _ comp_bp hlivet hht))
    rw [hres, hrest]
    simp only [outcome]
    have hc : set_contents t' s.inferior_ptid = set_contents s' s.inferior_ptid := by
      funext i
      unfold set_contents
      rw [hsets, hsetst, hheap, hheapt]
      exact congrFun hsame i
    rw [hc]

/-! ## Claim about isolation between inferiors -/

theorem demo_alone_distinct : slots_distinct (slot_set demo_alone demo_P) := by
  intro i j n hi hj
  have hset : slot_set demo_alone demo_P =
      ⟨demo_P, fun i => if i.val < 3 then some i.val else none, 0⟩ := rfl
  rw [hset] at hi hj
  fin_cases i <;> fin_cases j <;> simp at hi hj <;> first | rfl | omega

theorem demo_alone_contents :
    set_contents demo_alone demo_P = set_contents demo_three demo_P := by
  funext i
  fin_cases i <;> rfl

/-- C8: for every state and every identity `Q` other than the current
inferior `P`.  Frame: every completed insert and every completed remove leaves
the slot set of `Q`, all four positions, as it was, together with the live
records (for a remove: those that the set of `P` does not point to).
Dependency: what the operation returns, the calls it issues, the heap and the
set of `P` it leaves are the same in every state with the same heap, the same
current inferior and the same set for `P`; and, more to the point, the return
value, the calls and the contents of the set of `P` afterwards are the same in
every state `t` in which the set of `P` has the same contents, position by
position (occupied positions holding live records; for a remove, each a record
of its own), whatever the heap, the other sets and their records are, and with
every process-control function that answers the install call (for a remove:
the remove calls) of the operation alike.  Two inferiors can hold the same
four pairs at once: after `demo_P` and then `demo_Q` each requested execute
breakpoints at 0x1000, 0x2000, 0x3000 and 0x4000, all eight requests returned
0 and both sets hold all four pairs; and in `demo_three`, where `demo_Q` holds
a write watchpoint at 0x8000, the request of `demo_P` for a write watchpoint
at 0x8000 issues its install call and returns 0, after which both hold that
pair. -/
theorem per_process_isolation (S : State) (ptrace : ptrace_call → Int) (Q : ptid_t)
    (hQ : Q ≠ S.inferior_ptid) :
    (∀ (address : Nat) (type : target_hw_bp_type) (mask : Nat) (v : Int) (s' : State)
        (calls : List ptrace_call),
      sparc_linux_insert_hw_breakpoint_1 S ptrace address type mask = .ok ⟨v, s', calls⟩ →
      slot_set s' Q = slot_set S Q ∧
      (∀ n r, cell S.heap n = some r → cell s'.heap n = some r)) ∧
    (∀ (comp_bp : sparc_linux_hw_breakpoint) (v : Int) (s' : State)
        (calls : List ptrace_call),
      sparc_linux_remove_hw_breakpoint_1 S ptrace comp_bp = .ok ⟨v, s', calls⟩ →
      slot_set s' Q = slot_set S Q ∧
      (∀ n r, cell S.heap n = some r →
        (∀ i, (slot_set S S.inferior_ptid).bps i ≠ some n) → cell s'.heap n = some r)) ∧
    (∀ t : State, t.heap = S.heap → t.inferior_ptid = S.inferior_ptid →
      slot_set t S.inferior_ptid = slot_set S S.inferior_ptid →
      (∀ (address : Nat) (type : target_hw_bp_type) (mask : Nat),
        observed S.inferior_ptid
            (sparc_linux_insert_hw_breakpoint_1 t ptrace address type mask) =
          observed S.inferior_ptid
            (sparc_linux_insert_hw_breakpoint_1 S ptrace address type mask)) ∧
      (∀ comp_bp : sparc_linux_hw_breakpoint,
        observed S.inferior_ptid (sparc_linux_remove_hw_breakpoint_1 t ptrace comp_bp) =
          observed S.inferior_ptid (sparc_linux_remove_hw_breakpoint_1 S ptrace comp_bp))) ∧
    (∀ (t : State) (ptrace' : ptrace_call → Int), t.inferior_ptid = S.inferior_ptid →
      slots_live S.heap (slot_set S S.inferior_ptid) →
      set_contents t S.inferior_ptid = set_contents S S.inferior_ptid →
      (∀ (address : Nat) (type : target_hw_bp_type) (mask : Nat),
        ptrace' (install_call S address type) = ptrace (install_call S address type) →
        outcome S.inferior_ptid
            (sparc_linux_insert_hw_breakpoint_1 t ptrace' address type mask) =
          outcome S.inferior_ptid
            (sparc_linux_insert_hw_breakpoint_1 S ptrace address type mask)) ∧
      (slots_distinct (slot_set S S.inferior_ptid) →
        slots_distinct (slot_set t S.inferior_ptid) →
        (∀ x, ptrace' (remove_call S x) = ptrace (remove_call S x)) →
        ∀ comp_bp : sparc_linux_hw_breakpoint,
          outcome S.inferior_ptid (sparc_linux_remove_hw_breakpoint_1 t ptrace' comp_bp) =
            outcome S.inferior_ptid
              (sparc_linux_remove_hw_breakpoint_1 S ptrace comp_bp))) ∧
    (∃ sP sPQ : State,
      demo_insert_all demo_empty [0x1000, 0x2000, 0x3000, 0x4000] = .ok ([0, 0, 0, 0], sP) ∧
      demo_insert_all (switch_inferior sP demo_Q) [0x1000, 0x2000, 0x3000, 0x4000] =
        .ok ([0, 0, 0, 0], sPQ) ∧
      ∀ a ∈ [0x1000, 0x2000, 0x3000, 0x4000],
        holds sPQ.heap (slot_set sPQ demo_P) a .hw_execute ∧
        holds sPQ.heap (slot_set sPQ demo_Q) a .hw_execute) ∧
    (holds demo_three.heap (slot_set demo_three demo_Q) 0x8000 .hw_write ∧
      ∃ s' : State,
        sparc_linux_insert_hw_breakpoint_1 demo_three demo_ptrace_ok 0x8000 .hw_write 0 =
          .ok ⟨0, s', [⟨PTRACE_SETHBREGS, 1, 0x8000, INSERT_BREAKPOINT .hw_write⟩]⟩ ∧
        holds s'.heap (slot_set s' demo_P) 0x8000 .hw_write ∧
        holds s'.heap (slot_set s' demo_Q) 0x8000 .hw_write) := by
  refine ⟨?_, ?_, ?_, ?_, ?_, ?_⟩
  · intro address type mask v s' calls h
    obtain ⟨h1, h2, _⟩ := insert_frame S ptrace address type mask v s' calls h
    exact ⟨h1 Q hQ, h2⟩
  · intro comp_bp v s' calls h
    obtain ⟨h1, h2, _⟩ := remove_frame S ptrace comp_bp v s' calls h
    exact ⟨h1 Q hQ, h2⟩
  · intro t hheap hpt hset
    exact ⟨fun address type mask =>
        insert_observed_congr S t ptrace address type mask hheap hpt hset,
      fun comp_bp => remove_observed_congr S t ptrace comp_bp hheap hpt hset⟩
  · intro t ptrace' hpt hlive hsame
    exact ⟨fun address type mask hans =>
        insert_outcome_congr S t ptrace ptrace' address type mask hpt hlive hsame hans,
      fun hdist hdistt hans comp_bp =>
        remove_outcome_congr S t ptrace ptrace' comp_bp hpt hlive hdist hdistt hsame hans⟩
  · exact ⟨_, demo_both, rfl, rfl, demo_both_holds⟩
  · exact ⟨⟨0, 3, ⟨0x8000, 0, .hw_write, 1, 3⟩, rfl, rfl, rfl, rfl⟩, _, rfl,
      ⟨3, 4, ⟨0x8000, 0, .hw_write, 1, 0⟩, rfl, rfl, rfl, rfl⟩,
      ⟨0, 3, ⟨0x8000, 0, .hw_write, 1, 3⟩, rfl, rfl, rfl, rfl⟩⟩

/-- The inferior `demo_P` in `demo_three`, next to `demo_Q`, which holds a
write watchpoint at 0x8000, and `demo_P` on its own in `demo_alone`: the set
of `demo_P` has the same contents in both.  The request of `demo_P` for a
write watchpoint at 0x8000, the pair that `demo_Q` holds, leaves the set of
`demo_Q` and the live records as they were, and it has the same outcome in
both states: return value 0, the one install call, and the new record at the
fourth position; the remove of the execute breakpoint at 0x2000 has the same
outcome in both states as well. -/
theorem per_process_isolation_witness :
    demo_Q ≠ demo_three.inferior_ptid ∧
    (∃ s' : State,
      sparc_linux_insert_hw_breakpoint_1 demo_three demo_ptrace_ok 0x8000 .hw_write 0 =
        .ok ⟨0, s', [⟨PTRACE_SETHBREGS, 1, 0x8000, INSERT_BREAKPOINT .hw_write⟩]⟩ ∧
      slot_set s' demo_Q = slot_set demo_three demo_Q ∧
      (∀ n r, cell demo_three.heap n = some r → cell s'.heap n = some r)) ∧
    outcome demo_P
        (sparc_linux_insert_hw_breakpoint_1 demo_alone demo_ptrace_ok 0x8000 .hw_write 0) =
      outcome demo_P
        (sparc_linux_insert_hw_breakpoint_1 demo_three demo_ptrace_ok 0x8000 .hw_write 0) ∧
    outcome demo_P
        (sparc_linux_insert_hw_breakpoint_1 demo_three demo_ptrace_ok 0x8000 .hw_write 0) =
      .ok (0, [⟨PTRACE_SETHBREGS, 1, 0x8000, INSERT_BREAKPOINT .hw_write⟩],
        fun i => some (some (if i.val < 3 then
          ⟨0x1000 * (i.val + 1), 0, .hw_execute, 1, i.val⟩
          else ⟨0x8000, 0, .hw_write, 1, 0⟩))) ∧
    outcome demo_P
        (sparc_linux_remove_hw_breakpoint_1 demo_alone demo_ptrace_ok
          ⟨0x2000, 0, .hw_execute, 0, 0⟩) =
      outcome demo_P
        (sparc_linux_remove_hw_breakpoint_1 demo_three demo_ptrace_ok
          ⟨0x2000, 0, .hw_execute, 0, 0⟩) :=
  ⟨by decide,
    ⟨_, rfl,
      (per_process_isolation demo_three demo_ptrace_ok demo_Q (by decide)).1
        0x8000 .hw_write 0 0 _ _ rfl⟩,
    ((per_process_isolation demo_three demo_ptrace_ok demo_Q (by decide)).2.2.2.1
      demo_alone demo_ptrace_ok rfl demo_three_live demo_alone_contents).1
        0x8000 .hw_write 0 rfl,
    by
      show Except.ok (_, _, _) = Except.ok (_, _, _)
      congr 2
      refine Prod.ext rfl ?_
      funext i
      fin_cases i <;> rfl,
    ((per_process_isolation demo_three demo_ptrace_ok demo_Q (by decide)).2.2.2.1
      demo_alone demo_ptrace_ok rfl demo_three_live demo_alone_contents).2
        demo_three_distinct demo_alone_distinct (fun _ => rfl) _⟩

/-! ## After an install call that failed -/

/-- A scan that meets a pointer to a released record, with no record equal to
`bp` at the positions before it, reads the released record. -/
theorem get_breakpoint_loop_released (heap : Heap) (list : sparc_linux_inferior_bps)
    (bp : sparc_linux_hw_breakpoint) (k : Fin SPARC_MAX_HW_BPS) (n : Nat)
    (hk : list.bps k = some n) (hc : cell heap n = none) :
    ∀ (fuel i : Nat), SPARC_MAX_HW_BPS < fuel + i → i ≤ k.val →
      (∀ (j : Fin SPARC_MAX_HW_BPS), i ≤ j.val → j.val < k.val → ∀ m, list.bps j = some m →
        ∃ r, cell heap m = some r ∧ hw_breakpoint_equal r bp = false) →
      get_breakpoint_loop heap list bp fuel i = .error .invalid_pointer := by
  intro fuel
  induction fuel with
  | zero => intro i h1 h2; have := k.isLt; omega
  | succ fuel ih =>
    intro i h1 h2 hall
    unfold get_breakpoint_loop
    have hi : i < SPARC_MAX_HW_BPS := lt_of_le_of_lt h2 k.isLt
    have h4 : SPARC_MAX_HW_BPS = 4 := rfl
    rw [dif_pos hi]
    by_cases hik : i = k.val
    · have hfin : (⟨i, hi⟩ : Fin SPARC_MAX_HW_BPS) = k := Fin.ext hik
      rw [hfin, hk]
      simp [hc]
    · have hrec := ih (i + 1) (by omega) (by omega)
        (fun j h1' h2' m hm => hall j (by omega) h2' m hm)
      cases hb : list.bps ⟨i, hi⟩ with
      | none => simpa using hrec
      | some m =>
        obtain ⟨r, hr, hne⟩ := hall ⟨i, hi⟩ (le_refl _) (show i < k.val by omega) m hb
        simp [hr, hne, hrec]

/-- The state that an insert leaves when its install call failed: the first
empty position holds the pointer to the released candidate, and every later
insert or remove for a pair that the set held no record of reads that
record. -/
theorem failed_install_state (s : State) (ptrace : ptrace_call → Int)
    (address : Nat) (type : target_hw_bp_type) (mask : Nat)
    (hlive : slots_live s.heap (slot_set s s.inferior_ptid))
    (hno : ¬ holds s.heap (slot_set s s.inferior_ptid) (to_unsigned_int address) type)
    (hfree : ∃ i, (slot_set s s.inferior_ptid).bps i = NULL)
    (hfail : ptrace (install_call s address type) < 0) :
    ∃ (k : Fin SPARC_MAX_HW_BPS) (s' : State),
      sparc_linux_insert_hw_breakpoint_1 s ptrace address type mask =
        .ok ⟨-1, s', [install_call s address type]⟩ ∧
      (slot_set s s.inferior_ptid).bps k = NULL ∧
      s'.inferior_ptid = s.inferior_ptid ∧
      s'.heap = s.heap ++ [none] ∧
      (slot_set s' s.inferior_ptid).bps =
        Function.update (slot_set s s.inferior_ptid).bps k (some s.heap.length) ∧
      (∀ (ptrace' : ptrace_call → Int) (comp_bp : sparc_linux_hw_breakpoint),
        ¬ holds s.heap (slot_set s s.inferior_ptid) comp_bp.address comp_bp.type →
        sparc_linux_remove_hw_breakpoint_1 s' ptrace' comp_bp = .error .invalid_pointer) ∧
      (∀ (ptrace' : ptrace_call → Int) (address' : Nat) (type' : target_hw_bp_type)
        (mask' : Nat),
        ¬ holds s.heap (slot_set s s.inferior_ptid) (to_unsigned_int address') type' →
        sparc_linux_insert_hw_breakpoint_1 s' ptrace' address' type' mask' =
          .error .invalid_pointer) := by
  obtain ⟨k, s', hk, hmin, hres, hheap, hpt, hsets⟩ :=
    insert_free_slot s ptrace address type mask hlive hno hfree
  rw [if_pos hfail, if_pos (Or.inl hfail)] at hres
  rw [if_pos hfail] at hheap
  have hbps : (slot_set s' s.inferior_ptid).bps =
      Function.update (slot_set s s.inferior_ptid).bps k (some s.heap.length) := by
    rw [hsets, if_pos rfl]
  have hscan : ∀ (h2 : Heap) (bp : sparc_linux_hw_breakpoint),
      (∀ m r, cell s.heap m = some r → cell h2 m = some r) →
      cell h2 s.heap.length = none →
      ¬ holds s.heap (slot_set s s.inferior_ptid) bp.address bp.type →
      get_breakpoint_in_inf_list h2 (slot_set s' s'.inferior_ptid) bp =
        .error .invalid_pointer := by
    intro h2 bp hold hnew hnb
    rw [hpt]
    apply get_breakpoint_loop_released h2 _ bp k s.heap.length
      (by rw [hbps]; simp) hnew (SPARC_MAX_HW_BPS + 1) 0 (by decide) (Nat.zero_le _)
    intro j _ hj m hm
    have hjk : j ≠ k := fun e => by rw [e] at hj; exact lt_irrefl _ hj
    rw [hbps, Function.update_noteq hjk] at hm
    obtain ⟨r, hr, he⟩ := absent_of_not_holds s.heap _ bp hlive hnb j m hm
    exact ⟨r, hold m r hr, he⟩
  refine ⟨k, s', hres, hk, hpt, hheap, hbps, ?_, ?_⟩
  · intro ptrace' comp_bp hnb
    apply remove_path_scan_fault
    apply hscan s'.heap comp_bp _ _ hnb
    · intro m r hm
      rw [hheap]
      exact cell_append_old _ hm
    · rw [hheap]
      exact cell_append_new _ _
  · intro ptrace' address' type' mask' hnb
    apply insert_path_scan_fault
    apply hscan _ (candidate address' type') _ _ hnb
    · intro m r hm
      rw [hheap]
      exact cell_append_old _ (cell_append_old _ hm)
    · rw [hheap, cell_append_lt _ (by simp)]
      exact cell_append_new _ _

/-! ## Claim about the identity of records -/

/-- C13, as the code behaves: the invariant is kept by the duplicate check of
`sparc_linux_insert_hw_breakpoint_1`, and an install call that fails leaves
the set in a state in which that check is undefined.  When the set of the
current inferior has every occupied position live, holds no record for the
pair and has an empty position, and the install call returns a negative
value, the insert returns -1 and leaves, at the position `k` that was empty,
the pointer to the candidate record of the pair, which it released: not every
occupied position of the set holds a record any more.  Every later insert for
a pair of which the set held no record, the same pair included, with any
process-control outcome and any mask, reads the released record in its
duplicate check: whether the pair is entered a second time is not determined
by the code. -/
theorem failed_install_defeats_duplicate_check (s : State) (ptrace : ptrace_call → Int)
    (address : Nat) (type : target_hw_bp_type) (mask : Nat)
    (hlive : slots_live s.heap (slot_set s s.inferior_ptid))
    (hno : ¬ holds s.heap (slot_set s s.inferior_ptid) (to_unsigned_int address) type)
    (hfree : ∃ i, (slot_set s s.inferior_ptid).bps i = NULL)
    (hfail : ptrace ⟨PTRACE_SETHBREGS, ptid_get_pid s.inferior_ptid, to_unsigned_int address,
      INSERT_BREAKPOINT type⟩ < 0) :
    ∃ (k : Fin SPARC_MAX_HW_BPS) (s' : State),
      sparc_linux_insert_hw_breakpoint_1 s ptrace address type mask =
        .ok ⟨-1, s', [⟨PTRACE_SETHBREGS, ptid_get_pid s.inferior_ptid,
          to_unsigned_int address, INSERT_BREAKPOINT type⟩]⟩ ∧
      (slot_set s s.inferior_ptid).bps k = NULL ∧
      (slot_set s' s'.inferior_ptid).bps k = some s.heap.length ∧
      cell s'.heap s.heap.length = none ∧
      ¬ slots_live s'.heap (slot_set s' s'.inferior_ptid) ∧
      (∀ (ptrace' : ptrace_call → Int) (mask' : Nat),
        sparc_linux_insert_hw_breakpoint_1 s' ptrace' address type mask' =
          .error .invalid_pointer) ∧
      (∀ (ptrace' : ptrace_call → Int) (address' : Nat) (type' : target_hw_bp_type)
        (mask' : Nat),
        ¬ holds s.heap (slot_set s s.inferior_ptid) (to_unsigned_int address') type' →
        sparc_linux_insert_hw_breakpoint_1 s' ptrace' address' type' mask' =
          .error .invalid_pointer) := by
  obtain ⟨k, s', hres, hk, hpt, hheap, hbps, _, hins⟩ :=
    failed_install_state s ptrace address type mask hlive hno hfree hfail
  have hkp : (slot_set s' s'.inferior_ptid).bps k = some s.heap.length := by
    rw [hpt, hbps]
    simp
  have hcell : cell s'.heap s.heap.length = none := by
    rw [hheap]
    exact cell_append_new _ _
  refine ⟨k, s', hres, hk, hkp, hcell, ?_, ?_, hins⟩
  · intro hl
    obtain ⟨r, hr⟩ := hl k _ hkp
    rw [hcell] at hr
    cases hr
  · intro ptrace' mask'
    exact hins ptrace' address type mask' hno

/-- The failing input of C13: in the empty state an execute breakpoint at
0x1000 is requested and the install call fails; the first position then holds
the pointer to the released record, and the same request made again, with a
process-control call that would succeed, reads it. -/
theorem failed_install_defeats_duplicate_check_witness :
    ∃ (k : Fin SPARC_MAX_HW_BPS) (s' : State),
      sparc_linux_insert_hw_breakpoint_1 demo_empty demo_ptrace_fail 0x1000 .hw_execute 0 =
        .ok ⟨-1, s', [⟨PTRACE_SETHBREGS, ptid_get_pid demo_empty.inferior_ptid,
          to_unsigned_int 0x1000, INSERT_BREAKPOINT .hw_execute⟩]⟩ ∧
      (slot_set demo_empty demo_empty.inferior_ptid).bps k = NULL ∧
      (slot_set s' s'.inferior_ptid).bps k = some demo_empty.heap.length ∧
      cell s'.heap demo_empty.heap.length = none ∧
      ¬ slots_live s'.heap (slot_set s' s'.inferior_ptid) ∧
      (∀ (ptrace' : ptrace_call → Int) (mask' : Nat),
        sparc_linux_insert_hw_breakpoint_1 s' ptrace' 0x1000 .hw_execute mask' =
          .error .invalid_pointer) ∧
      (∀ (ptrace' : ptrace_call → Int) (address' : Nat) (type' : target_hw_bp_type)
        (mask' : Nat),
        ¬ holds demo_empty.heap (slot_set demo_empty demo_empty.inferior_ptid)
          (to_unsigned_int address') type' →
        sparc_linux_insert_hw_breakpoint_1 s' ptrace' address' type' mask' =
          .error .invalid_pointer) :=
  failed_install_defeats_duplicate_check demo_empty demo_ptrace_fail 0x1000 .hw_execute 0
    demo_empty_live (demo_empty_not_holds _ _) ⟨0, rfl⟩ (by decide)

/-! ## Claim about install calls along a run -/

/-- C18, as the code behaves: the duplicate check separates two install calls
for a pair by a remove call only while every occupied position of the set
holds a record.  When the set of the current inferior has every occupied
position live, holds no record for the pair and has an empty position, and
the install call returns a negative value, the run of that one insert
completes: the install call for the pair was issued, and no record of the
pair is in the set.  But neither the run that requests the pair again nor the
run that first removes the pair completes, whatever the outcome of their
process-control calls: the second operation reads the record that the first
one released and left in the set.  So what follows the first install call for
the pair, a second install call included, is not determined by the code. -/
theorem install_retry_reads_released (s : State) (ptrace ptrace' : ptrace_call → Int)
    (address : Nat) (type : target_hw_bp_type) (mask mask' : Nat)
    (hlive : slots_live s.heap (slot_set s s.inferior_ptid))
    (hno : ¬ holds s.heap (slot_set s s.inferior_ptid) (to_unsigned_int address) type)
    (hfree : ∃ i, (slot_set s s.inferior_ptid).bps i = NULL)
    (hfail : ptrace ⟨PTRACE_SETHBREGS, ptid_get_pid s.inferior_ptid, to_unsigned_int address,
      INSERT_BREAKPOINT type⟩ < 0) :
    (∃ s' : State,
      run s [.insert ptrace address type mask] =
        .ok ([⟨s, .insert ptrace address type mask, -1,
          [⟨PTRACE_SETHBREGS, ptid_get_pid s.inferior_ptid, to_unsigned_int address,
            INSERT_BREAKPOINT type⟩]⟩], s') ∧
      ¬ holds s'.heap (slot_set s' s'.inferior_ptid) (to_unsigned_int address) type ∧
      dangling s') ∧
    run s [.insert ptrace address type mask, .insert ptrace' address type mask'] =
      .error .invalid_pointer ∧
    run s [.insert ptrace address type mask,
      .remove ptrace' ⟨to_unsigned_int address, mask', type, 0, 0⟩] =
      .error .invalid_pointer := by
  obtain ⟨k, s', hres, hk, hpt, hheap, hbps, hrem, hins⟩ :=
    failed_install_state s ptrace address type mask hlive hno hfree hfail
  have hcall : install_call s address type = ⟨PTRACE_SETHBREGS, ptid_get_pid s.inferior_ptid,
      to_unsigned_int address, INSERT_BREAKPOINT type⟩ := rfl
  rw [hcall] at hres
  refine ⟨⟨s', ?_, ?_, ?_⟩, ?_, ?_⟩
  · simp [run, run_op, hres]
  · rintro ⟨i, n, r, hn, hr, ha, ht⟩
    rw [hpt, hbps] at hn
    by_cases hik : i = k
    · subst hik
      simp at hn
      subst hn
      rw [hheap, cell_append_new] at hr
      cases hr
    · rw [Function.update_noteq hik] at hn
      obtain ⟨r0, hr0⟩ := hlive i n hn
      rw [hheap, cell_append_old _ hr0] at hr
      have e : r0 = r := Option.some.inj hr
      rw [← e] at ha ht
      exact hno ⟨i, n, r0, hn, hr0, ha, ht⟩
  · refine ⟨k, s.heap.length, ?_, ?_⟩
    · rw [hpt, hbps]
      simp
    · rw [hheap]
      exact cell_append_new _ _
  · simp [run, run_op, hres, hins ptrace' address type mask' hno]
  · simp [run, run_op, hres, hrem ptrace' ⟨to_unsigned_int address, mask', type, 0, 0⟩ hno]

/-- The failing input of C18: in the empty state an execute breakpoint at
0x1000 is requested and the install call fails; the request made again, or
the remove of the pair, does not complete. -/
theorem install_retry_reads_released_witness :
    (∃ s' : State,
      run demo_empty [.insert demo_ptrace_fail 0x1000 .hw_execute 0] =
        .ok ([⟨demo_empty, .insert demo_ptrace_fail 0x1000 .hw_execute 0, -1,
          [⟨PTRACE_SETHBREGS, ptid_get_pid demo_empty.inferior_ptid, to_unsigned_int 0x1000,
            INSERT_BREAKPOINT .hw_execute⟩]⟩], s') ∧
      ¬ holds s'.heap (slot_set s' s'.inferior_ptid) (to_unsigned_int 0x1000) .hw_execute ∧
      dangling s') ∧
    run demo_empty [.insert demo_ptrace_fail 0x1000 .hw_execute 0,
      .insert demo_ptrace_ok 0x1000 .hw_execute 0] = .error .invalid_pointer ∧
    run demo_empty [.insert demo_ptrace_fail 0x1000 .hw_execute 0,
      .remove demo_ptrace_ok ⟨to_unsigned_int 0x1000, 0, .hw_execute, 0, 0⟩] =
      .error .invalid_pointer :=
  install_retry_reads_released demo_empty demo_ptrace_fail demo_ptrace_ok 0x1000 .hw_execute
    0 0 demo_empty_live (demo_empty_not_holds _ _) ⟨0, rfl⟩ (by decide)

/-! ## Claim about the field `num` -/

theorem filter_length_flip {α : Type} [DecidableEq α] (f g : α → Bool) (k : α)
    (hfk : f k = false) (hgk : g k = true) (hother : ∀ i, i ≠ k → g i = f i) :
    ∀ L : List α, L.Nodup → k ∈ L → (L.filter g).length = (L.filter f).length + 1
  | [], _, hk => by cases hk
  | a :: L, hnd, hk => by
    have hnd' := List.nodup_cons.1 hnd
    by_cases hak : a = k
    · subst hak
      have hsame : L.filter g = L.filter f := by
        apply List.filter_congr
        intro x hx
        exact hother x (fun e => hnd'.1 (e ▸ hx))
      simp [List.filter_cons, hfk, hgk, hsame]
    · have hkL : k ∈ L := by
        rcases List.mem_cons.1 hk with e | e
        · exact absurd e.symm hak
        · exact e
      have ih := filter_length_flip f g k hfk hgk hother L hnd'.2 hkL
      rw [List.filter_cons, List.filter_cons, hother a hak]
      cases hfa : f a <;> simp [ih]

/-- Entering a pointer at an empty position raises the number of occupied
positions by one. -/
theorem occupied_update_some (l : sparc_linux_inferior_bps) (k : Fin SPARC_MAX_HW_BPS)
    (n : Nat) (hk : l.bps k = NULL) :
    occupied { l with bps := Function.update l.bps k (some n) } = occupied l + 1 := by
  unfold occupied
  apply filter_length_flip _ _ k _ _ _ _ (List.nodup_finRange _) (List.mem_finRange k)
  · simp [hk]
  · simp
  · intro i hi
    simp [Function.update_noteq hi]

/-- C12, as the code behaves: the field `num` is not a count of the occupied
positions.  When the set of the current inferior has every occupied position
live, holds no record for the pair and has an empty position, the insert
completes, with any outcome of the process-control calls; it occupies one
more position of the set and leaves the field `num` as it was: the field is
assigned once, the 0 that `sparc_linux_get_inferior_bps` gives it when it
creates the set.  So if `num` was the number of occupied positions before the
insert, it is not afterwards. -/
theorem count_field_not_updated (s : State) (ptrace : ptrace_call → Int)
    (address : Nat) (type : target_hw_bp_type) (mask : Nat)
    (hlive : slots_live s.heap (slot_set s s.inferior_ptid))
    (hno : ¬ holds s.heap (slot_set s s.inferior_ptid) (to_unsigned_int address) type)
    (hfree : ∃ i, (slot_set s s.inferior_ptid).bps i = NULL) :
    ∃ r : Ret Int,
      sparc_linux_insert_hw_breakpoint_1 s ptrace address type mask = .ok r ∧
      (slot_set r.st s.inferior_ptid).num = (slot_set s s.inferior_ptid).num ∧
      occupied (slot_set r.st s.inferior_ptid) =
        occupied (slot_set s s.inferior_ptid) + 1 ∧
      ((slot_set s s.inferior_ptid).num = (occupied (slot_set s s.inferior_ptid) : Int) →
        (slot_set r.st s.inferior_ptid).num ≠
          (occupied (slot_set r.st s.inferior_ptid) : Int)) := by
  obtain ⟨k, s', hk, _, hres, _, _, hsets⟩ :=
    insert_free_slot s ptrace address type mask hlive hno hfree
  have hset : slot_set s' s.inferior_ptid = { slot_set s s.inferior_ptid with
      bps := Function.update (slot_set s s.inferior_ptid).bps k (some s.heap.length) } := by
    rw [hsets, if_pos rfl]
  have hocc : occupied (slot_set s' s.inferior_ptid) =
      occupied (slot_set s s.inferior_ptid) + 1 := by
    rw [hset]
    exact occupied_update_some _ k _ hk
  have hnum : (slot_set s' s.inferior_ptid).num = (slot_set s s.inferior_ptid).num := by
    rw [hset]
  refine ⟨_, hres, hnum, hocc, ?_⟩
  intro h
  show (slot_set s' s.inferior_ptid).num ≠ (occupied (slot_set s' s.inferior_ptid) : Int)
  rw [hnum, hocc, h]
  push_cast
  omega

/-- The failing input of C12: the first request of a process, an execute
breakpoint at 0x1000, with an install call that succeeds.  Before it the set
is empty and `num` is 0; after it one position is occupied and `num` is
still 0. -/
theorem count_field_not_updated_witness :
    (slot_set demo_empty demo_empty.inferior_ptid).num = 0 ∧
    occupied (slot_set demo_empty demo_empty.inferior_ptid) = 0 ∧
    ∃ r : Ret Int,
      sparc_linux_insert_hw_breakpoint_1 demo_empty demo_ptrace_ok 0x1000 .hw_execute 0 =
        .ok r ∧
      (slot_set r.st demo_empty.inferior_ptid).num =
        (slot_set demo_empty demo_empty.inferior_ptid).num ∧
      occupied (slot_set r.st demo_empty.inferior_ptid) =
        occupied (slot_set demo_empty demo_empty.inferior_ptid) + 1 ∧
      ((slot_set demo_empty demo_empty.inferior_ptid).num =
          (occupied (slot_set demo_empty demo_empty.inferior_ptid) : Int) →
        (slot_set r.st demo_empty.inferior_ptid).num ≠
          (occupied (slot_set r.st demo_empty.inferior_ptid) : Int)) :=
  ⟨rfl, by decide,
    count_field_not_updated demo_empty demo_ptrace_ok 0x1000 .hw_execute 0
      demo_empty_live (demo_empty_not_holds _ _) ⟨0, rfl⟩⟩

end SparcLinuxNat
